import Mathlib

/-!
The gitstats collector: shallow embedding of `gitstats/gitstats.go`

The Go program is embedded as pure Lean functions.

* Go maps are association lists (`GoMap`): a write to an existing key replaces the
  value in place, a write to a new key appends.  `range` over a map visits the
  entries in list order; Go leaves that order unspecified, so statements about
  emitted records are made up to permutation.
* Pointer fields of the go-github payloads are `Option`s; dereferencing `nil`
  halts the run with `Res.panic`.
* `slug.Make` (external library) is a parameter `slug : String → String`.
* The remote client is a state-passing oracle (`Client σ`); every call is
  logged in a trace together with its response.
-/

namespace Gitstats

/-! ## Go maps with string keys -/

/-- A Go `map[string]V`. -/
abbrev GoMap (V : Type) := List (String × V)

/-- Lookup with the `ok` flag: `v, ok := m[k]`. -/
def GoMap.find {V : Type} : GoMap V → String → Option V
  | [], _ => none
  | (a, v) :: m, k => if a = k then some v else GoMap.find m k

/-- The `ok` flag of `_, ok := m[k]`. -/
def GoMap.has {V : Type} (m : GoMap V) (k : String) : Bool :=
  (GoMap.find m k).isSome

/-- Plain read `m[k]`: the zero value `d` when the key is missing. -/
def GoMap.findD {V : Type} (m : GoMap V) (k : String) (d : V) : V :=
  (GoMap.find m k).getD d

/-- Assignment `m[k] = v`. -/
def GoMap.put {V : Type} : GoMap V → String → V → GoMap V
  | [], k, v => [(k, v)]
  | (a, w) :: m, k, v => if a = k then (a, v) :: m else (a, w) :: GoMap.put m k v

/-- Keys of the map, in iteration order. -/
def GoMap.keys {V : Type} (m : GoMap V) : List String :=
  m.map Prod.fst

/-! ## Payloads and records -/

/-- Errors returned (not panics). -/
inductive GsError where
  /-- The error of `CollectMetrics` when `access_token` is missing or empty. -/
  | accessTokenMissing
  /-- An error returned by a remote call. -/
  | remote (msg : String)
  deriving DecidableEq, Repr

/-- Result of a Go function `(T, error)` that may also panic. -/
inductive Res (α : Type) where
  | ok (a : α)
  | error (e : GsError)
  | panic
  deriving DecidableEq, Repr

/-- A `ctypes.ConfigValue`: a string value or a value of another kind. -/
inductive ConfigValue where
  | str (Value : String)
  | other
  deriving DecidableEq, Repr

/-- The fields of `plugin.MetricType` the collector reads or writes. -/
structure MetricType where
  Namespace_ : List String
  Data_ : Option Int := none
  Timestamp_ : Nat := 0
  Version_ : Int := 0
  Config_ : GoMap ConfigValue := []
  deriving DecidableEq, Repr

/-- The `github.Label` payload. -/
structure Label where
  Name : Option String
  deriving DecidableEq, Repr

/-- The `github.Issue` payload. -/
structure Issue where
  State : Option String
  Labels : List Label
  deriving DecidableEq, Repr

/-- The `github.Repository` payload. -/
structure Repository where
  Name : Option String := none
  ForksCount : Option Int := none
  OpenIssuesCount : Option Int := none
  NetworkCount : Option Int := none
  StargazersCount : Option Int := none
  SubscribersCount : Option Int := none
  WatchersCount : Option Int := none
  Size : Option Int := none
  deriving DecidableEq, Repr

/-- The `github.User` payload. -/
structure User where
  Login : Option String := none
  Type_ : Option String := none
  PublicRepos : Option Int := none
  PublicGists : Option Int := none
  Followers : Option Int := none
  Following : Option Int := none
  deriving DecidableEq, Repr

/-- The `github.Organization` payload. -/
structure Organization where
  PrivateGists : Option Int := none
  TotalPrivateRepos : Option Int := none
  DiskUsage : Option Int := none
  deriving DecidableEq, Repr

/-! ## A concrete ASCII model of `slug.Make` for worked examples -/

/-- Per-character step of the slug model: `.` becomes `_` (the `CustomSub` set in
`init`), ASCII upper case is lowered, `[a-z0-9-_]` is kept, anything else is `-`. -/
def slugChar (c : Char) : Char :=
  if c = '.' then '_'
  else if 65 ≤ c.toNat ∧ c.toNat ≤ 90 then Char.ofNat (c.toNat + 32)
  else if (97 ≤ c.toNat ∧ c.toNat ≤ 122) ∨ (48 ≤ c.toNat ∧ c.toNat ≤ 57) ∨ c = '-' ∨ c = '_' then c
  else '-'

/-- Collapse runs of `-`. -/
def squeezeDash : List Char → List Char
  | [] => []
  | [c] => [c]
  | c :: d :: rest => if c = '-' ∧ d = '-' then squeezeDash (d :: rest) else c :: squeezeDash (d :: rest)

/-- Drop leading `-` and `_`. -/
def trimLead : List Char → List Char
  | [] => []
  | c :: rest => if c = '-' ∨ c = '_' then trimLead rest else c :: rest

/-- ASCII model of `slug.Make` with `CustomSub = {".": "_"}`. -/
def slugMake (s : String) : String :=
  String.mk (trimLead (trimLead (squeezeDash (s.data.map slugChar))).reverse).reverse

/-! ## `collectIssueMetrics` -/

/-- The local struct `labelMetric`. -/
structure LabelMetric where
  label : String
  state : String
  value : Int
  deriving DecidableEq, Repr

/-- First loop of `collectIssueMetrics`: an open and a closed counter per label. -/
def initLabelStats (slug : String → String) : GoMap LabelMetric → List Label → Res (GoMap LabelMetric)
  | stats, [] => .ok stats
  | stats, lv :: rest =>
    match lv.Name with
    | none => .panic
    | some name =>
      let labelSlug := slug name
      let stats1 := GoMap.put stats (labelSlug ++ ".open") ⟨labelSlug, "open", 0⟩
      let stats2 := GoMap.put stats1 (labelSlug ++ ".closed") ⟨labelSlug, "closed", 0⟩
      initLabelStats slug stats2 rest

/-- The key `fmt.Sprintf("%s.%s", a, b)`. -/
def sprintfKey (a b : String) : String :=
  a ++ "." ++ b

/-- The statement `stats[key].value++`: a missing key is a nil pointer. -/
def bump (stats : GoMap LabelMetric) (key : String) : Res (GoMap LabelMetric) :=
  match GoMap.find stats key with
  | none => .panic
  | some lm => .ok (GoMap.put stats key ⟨lm.label, lm.state, lm.value + 1⟩)

/-- Inner loop over the labels carried by one issue. -/
def tallyLabels (slug : String → String) (state : Option String) :
    GoMap LabelMetric → List Label → Res (GoMap LabelMetric)
  | stats, [] => .ok stats
  | stats, label :: rest =>
    match label.Name, state with
    | some name, some st =>
      match bump stats (sprintfKey (slug name) st) with
      | .ok stats1 => tallyLabels slug state stats1 rest
      | .error e => .error e
      | .panic => .panic
    | _, _ => .panic

/-- Body of the loop over issues. -/
def tallyIssue (slug : String → String) (stats : GoMap LabelMetric) (issue : Issue) :
    Res (GoMap LabelMetric) :=
  match issue.Labels with
  | [] =>
    match issue.State with
    | none => .panic
    | some st => bump stats (sprintfKey "NoLabel" st)
  | l :: ls => tallyLabels slug issue.State stats (l :: ls)

/-- Loop over issues. -/
def tallyIssues (slug : String → String) : GoMap LabelMetric → List Issue → Res (GoMap LabelMetric)
  | stats, [] => .ok stats
  | stats, issue :: rest =>
    match tallyIssue slug stats issue with
    | .ok stats1 => tallyIssues slug stats1 rest
    | .error e => .error e
    | .panic => .panic

/-- The record built for one counter in the last loop of `collectIssueMetrics`. -/
def issueRecord (m : MetricType) (collectionTime : Nat) (owner repo : String) (lm : LabelMetric) :
    MetricType :=
  { Data_ := some lm.value
    Namespace_ := ["raintank", "apps", "gitstats", "repo", owner, repo, "issuesbylabel",
      lm.label, lm.state, "count"]
    Timestamp_ := collectionTime
    Version_ := m.Version_ }

/-- The function `collectIssueMetrics`: initialise the table, tally the issues, emit one
record per entry. -/
def collectIssueMetrics (slug : String → String) (m : MetricType) (collectionTime : Nat)
    (owner repo : String) (labels : List Label) (issues : List Issue) : Res (List MetricType) :=
  match initLabelStats slug [] labels with
  | .ok stats0 =>
    let stats1 := GoMap.put stats0 ("NoLabel" ++ ".open") ⟨"NoLabel", "open", 0⟩
    let stats2 := GoMap.put stats1 ("NoLabel" ++ ".closed") ⟨"NoLabel", "closed", 0⟩
    match tallyIssues slug stats2 issues with
    | .ok stats => .ok (stats.map fun kv => issueRecord m collectionTime owner repo kv.2)
    | .error e => .error e
    | .panic => .panic
  | .error e => .error e
  | .panic => .panic

/-! ## `repoStats` -/

/-- The statement `if p != nil { stats[k] = *p }`. -/
def putIfSet (stats : GoMap Int) (k : String) (p : Option Int) : GoMap Int :=
  match p with
  | some v => GoMap.put stats k v
  | none => stats

/-- The function `repoStats`: the returned error is always nil. -/
def repoStats (resp : Repository) : Res (GoMap Int) :=
  let stats : GoMap Int := []
  let stats := putIfSet stats "forks" resp.ForksCount
  let stats := putIfSet stats "issues" resp.OpenIssuesCount
  let stats := putIfSet stats "network" resp.NetworkCount
  let stats := putIfSet stats "stars" resp.StargazersCount
  let stats := putIfSet stats "subscribers" resp.SubscribersCount
  let stats := putIfSet stats "watchers" resp.WatchersCount
  let stats := putIfSet stats "size" resp.Size
  .ok stats

/-! ## The remote client -/

/-- A remote operation of `GithubClient`, with its arguments. -/
inductive Call where
  | getUsers (user : String)
  | getOrganizations (org : String)
  | listRepositories (user : String)
  | getRepository (owner repo : String)
  | getAllLabelsAndIssues (owner repo : String)
  deriving DecidableEq, Repr

/-- What a remote operation answered. -/
inductive Reply where
  | user (u : User)
  | org (o : Organization)
  | repoList (rs : List Repository)
  | repo (r : Repository)
  | labelsAndIssues (ls : List Label) (is : List Issue)
  | failed (msg : String)
  deriving DecidableEq, Repr

/-- One remote call and its answer. -/
structure Event where
  call : Call
  reply : Reply
  deriving DecidableEq, Repr

/-- The remote client (the value `NewClient(accessToken)`), as an oracle with its own
state `σ`: each operation returns a payload or an error message, and a next state. -/
structure Client (σ : Type) where
  GetUsers : σ → String → Except String User × σ
  GetOrganizations : σ → String → Except String Organization × σ
  ListRepositories : σ → String → Except String (List Repository) × σ
  GetRepository : σ → String → String → Except String Repository × σ
  GetAllLabelsAndIssues : σ → String → String → Except String (List Label × List Issue) × σ

/-- State of the outside world: the client state and the log of remote calls so far. -/
structure World (σ : Type) where
  cs : σ
  trace : List Event

/-- The call `client.GetUsers(ctx, user)`, logged. -/
def callGetUsers {σ : Type} (c : Client σ) (w : World σ) (user : String) :
    Except String User × World σ :=
  match c.GetUsers w.cs user with
  | (.ok u, s) => (.ok u, ⟨s, w.trace ++ [⟨.getUsers user, .user u⟩]⟩)
  | (.error e, s) => (.error e, ⟨s, w.trace ++ [⟨.getUsers user, .failed e⟩]⟩)

/-- The call `client.GetOrganizations(ctx, org)`, logged. -/
def callGetOrganizations {σ : Type} (c : Client σ) (w : World σ) (org : String) :
    Except String Organization × World σ :=
  match c.GetOrganizations w.cs org with
  | (.ok o, s) => (.ok o, ⟨s, w.trace ++ [⟨.getOrganizations org, .org o⟩]⟩)
  | (.error e, s) => (.error e, ⟨s, w.trace ++ [⟨.getOrganizations org, .failed e⟩]⟩)

/-- The call `client.ListRepositories(ctx, user, opt)`, logged. -/
def callListRepositories {σ : Type} (c : Client σ) (w : World σ) (user : String) :
    Except String (List Repository) × World σ :=
  match c.ListRepositories w.cs user with
  | (.ok rs, s) => (.ok rs, ⟨s, w.trace ++ [⟨.listRepositories user, .repoList rs⟩]⟩)
  | (.error e, s) => (.error e, ⟨s, w.trace ++ [⟨.listRepositories user, .failed e⟩]⟩)

/-- The call `client.GetRepository(ctx, owner, repo)`, logged. -/
def callGetRepository {σ : Type} (c : Client σ) (w : World σ) (owner repo : String) :
    Except String Repository × World σ :=
  match c.GetRepository w.cs owner repo with
  | (.ok r, s) => (.ok r, ⟨s, w.trace ++ [⟨.getRepository owner repo, .repo r⟩]⟩)
  | (.error e, s) => (.error e, ⟨s, w.trace ++ [⟨.getRepository owner repo, .failed e⟩]⟩)

/-- The call `client.GetAllLabelsAndIssues(ctx, owner, repo)`, logged. -/
def callGetAllLabelsAndIssues {σ : Type} (c : Client σ) (w : World σ) (owner repo : String) :
    Except String (List Label × List Issue) × World σ :=
  match c.GetAllLabelsAndIssues w.cs owner repo with
  | (.ok p, s) => (.ok p, ⟨s, w.trace ++ [⟨.getAllLabelsAndIssues owner repo, .labelsAndIssues p.1 p.2⟩]⟩)
  | (.error e, s) => (.error e, ⟨s, w.trace ++ [⟨.getAllLabelsAndIssues owner repo, .failed e⟩]⟩)

/-! ## `userStats` -/

/-- The function `userStats`: the four public counters, and for an organization a second remote
call for the private ones. -/
def userStats {σ : Type} (c : Client σ) (user : User) (w : World σ) : Res (GoMap Int) × World σ :=
  let stats : GoMap Int := []
  let stats := putIfSet stats "public_repos" user.PublicRepos
  let stats := putIfSet stats "public_gists" user.PublicGists
  let stats := putIfSet stats "followers" user.Followers
  let stats := putIfSet stats "following" user.Following
  match user.Type_ with
  | none => (.panic, w)
  | some t =>
    if t = "Organization" then
      match user.Login with
      | none => (.panic, w)
      | some login =>
        match callGetOrganizations c w login with
        | (.error e, w1) => (.error (.remote e), w1)
        | (.ok org, w1) =>
          let stats := putIfSet stats "private_gists" org.PrivateGists
          let stats := putIfSet stats "private_repos" org.TotalPrivateRepos
          let stats := putIfSet stats "disk_usage" org.DiskUsage
          (.ok stats, w1)
    else (.ok stats, w)

/-! ## `gitStats` -/

/-- The mutable locals of `gitStats`. -/
structure Locals where
  repos : GoMap (GoMap (GoMap Int)) := []
  users : GoMap (GoMap Int) := []
  userRepos : GoMap Unit := []
  authUser : String := ""
  metrics : List MetricType := []
  deriving DecidableEq, Repr

/-- Reading an optional string setting: `v, ok := conf[key]; if ok && v.(ConfigValueStr).Value != ""`
keeps the value, otherwise the variable stays `""`.  The type assertion panics on a
value that is not a string. -/
def confString (conf : GoMap ConfigValue) (key : String) : Res String :=
  match GoMap.find conf key with
  | none => .ok ""
  | some (.str v) => if v ≠ "" then .ok v else .ok ""
  | some .other => .panic

/-- The record literal built for a simple counter. -/
def counterRecord (m : MetricType) (collectionTime : Nat) (data : Int) (ns : List String) :
    MetricType :=
  { Data_ := some data
    Namespace_ := ns
    Timestamp_ := collectionTime
    Version_ := m.Version_ }

/-- Repo family, lines 112-125: resolve the authenticated user when `authUser` is empty. -/
def resolveAuthUserRepo {σ : Type} (c : Client σ) (l : Locals) (w : World σ) : Res Locals × World σ :=
  if l.authUser = "" then
    match callGetUsers c w "" with
    | (.error e, w1) => (.error (.remote e), w1)
    | (.ok gitUser, w1) =>
      match userStats c gitUser w1 with
      | (.error e, w2) => (.error e, w2)
      | (.panic, w2) => (.panic, w2)
      | (.ok stats, w2) =>
        match gitUser.Login with
        | none => (.panic, w2)
        | some login =>
          (.ok { l with users := GoMap.put l.users login stats, authUser := login }, w2)
  else (.ok l, w)

/-- Repo family, lines 197-199 (and 138-140): make sure `repos[user]` exists. -/
def ensureOwner (user : String) (l : Locals) : Locals :=
  if GoMap.has l.repos user then l else { l with repos := GoMap.put l.repos user [] }

/-- Repo family, lines 200-213: fetch the repository unless its slug is cached for the owner. -/
def fetchRepo {σ : Type} (slug : String → String) (c : Client σ) (user repo : String)
    (l : Locals) (w : World σ) : Res Locals × World σ :=
  if GoMap.has (GoMap.findD l.repos user []) (slug repo) then (.ok l, w)
  else
    match callGetRepository c w user repo with
    | (.error e, w1) => (.error (.remote e), w1)
    | (.ok r, w1) =>
      match repoStats r with
      | .error e => (.error e, w1)
      | .panic => (.panic, w1)
      | .ok stats =>
        let inner := GoMap.put (GoMap.findD l.repos user []) (slug repo) stats
        (.ok { l with repos := GoMap.put l.repos user inner }, w1)

/-- Repo family, lines 182-194: the issues-by-label records of one repository. -/
def issuesByLabel {σ : Type} (slug : String → String) (c : Client σ) (m : MetricType)
    (collectionTime : Nat) (user repo repoSlug : String) (l : Locals) (w : World σ) :
    Res Locals × World σ :=
  match callGetAllLabelsAndIssues c w user repo with
  | (.error e, w1) => (.error (.remote e), w1)
  | (.ok (labels, issues), w1) =>
    match collectIssueMetrics slug m collectionTime user repoSlug labels issues with
    | .error e => (.error e, w1)
    | .panic => (.panic, w1)
    | .ok issueMetrics => (.ok { l with metrics := l.metrics ++ issueMetrics }, w1)

/-- Repo family, lines 141-165: the loop over the listed repositories. -/
def expandLoop {σ : Type} (slug : String → String) (c : Client σ) (m : MetricType)
    (collectionTime : Nat) (user repo stat : String) :
    Locals → World σ → List Repository → Res Locals × World σ
  | l, w, [] => (.ok l, w)
  | l, w, r :: rest =>
    match r.Name with
    | none => (.panic, w)
    | some name =>
      let repoSlug := slug name
      if stat = "issuesbylabel" then
        match issuesByLabel slug c m collectionTime user repo repoSlug l w with
        | (.error e, w1) => (.error e, w1)
        | (.panic, w1) => (.panic, w1)
        | (.ok l1, w1) => expandLoop slug c m collectionTime user repo stat l1 w1 rest
      else
        match repoStats r with
        | .error e => (.error e, w)
        | .panic => (.panic, w)
        | .ok stats =>
          let inner := GoMap.put (GoMap.findD l.repos user []) repoSlug stats
          expandLoop slug c m collectionTime user repo stat
            { l with repos := GoMap.put l.repos user inner } w rest

/-- Repo family, lines 167-175: one record per entry of `repos[user]`. -/
def emitUserRepos (m : MetricType) (collectionTime : Nat) (user stat : String) (l : Locals) :
    Locals :=
  let emitted := (GoMap.findD l.repos user []).map fun kv =>
    counterRecord m collectionTime (GoMap.findD kv.2 stat 0)
      ["raintank", "apps", "gitstats", "repo", user, kv.1, stat]
  { l with metrics := l.metrics ++ emitted }

/-- Repo family, lines 128-175: the wildcard repository with no configured repository. -/
def expandWildcardRepo {σ : Type} (slug : String → String) (c : Client σ) (m : MetricType)
    (collectionTime : Nat) (user repo stat : String) (l : Locals) (w : World σ) :
    Res Locals × World σ :=
  if GoMap.has l.userRepos user then
    (.ok (emitUserRepos m collectionTime user stat l), w)
  else
    match callListRepositories c w user with
    | (.error e, w1) => (.error (.remote e), w1)
    | (.ok repoList, w1) =>
      let l1 := { l with userRepos := GoMap.put l.userRepos user () }
      match expandLoop slug c m collectionTime user repo stat (ensureOwner user l1) w1 repoList with
      | (.error e, w2) => (.error e, w2)
      | (.panic, w2) => (.panic, w2)
      | (.ok l3, w2) => (.ok (emitUserRepos m collectionTime user stat l3), w2)

/-- Repo family, lines 176-222: one repository (named, or the configured one). -/
def concreteRepo {σ : Type} (slug : String → String) (c : Client σ) (m : MetricType)
    (collectionTime : Nat) (useRepo user repo0 stat : String) (l : Locals) (w : World σ) :
    Res Locals × World σ :=
  let repo := if repo0 = "*" then useRepo else repo0
  let repoSlug := slug repo
  if stat = "issuesbylabel" then
    issuesByLabel slug c m collectionTime user repo repoSlug l w
  else
    match fetchRepo slug c user repo (ensureOwner user l) w with
    | (.error e, w1) => (.error e, w1)
    | (.panic, w1) => (.panic, w1)
    | (.ok l2, w1) =>
      let mt := counterRecord m collectionTime
        (GoMap.findD (GoMap.findD (GoMap.findD l2.repos user []) repo []) stat 0)
        ["raintank", "apps", "gitstats", "repo", user, repoSlug, stat]
      (.ok { l2 with metrics := l2.metrics ++ [mt] }, w1)

/-- The `case "repo"` arm of the switch. -/
def repoCase {σ : Type} (slug : String → String) (c : Client σ) (m : MetricType)
    (collectionTime : Nat) (useRepo : String) (ns : List String) (l : Locals) (w : World σ) :
    Res Locals × World σ :=
  match ns[4]?, ns[5]?, ns[6]? with
  | some user0, some repo, some stat =>
    let resolved : Res Locals × World σ :=
      if user0 = "*" then resolveAuthUserRepo c l w else (.ok l, w)
    match resolved with
    | (.error e, w1) => (.error e, w1)
    | (.panic, w1) => (.panic, w1)
    | (.ok l1, w1) =>
      let user := if user0 = "*" then l1.authUser else user0
      if repo = "*" ∧ useRepo = "" then
        expandWildcardRepo slug c m collectionTime user repo stat l1 w1
      else
        concreteRepo slug c m collectionTime useRepo user repo stat l1 w1
  | _, _, _ => (.panic, w)

/-- Fetch an identity by login and store its stats under `key` (lines 245-255 and 262-272). -/
def fetchUser {σ : Type} (c : Client σ) (login key : String) (l : Locals) (w : World σ) :
    Res Locals × World σ :=
  match callGetUsers c w login with
  | (.error e, w1) => (.error (.remote e), w1)
  | (.ok u, w1) =>
    match userStats c u w1 with
    | (.error e, w2) => (.error e, w2)
    | (.panic, w2) => (.panic, w2)
    | (.ok stats, w2) => (.ok { l with users := GoMap.put l.users key stats }, w2)

/-- User family, lines 228-258: the wildcard user. -/
def resolveAuthUserUser {σ : Type} (c : Client σ) (l : Locals) (w : World σ) : Res Locals × World σ :=
  if l.authUser = "" then
    match callGetUsers c w "" with
    | (.error e, w1) => (.error (.remote e), w1)
    | (.ok gitUser, w1) =>
      match gitUser.Login with
      | none => (.panic, w1)
      | some login =>
        match userStats c gitUser w1 with
        | (.error e, w2) => (.error e, w2)
        | (.panic, w2) => (.panic, w2)
        | (.ok stats, w2) =>
          (.ok { l with authUser := login, users := GoMap.put l.users login stats }, w2)
  else if GoMap.has l.users l.authUser then (.ok l, w)
  else fetchUser c l.authUser l.authUser l w

/-- The `case "user"` arm of the switch. -/
def userCase {σ : Type} (c : Client σ) (m : MetricType) (collectionTime : Nat)
    (ns : List String) (l : Locals) (w : World σ) : Res Locals × World σ :=
  match ns[4]?, ns[5]? with
  | some user0, some stat =>
    let resolved : Res Locals × World σ :=
      if user0 = "*" then resolveAuthUserUser c l w
      else if GoMap.has l.users user0 then (.ok l, w)
      else fetchUser c user0 user0 l w
    match resolved with
    | (.error e, w1) => (.error e, w1)
    | (.panic, w1) => (.panic, w1)
    | (.ok l1, w1) =>
      let user := if user0 = "*" then l1.authUser else user0
      let mt := counterRecord m collectionTime
        (GoMap.findD (GoMap.findD l1.users user []) stat 0)
        ["raintank", "apps", "gitstats", "user", user, stat]
      (.ok { l1 with metrics := l1.metrics ++ [mt] }, w1)
  | _, _ => (.panic, w)

/-- Body of the loop over the requested metrics: `switch ns[3]` has no default arm. -/
def gitStatsStep {σ : Type} (slug : String → String) (c : Client σ) (collectionTime : Nat)
    (useRepo : String) (l : Locals) (w : World σ) (m : MetricType) : Res Locals × World σ :=
  let ns := m.Namespace_
  match ns[3]? with
  | none => (.panic, w)
  | some family =>
    if family = "repo" then repoCase slug c m collectionTime useRepo ns l w
    else if family = "user" then userCase c m collectionTime ns l w
    else (.ok l, w)

/-- The loop `for _, m := range mts`. -/
def gitStatsLoop {σ : Type} (slug : String → String) (c : Client σ) (collectionTime : Nat)
    (useRepo : String) : Locals → World σ → List MetricType → Res Locals × World σ
  | l, w, [] => (.ok l, w)
  | l, w, m :: rest =>
    match gitStatsStep slug c collectionTime useRepo l w m with
    | (.ok l1, w1) => gitStatsLoop slug c collectionTime useRepo l1 w1 rest
    | (.error e, w1) => (.error e, w1)
    | (.panic, w1) => (.panic, w1)

/-- The function `gitStats`.  The parameter `c` is the client `NewClient(accessToken)` and `collectionTime` the
value of `time.Now()` read once at the start. -/
def gitStats {σ : Type} (slug : String → String) (c : Client σ) (collectionTime : Nat)
    (mts : List MetricType) (w : World σ) : Res (List MetricType) × World σ :=
  match mts with
  | [] => (.panic, w)
  | m0 :: _ =>
    match confString m0.Config_ "user", confString m0.Config_ "repo" with
    | .ok authUser, .ok useRepo =>
      match gitStatsLoop slug c collectionTime useRepo { authUser := authUser } w mts with
      | (.ok l, w1) => (.ok l.metrics, w1)
      | (.error e, w1) => (.error e, w1)
      | (.panic, w1) => (.panic, w1)
    | _, _ => (.panic, w)

/-- The method `CollectMetrics`: the credential check, then `gitStats`. -/
def CollectMetrics {σ : Type} (slug : String → String) (c : Client σ) (collectionTime : Nat)
    (mts : List MetricType) (w : World σ) : Res (List MetricType) × World σ :=
  match mts with
  | [] => (.panic, w)
  | m0 :: _ =>
    match GoMap.find m0.Config_ "access_token" with
    | none => (.error .accessTokenMissing, w)
    | some .other => (.panic, w)
    | some (.str accessToken) =>
      if accessToken = "" then (.error .accessTokenMissing, w)
      else
        match gitStats slug c collectionTime mts w with
        | (.ok metrics, w1) => (.ok metrics, w1)
        | (.error e, w1) => (.error e, w1)
        | (.panic, w1) => (.panic, w1)

/-! ## Specification-side definitions -/


/-- Specification: number of (issue, carried label) occurrences with slug `L` on issues of state `S`. -/
def specLabelCount (slug : String → String) (L S : String) (issues : List Issue) : Nat :=
  ((issues.filter fun i => i.State = some S).map fun i =>
    i.Labels.countP fun l => l.Name.map slug = some L).sum

/-- Specification: number of issues of state `S` that carry no label. -/
def specNoLabelCount (S : String) (issues : List Issue) : Nat :=
  issues.countP fun i => i.State = some S ∧ i.Labels = []

/-- The namespace of an issues-by-label record. -/
def issueNs (owner repo L S : String) : List String :=
  ["raintank", "apps", "gitstats", "repo", owner, repo, "issuesbylabel", L, S, "count"]

/-- Key, label and state of every entry of a counter table, in order. -/
def shape (T : GoMap LabelMetric) : List (String × String × String) :=
  T.map fun kv => (kv.1, kv.2.label, kv.2.state)

/-- The counter stored under a key, `0` when the key is missing. -/
def valueAt (T : GoMap LabelMetric) (k : String) : Int :=
  match GoMap.find T k with
  | some lm => lm.value
  | none => 0

/-- Well-formedness of the shape of a counter table: keys are pairwise distinct, every
entry sits under the key `label.state`, and its state is `open` or `closed`. -/
def ShapeOk (S : GoMap (String × String)) : Prop :=
  (GoMap.keys S).Nodup ∧
    ∀ kv ∈ S, kv.1 = sprintfKey kv.2.1 kv.2.2 ∧ (kv.2.2 = "open" ∨ kv.2.2 = "closed")

/-- The label slugs of a label list (labels without a name have none). -/
def labelSlugs (slug : String → String) (labels : List Label) : List String :=
  labels.filterMap fun lv => lv.Name.map slug

/-- Specification: the counter of a repository payload named by an extractor key. -/
def repoCounter (r : Repository) (s : String) : Option Int :=
  if s = "forks" then r.ForksCount
  else if s = "issues" then r.OpenIssuesCount
  else if s = "network" then r.NetworkCount
  else if s = "stars" then r.StargazersCount
  else if s = "subscribers" then r.SubscribersCount
  else if s = "watchers" then r.WatchersCount
  else if s = "size" then r.Size
  else none

/-- Specification: the public counter of an identity payload named by an extractor key. -/
def userCounter (u : User) (s : String) : Option Int :=
  if s = "public_repos" then u.PublicRepos
  else if s = "public_gists" then u.PublicGists
  else if s = "followers" then u.Followers
  else if s = "following" then u.Following
  else none

/-- The mapping `repoStats` returns (it never fails). -/
def repoStatsMap (r : Repository) : GoMap Int :=
  match repoStats r with
  | .ok st => st
  | _ => []

/-- A client without state that gives the same answer to every call of an operation. -/
def fixedClient (user : Except String User) (org : Except String Organization)
    (repoList : Except String (List Repository)) (repo : Except String Repository)
    (labelsIssues : Except String (List Label × List Issue)) : Client Unit where
  GetUsers := fun s _ => (user, s)
  GetOrganizations := fun s _ => (org, s)
  ListRepositories := fun s _ => (repoList, s)
  GetRepository := fun s _ _ => (repo, s)
  GetAllLabelsAndIssues := fun s _ _ => (labelsIssues, s)

/-- The namespace of a request or record under the fixed schema. -/
def gsNs (rest : List String) : List String :=
  "raintank" :: "apps" :: "gitstats" :: rest

/-- Whether a reply is a failure of the remote call. -/
def Reply.isFailed : Reply → Bool
  | .failed _ => true
  | _ => false

/-- No remote call of the log failed. -/
def NoFail (t : List Event) : Prop :=
  ∀ e ∈ t, e.reply.isFailed = false

/-- Fail-stop discipline of a finished (or continuing) run: an error result is the error of the
last logged call, the only failed one; any other result has a log without failures. -/
def FailStop {α : Type} (r : Res α) (t : List Event) : Prop :=
  match r with
  | .error e => ∃ pre call msg, t = pre ++ [⟨call, .failed msg⟩] ∧ NoFail pre ∧ e = .remote msg
  | _ => NoFail t

/-- The log `t2` extends the log `t` by calls that all satisfy `Q`. -/
def Calls (Q : Call → Prop) (t t2 : List Event) : Prop :=
  ∃ evs, t2 = t ++ evs ∧ ∀ e ∈ evs, Q e.call

/-- Every cached (owner, repository slug) entry of `l` is still cached in `l2`. -/
def ReposGrow (l l2 : Locals) : Prop :=
  ∀ o k, GoMap.has (GoMap.findD l.repos o []) k = true →
    GoMap.has (GoMap.findD l2.repos o []) k = true

/-- Every record of the list has `user` as its owner segment (position 4 of the namespace). -/
def OwnerAll (user : String) (new : List MetricType) : Prop :=
  ∀ r ∈ new, r.Namespace_[4]? = some user

/-- What a sub-step for owner `user` may change: `authUser` is kept, the repository cache only
grows, and the records appended all have owner segment `user`. -/
def Keep (user : String) (l l2 : Locals) : Prop :=
  l2.authUser = l.authUser ∧ ReposGrow l l2 ∧
    ∃ new, l2.metrics = l.metrics ++ new ∧ OwnerAll user new

/-- The cache key (owner, repository slug) of a logged repository fetch. -/
def repoFetchKey (slug : String → String) (e : Event) : Option (String × String) :=
  match e.call with
  | .getRepository o r => some (o, slug r)
  | _ => none

/-- The cache keys of the repository fetches of a log, in order. -/
def repoFetchKeys (slug : String → String) (t : List Event) : List (String × String) :=
  t.filterMap (repoFetchKey slug)

/-- Cache invariant of a continuing run: no key was fetched twice and every fetched key is in
the repository cache. -/
def FetchedOnce (slug : String → String) (l : Locals) (t : List Event) : Prop :=
  (repoFetchKeys slug t).Nodup ∧
    ∀ p ∈ repoFetchKeys slug t, GoMap.has (GoMap.findD l.repos p.1 []) p.2 = true

/-- A call other than a repository fetch. -/
def Call.notRepoFetch (c : Call) : Prop :=
  ∀ o r, c ≠ .getRepository o r

/-- Whether a logged call is the authenticated-identity lookup `GetUsers("")`. -/
def Event.isWhoAmI (e : Event) : Bool :=
  decide (e.call = .getUsers "")

/-- The authenticated-identity lookups of a log, in order. -/
def whoAmICalls (t : List Event) : List Event :=
  t.filter Event.isWhoAmI

/-- A call other than the authenticated-identity lookup. -/
def Call.notWhoAmI (c : Call) : Prop :=
  c ≠ .getUsers ""

/-- Resolution invariant of a continuing run started with no configured user: either no
authenticated-identity lookup was made and `authUser` is still empty, or exactly one was
made, it succeeded, and `authUser` is the non-empty login it returned. -/
def ResolvedOnce (l : Locals) (t : List Event) : Prop :=
  (whoAmICalls t = [] ∧ l.authUser = "") ∨
    ∃ u L, whoAmICalls t = [⟨.getUsers "", .user u⟩] ∧ u.Login = some L ∧ L ≠ "" ∧
      l.authUser = L

/-- A client without state whose answers depend on the arguments of the call only. -/
def lookupClient (user : String → Except String User) (org : String → Except String Organization)
    (repoList : String → Except String (List Repository))
    (repo : String → String → Except String Repository)
    (labelsIssues : String → String → Except String (List Label × List Issue)) : Client Unit where
  GetUsers := fun s u => (user u, s)
  GetOrganizations := fun s o => (org o, s)
  ListRepositories := fun s u => (repoList u, s)
  GetRepository := fun s o r => (repo o r, s)
  GetAllLabelsAndIssues := fun s o r => (labelsIssues o r, s)

/-- A call other than the listing of an owner's repositories. -/
def Call.notList (c : Call) : Prop :=
  ∀ u, c ≠ .listRepositories u

/-- Every record of the list carries the collection time `now` and the schema version of the
request `m`. -/
def Stamped (now : Nat) (m : MetricType) (new : List MetricType) : Prop :=
  ∀ r ∈ new, r.Timestamp_ = now ∧ r.Version_ = m.Version_

/-- The counter table after both initialisation steps of `collectIssueMetrics`: the table of
the label loop with the two `NoLabel` counters added. -/
def initialTable (T0 : GoMap LabelMetric) : GoMap LabelMetric :=
  GoMap.put (GoMap.put T0 ("NoLabel" ++ ".open") ⟨"NoLabel", "open", 0⟩)
    ("NoLabel" ++ ".closed") ⟨"NoLabel", "closed", 0⟩

/-- The keys `tallyIssue` looks up for one issue: the `NoLabel` key of its state when it carries
no label, otherwise one key per carried label. -/
def lookupKeys (slug : String → String) (i : Issue) : List String :=
  match i.Labels with
  | [] =>
    match i.State with
    | none => []
    | some st => [sprintfKey "NoLabel" st]
  | l :: ls =>
    (l :: ls).filterMap fun label =>
      match label.Name, i.State with
      | some name, some st => some (sprintfKey (slug name) st)
      | _, _ => none

/-! ## Lemmas on Go maps -/

theorem GoMap.find_put {V : Type} (m : GoMap V) (k : String) (v : V) (k2 : String) :
    GoMap.find (GoMap.put m k v) k2 = if k = k2 then some v else GoMap.find m k2 := by
  induction m with
  | nil => simp [GoMap.put, GoMap.find]
  | cons hd tl ih =>
    obtain ⟨a, w⟩ := hd
    by_cases hak : a = k
    · subst hak
      by_cases h2 : a = k2 <;> simp [GoMap.put, GoMap.find, h2]
    · by_cases h2 : a = k2
      · subst h2
        have : ¬ k = a := fun h => hak h.symm
        simp [GoMap.put, GoMap.find, hak, this]
      · simp [GoMap.put, GoMap.find, hak, h2, ih]

theorem GoMap.find_put_self {V : Type} (m : GoMap V) (k : String) (v : V) :
    GoMap.find (GoMap.put m k v) k = some v := by
  simp [GoMap.find_put]

theorem GoMap.find_put_ne {V : Type} (m : GoMap V) (k : String) (v : V) (k2 : String)
    (h : k ≠ k2) : GoMap.find (GoMap.put m k v) k2 = GoMap.find m k2 := by
  simp [GoMap.find_put, h]

theorem GoMap.find_isSome_iff {V : Type} (m : GoMap V) (k : String) :
    (GoMap.find m k).isSome = true ↔ k ∈ GoMap.keys m := by
  induction m with
  | nil => simp [GoMap.find, GoMap.keys]
  | cons hd tl ih =>
    obtain ⟨a, w⟩ := hd
    by_cases hak : a = k
    · simp [GoMap.find, GoMap.keys, hak]
    · have : ¬ k = a := fun h => hak h.symm
      simp only [GoMap.keys] at ih
      simp [GoMap.find, GoMap.keys, hak, this, ih]

theorem GoMap.has_iff {V : Type} (m : GoMap V) (k : String) :
    GoMap.has m k = true ↔ k ∈ GoMap.keys m := by
  simp [GoMap.has, GoMap.find_isSome_iff]

theorem GoMap.keys_put {V : Type} (m : GoMap V) (k : String) (v : V) :
    GoMap.keys (GoMap.put m k v) = if k ∈ GoMap.keys m then GoMap.keys m else GoMap.keys m ++ [k] := by
  induction m with
  | nil => simp [GoMap.put, GoMap.keys]
  | cons hd tl ih =>
    obtain ⟨a, w⟩ := hd
    simp only [GoMap.keys] at ih
    by_cases hak : a = k
    · simp [GoMap.put, GoMap.keys, hak]
    · have : ¬ k = a := fun h => hak h.symm
      by_cases hk : k ∈ List.map Prod.fst tl
      · simp [GoMap.put, GoMap.keys, hak, this, ih, hk]
      · simp [GoMap.put, GoMap.keys, hak, this, ih, hk]

theorem GoMap.nodup_keys_put {V : Type} (m : GoMap V) (k : String) (v : V)
    (h : (GoMap.keys m).Nodup) : (GoMap.keys (GoMap.put m k v)).Nodup := by
  rw [GoMap.keys_put]
  split
  · exact h
  · rename_i hk
    exact List.Nodup.append h (List.nodup_singleton k) (by simpa using hk)

theorem GoMap.mem_put {V : Type} (m : GoMap V) (k : String) (v : V) (kv : String × V)
    (h : kv ∈ GoMap.put m k v) : kv = (k, v) ∨ kv ∈ m := by
  induction m with
  | nil => simpa [GoMap.put] using h
  | cons hd tl ih =>
    obtain ⟨a, w⟩ := hd
    by_cases hak : a = k
    · subst hak
      simp only [GoMap.put, if_true, List.mem_cons] at h
      rcases h with h | h
      · exact Or.inl h
      · exact Or.inr (List.mem_cons_of_mem _ h)
    · simp only [GoMap.put, hak, if_false, List.mem_cons] at h
      rcases h with h | h
      · exact Or.inr (h ▸ List.mem_cons_self _ _)
      · rcases ih h with h1 | h1
        · exact Or.inl h1
        · exact Or.inr (List.mem_cons_of_mem _ h1)

theorem GoMap.mem_put_self {V : Type} (m : GoMap V) (k : String) (v : V) :
    (k, v) ∈ GoMap.put m k v := by
  induction m with
  | nil => simp [GoMap.put]
  | cons hd tl ih =>
    obtain ⟨a, w⟩ := hd
    by_cases hak : a = k
    · simp [GoMap.put, hak]
    · simp only [GoMap.put, hak, if_false, List.mem_cons]
      exact Or.inr ih

theorem GoMap.mem_put_of_ne {V : Type} (m : GoMap V) (k : String) (v : V) (kv : String × V)
    (h : kv ∈ m) (hne : kv.1 ≠ k) : kv ∈ GoMap.put m k v := by
  induction m with
  | nil => simp at h
  | cons hd tl ih =>
    obtain ⟨a, w⟩ := hd
    by_cases hak : a = k
    · subst hak
      simp only [GoMap.put, if_true, List.mem_cons]
      rcases List.mem_cons.1 h with h1 | h1
      · exact absurd (by rw [h1]) hne
      · exact Or.inr h1
    · simp only [GoMap.put, hak, if_false, List.mem_cons]
      rcases List.mem_cons.1 h with h1 | h1
      · exact Or.inl h1
      · exact Or.inr (ih h1)

theorem GoMap.find_of_mem {V : Type} (m : GoMap V) (kv : String × V)
    (hnd : (GoMap.keys m).Nodup) (h : kv ∈ m) : GoMap.find m kv.1 = some kv.2 := by
  induction m with
  | nil => simp at h
  | cons hd tl ih =>
    obtain ⟨a, w⟩ := hd
    simp only [GoMap.keys, List.map_cons, List.nodup_cons] at hnd
    rcases List.mem_cons.1 h with h1 | h1
    · subst h1
      simp [GoMap.find]
    · have hne : a ≠ kv.1 := by
        intro hEq
        exact hnd.1 (hEq ▸ List.mem_map_of_mem Prod.fst h1)
      simp only [GoMap.find, hne, if_false]
      exact ih hnd.2 h1

theorem GoMap.mem_of_find {V : Type} (m : GoMap V) (k : String) (v : V)
    (h : GoMap.find m k = some v) : (k, v) ∈ m := by
  induction m with
  | nil => simp [GoMap.find] at h
  | cons hd tl ih =>
    obtain ⟨a, w⟩ := hd
    by_cases hak : a = k
    · simp only [GoMap.find, hak, if_true, Option.some.injEq] at h
      simp [hak, h]
    · simp only [GoMap.find, hak, if_false] at h
      exact List.mem_cons_of_mem _ (ih h)

/-! ## Keys of the counter table -/

theorem key_data (a s : String) : (sprintfKey a s).data = a.data ++ '.' :: s.data := by
  simp [sprintfKey, String.data_append]

theorem key_inj_same (a b s : String) (h : sprintfKey a s = sprintfKey b s) : a = b := by
  have h1 := congrArg String.data h
  rw [key_data, key_data] at h1
  exact String.ext (List.append_cancel_right h1)

theorem key_open_ne_closed (a b : String) : sprintfKey a "open" ≠ sprintfKey b "closed" := by
  intro h
  have h1 := congrArg (fun s => s.data.reverse) h
  simp [key_data] at h1

theorem key_inj (a b s t : String) (hs : s = "open" ∨ s = "closed") (ht : t = "open" ∨ t = "closed")
    (h : sprintfKey a s = sprintfKey b t) : a = b ∧ s = t := by
  rcases hs with hs | hs <;> rcases ht with ht | ht <;> subst hs <;> subst ht
  · exact ⟨key_inj_same _ _ _ h, rfl⟩
  · exact absurd h (key_open_ne_closed a b)
  · exact absurd h.symm (key_open_ne_closed b a)
  · exact ⟨key_inj_same _ _ _ h, rfl⟩

theorem key_open (a : String) : a ++ ".open" = sprintfKey a "open" := by
  unfold sprintfKey
  rw [String.append_assoc]; rfl

theorem key_closed (a : String) : a ++ ".closed" = sprintfKey a "closed" := by
  unfold sprintfKey
  rw [String.append_assoc]; rfl

/-! ## Shape of the counter table -/

theorem shape_put (T : GoMap LabelMetric) (k : String) (v : LabelMetric) :
    shape (GoMap.put T k v) = GoMap.put (shape T) k (v.label, v.state) := by
  induction T with
  | nil => simp [shape, GoMap.put]
  | cons hd tl ih =>
    obtain ⟨a, w⟩ := hd
    simp only [shape] at ih
    by_cases hak : a = k <;> simp [shape, GoMap.put, hak, ih]

theorem find_shape (T : GoMap LabelMetric) (k : String) :
    GoMap.find (shape T) k = (GoMap.find T k).map fun lm => (lm.label, lm.state) := by
  induction T with
  | nil => simp [shape, GoMap.find]
  | cons hd tl ih =>
    obtain ⟨a, w⟩ := hd
    simp only [shape] at ih
    by_cases hak : a = k <;> simp [shape, GoMap.find, hak, ih]

theorem GoMap.put_find_self {V : Type} (m : GoMap V) (k : String) (v : V)
    (h : GoMap.find m k = some v) : GoMap.put m k v = m := by
  induction m with
  | nil => simp [GoMap.find] at h
  | cons hd tl ih =>
    obtain ⟨a, w⟩ := hd
    by_cases hak : a = k
    · simp only [GoMap.find, hak, if_true, Option.some.injEq] at h
      simp [GoMap.put, hak, h]
    · simp only [GoMap.find, hak, if_false] at h
      simp [GoMap.put, hak, ih h]

theorem valueAt_put (T : GoMap LabelMetric) (k : String) (v : LabelMetric) (k2 : String) :
    valueAt (GoMap.put T k v) k2 = if k = k2 then v.value else valueAt T k2 := by
  unfold valueAt
  rw [GoMap.find_put]
  by_cases h : k = k2 <;> simp [h]

theorem shapeOk_nil : ShapeOk [] := by
  simp [ShapeOk, GoMap.keys]

theorem shapeOk_put (S : GoMap (String × String)) (L st : String) (h : ShapeOk S)
    (hst : st = "open" ∨ st = "closed") : ShapeOk (GoMap.put S (sprintfKey L st) (L, st)) := by
  refine ⟨GoMap.nodup_keys_put _ _ _ h.1, ?_⟩
  intro kv hkv
  rcases GoMap.mem_put _ _ _ _ hkv with h1 | h1
  · subst h1
    exact ⟨rfl, hst⟩
  · exact h.2 kv h1

/-- Membership of a (label, state) pair in a well-formed shape after a write. -/
theorem mem_shape_put (S : GoMap (String × String)) (L st L2 st2 : String) (h : ShapeOk S)
    (hst : st = "open" ∨ st = "closed") :
    (sprintfKey L2 st2, L2, st2) ∈ GoMap.put S (sprintfKey L st) (L, st) ↔
      (L2 = L ∧ st2 = st) ∨ (sprintfKey L2 st2, L2, st2) ∈ S := by
  constructor
  · intro hm
    rcases GoMap.mem_put _ _ _ _ hm with h1 | h1
    · left
      simp only [Prod.mk.injEq] at h1
      exact h1.2
    · exact Or.inr h1
  · rintro (⟨h1, h2⟩ | h1)
    · subst h1; subst h2
      exact GoMap.mem_put_self _ _ _
    · by_cases hk : sprintfKey L2 st2 = sprintfKey L st
      · have hst2 := (h.2 _ h1).2
        obtain ⟨e1, e2⟩ := key_inj _ _ _ _ hst2 hst hk
        subst e1; subst e2
        exact GoMap.mem_put_self _ _ _
      · exact GoMap.mem_put_of_ne _ _ _ _ h1 hk

/-- What `initLabelStats` builds: a well-formed table holding, besides the old pairs,
an open and a closed zero counter for every label slug. -/
theorem initLabelStats_spec (slug : String → String) (labels : List Label) :
    ∀ (T T2 : GoMap LabelMetric), ShapeOk (shape T) → initLabelStats slug T labels = .ok T2 →
      ShapeOk (shape T2) ∧
      (∀ L st, (sprintfKey L st, L, st) ∈ shape T2 ↔
        ((sprintfKey L st, L, st) ∈ shape T ∨
          (L ∈ labels.filterMap (fun lv => lv.Name.map slug) ∧ (st = "open" ∨ st = "closed")))) ∧
      ((∀ kv ∈ T, kv.2.value = 0) → ∀ kv ∈ T2, kv.2.value = 0) := by
  induction labels with
  | nil =>
    intro T T2 hT h
    simp only [initLabelStats, Res.ok.injEq] at h
    subst h
    simp [hT]
  | cons lv rest ih =>
    intro T T2 hT h
    cases hn : lv.Name with
    | none => simp [initLabelStats, hn] at h
    | some name =>
      simp only [initLabelStats, hn] at h
      have hA : ShapeOk (shape (GoMap.put T (slug name ++ ".open") ⟨slug name, "open", 0⟩)) := by
        rw [shape_put, key_open]
        exact shapeOk_put _ _ _ hT (Or.inl rfl)
      have hB : ShapeOk (shape (GoMap.put (GoMap.put T (slug name ++ ".open") ⟨slug name, "open", 0⟩)
          (slug name ++ ".closed") ⟨slug name, "closed", 0⟩)) := by
        rw [shape_put, key_closed]
        exact shapeOk_put _ _ _ hA (Or.inr rfl)
      obtain ⟨h1, h2, h3⟩ := ih _ _ hB h
      refine ⟨h1, ?_, ?_⟩
      · intro L st
        rw [h2 L st, shape_put, key_closed, mem_shape_put _ _ _ _ _ hA (Or.inr rfl), shape_put,
          key_open, mem_shape_put _ _ _ _ _ hT (Or.inl rfl)]
        simp only [List.filterMap_cons, hn, Option.map_some', List.mem_cons]
        constructor
        · rintro ((⟨e1, e2⟩ | ⟨e1, e2⟩ | hm) | ⟨hm, hs⟩)
          · exact Or.inr ⟨Or.inl e1, Or.inr e2⟩
          · exact Or.inr ⟨Or.inl e1, Or.inl e2⟩
          · exact Or.inl hm
          · exact Or.inr ⟨Or.inr hm, hs⟩
        · rintro (hm | ⟨e1 | hm, hs⟩)
          · exact Or.inl (Or.inr (Or.inr hm))
          · rcases hs with hs | hs
            · exact Or.inl (Or.inr (Or.inl ⟨e1, hs⟩))
            · exact Or.inl (Or.inl ⟨e1, hs⟩)
          · exact Or.inr ⟨hm, hs⟩
      · intro hz
        apply h3
        intro kv hkv
        rcases GoMap.mem_put _ _ _ _ hkv with e | hkv1
        · subst e; rfl
        · rcases GoMap.mem_put _ _ _ _ hkv1 with e | hkv2
          · subst e; rfl
          · exact hz kv hkv2

theorem initLabelStats_ok (slug : String → String) (labels : List Label)
    (hn : ∀ lv ∈ labels, ∃ n, lv.Name = some n) :
    ∀ T : GoMap LabelMetric, ∃ T2, initLabelStats slug T labels = .ok T2 := by
  induction labels with
  | nil => intro T; exact ⟨T, rfl⟩
  | cons lv rest ih =>
    intro T
    obtain ⟨n, hlv⟩ := hn lv (List.mem_cons_self _ _)
    simp only [initLabelStats, hlv]
    exact ih (fun l hl => hn l (List.mem_cons_of_mem _ hl)) _

theorem initLabelStats_named (slug : String → String) (labels : List Label) :
    ∀ (T T2 : GoMap LabelMetric), initLabelStats slug T labels = .ok T2 →
      ∀ lv ∈ labels, ∃ n, lv.Name = some n := by
  induction labels with
  | nil => intro T T2 _ lv hlv; simp at hlv
  | cons l rest ih =>
    intro T T2 h lv hlv
    cases hn : l.Name with
    | none => simp [initLabelStats, hn] at h
    | some name =>
      simp only [initLabelStats, hn] at h
      rcases List.mem_cons.1 hlv with e | hm
      · exact ⟨name, e ▸ hn⟩
      · exact ih _ _ h lv hm

/-! ## The tally loops -/

theorem bump_of_find (T : GoMap LabelMetric) (k : String) (lm : LabelMetric)
    (h : GoMap.find T k = some lm) :
    ∃ T2, bump T k = .ok T2 ∧ shape T2 = shape T ∧
      ∀ k2, valueAt T2 k2 = valueAt T k2 + if k = k2 then 1 else 0 := by
  refine ⟨GoMap.put T k ⟨lm.label, lm.state, lm.value + 1⟩, by simp [bump, h], ?_, ?_⟩
  · rw [shape_put]
    apply GoMap.put_find_self
    rw [find_shape, h]
    rfl
  · intro k2
    rw [valueAt_put]
    by_cases hk : k = k2
    · subst hk
      simp [valueAt, h]
    · simp [hk]

theorem bump_shape (T T2 : GoMap LabelMetric) (k : String) (h : bump T k = .ok T2) :
    shape T2 = shape T := by
  cases hf : GoMap.find T k with
  | none => simp [bump, hf] at h
  | some lm =>
    obtain ⟨T3, h1, h2, _⟩ := bump_of_find T k lm hf
    rw [h1] at h
    cases h
    exact h2

theorem tallyLabels_shape (slug : String → String) (state : Option String) (ls : List Label) :
    ∀ T T2 : GoMap LabelMetric, tallyLabels slug state T ls = .ok T2 → shape T2 = shape T := by
  induction ls with
  | nil =>
    intro T T2 h
    simp only [tallyLabels, Res.ok.injEq] at h
    rw [h]
  | cons l rest ih =>
    intro T T2 h
    cases hn : l.Name with
    | none => simp [tallyLabels, hn] at h
    | some name =>
      cases state with
      | none => simp [tallyLabels, hn] at h
      | some st =>
        simp only [tallyLabels, hn] at h
        cases hb : bump T (sprintfKey (slug name) st) with
        | ok T1 =>
          rw [hb] at h
          rw [ih _ _ h, bump_shape _ _ _ hb]
        | error e => rw [hb] at h; cases h
        | panic => rw [hb] at h; cases h

theorem tallyIssue_shape (slug : String → String) (T T2 : GoMap LabelMetric) (issue : Issue)
    (h : tallyIssue slug T issue = .ok T2) : shape T2 = shape T := by
  unfold tallyIssue at h
  split at h
  · split at h
    · cases h
    · exact bump_shape _ _ _ h
  · exact tallyLabels_shape _ _ _ _ _ h

theorem tallyIssues_shape (slug : String → String) (issues : List Issue) :
    ∀ T T2 : GoMap LabelMetric, tallyIssues slug T issues = .ok T2 → shape T2 = shape T := by
  induction issues with
  | nil =>
    intro T T2 h
    simp only [tallyIssues, Res.ok.injEq] at h
    rw [h]
  | cons i rest ih =>
    intro T T2 h
    simp only [tallyIssues] at h
    cases hb : tallyIssue slug T i with
    | ok T1 =>
      rw [hb] at h
      rw [ih _ _ h, tallyIssue_shape _ _ _ _ hb]
    | error e => rw [hb] at h; cases h
    | panic => rw [hb] at h; cases h

theorem find_isSome_of_shape (T : GoMap LabelMetric) (k : String)
    (h : (GoMap.find (shape T) k).isSome = true) : ∃ lm, GoMap.find T k = some lm := by
  rw [find_shape] at h
  cases hf : GoMap.find T k with
  | none => simp [hf] at h
  | some lm => exact ⟨lm, rfl⟩

/-- The inner loop adds to every counter the number of carried labels that map to its key. -/
theorem tallyLabels_counts (slug : String → String) (st : String) (ls : List Label) :
    ∀ T : GoMap LabelMetric,
      (∀ l ∈ ls, ∃ n, l.Name = some n ∧ (GoMap.find (shape T) (sprintfKey (slug n) st)).isSome = true) →
      ∃ T2, tallyLabels slug (some st) T ls = .ok T2 ∧ shape T2 = shape T ∧
        ∀ k, valueAt T2 k = valueAt T k +
          (ls.countP fun l => l.Name.map (fun n => sprintfKey (slug n) st) = some k : Nat) := by
  induction ls with
  | nil =>
    intro T _
    exact ⟨T, rfl, rfl, by simp⟩
  | cons l rest ih =>
    intro T hl
    obtain ⟨n, hn, hk⟩ := hl l (List.mem_cons_self _ _)
    obtain ⟨lm, hf⟩ := find_isSome_of_shape _ _ hk
    obtain ⟨T1, hb, hs1, hv1⟩ := bump_of_find T _ lm hf
    have hrest : ∀ l2 ∈ rest, ∃ n2, l2.Name = some n2 ∧
        (GoMap.find (shape T1) (sprintfKey (slug n2) st)).isSome = true := by
      intro l2 hl2
      rw [hs1]
      exact hl l2 (List.mem_cons_of_mem _ hl2)
    obtain ⟨T2, ht, hs2, hv2⟩ := ih T1 hrest
    refine ⟨T2, by simp [tallyLabels, hn, hb, ht], by rw [hs2, hs1], ?_⟩
    intro k
    rw [hv2 k, hv1 k, List.countP_cons]
    simp only [hn, Option.map_some', Option.some.injEq, decide_eq_true_eq]
    by_cases hkk : sprintfKey (slug n) st = k <;> simp [hkk, add_assoc, add_comm]

theorem specLabelCount_single (slug : String → String) (L S : String) (i : Issue) :
    specLabelCount slug L S [i] =
      if i.State = some S then i.Labels.countP (fun l => l.Name.map slug = some L) else 0 := by
  by_cases h : i.State = some S <;> simp [specLabelCount, h]

theorem specNoLabelCount_single (S : String) (i : Issue) :
    specNoLabelCount S [i] = if i.State = some S ∧ i.Labels = [] then 1 else 0 := by
  by_cases h : i.State = some S ∧ i.Labels = [] <;> simp [specNoLabelCount, List.countP_cons, h]

/-- One issue adds to every counter the specified count of that issue. -/
theorem tallyIssue_counts (slug : String → String) (hslug : ∀ x, slug x ≠ "NoLabel")
    (T : GoMap LabelMetric) (i : Issue)
    (hstate : i.State = some "open" ∨ i.State = some "closed")
    (hlab : ∀ l ∈ i.Labels, ∃ n, l.Name = some n ∧ ∀ st, (st = "open" ∨ st = "closed") →
      (GoMap.find (shape T) (sprintfKey (slug n) st)).isSome = true)
    (hno : ∀ st, (st = "open" ∨ st = "closed") →
      (GoMap.find (shape T) (sprintfKey "NoLabel" st)).isSome = true) :
    ∃ T2, tallyIssue slug T i = .ok T2 ∧ shape T2 = shape T ∧
      (∀ L S, L ≠ "NoLabel" → (S = "open" ∨ S = "closed") →
        valueAt T2 (sprintfKey L S) = valueAt T (sprintfKey L S) + specLabelCount slug L S [i]) ∧
      (∀ S, (S = "open" ∨ S = "closed") →
        valueAt T2 (sprintfKey "NoLabel" S) =
          valueAt T (sprintfKey "NoLabel" S) + specNoLabelCount S [i]) := by
  obtain ⟨st, hst, hoc⟩ : ∃ st, i.State = some st ∧ (st = "open" ∨ st = "closed") := by
    rcases hstate with h | h
    · exact ⟨_, h, Or.inl rfl⟩
    · exact ⟨_, h, Or.inr rfl⟩
  cases hL : i.Labels with
  | nil =>
    obtain ⟨lm, hf⟩ := find_isSome_of_shape _ _ (hno st hoc)
    obtain ⟨T2, hb, hs, hv⟩ := bump_of_find T _ lm hf
    refine ⟨T2, by simp [tallyIssue, hL, hst, hb], hs, ?_, ?_⟩
    · intro L S hLn hS
      rw [hv, specLabelCount_single, hL]
      have hne : ¬ (sprintfKey "NoLabel" st = sprintfKey L S) := fun h =>
        hLn (key_inj _ _ _ _ hoc hS h).1.symm
      simp [hne]
    · intro S hS
      rw [hv, specNoLabelCount_single, hL, hst]
      by_cases hSs : st = S
      · subst hSs
        simp
      · have hne : ¬ (sprintfKey "NoLabel" st = sprintfKey "NoLabel" S) := fun h =>
          hSs (key_inj _ _ _ _ hoc hS h).2
        simp [hne, hSs]
  | cons l ls =>
    have hnamed : ∀ l2 ∈ l :: ls, ∃ n, l2.Name = some n ∧
        (GoMap.find (shape T) (sprintfKey (slug n) st)).isSome = true := by
      intro l2 hl2
      obtain ⟨n, hn, hk⟩ := hlab l2 (hL ▸ hl2)
      exact ⟨n, hn, hk st hoc⟩
    obtain ⟨T2, ht, hs, hv⟩ := tallyLabels_counts slug st (l :: ls) T hnamed
    refine ⟨T2, by simp [tallyIssue, hL, hst, ht], hs, ?_, ?_⟩
    · intro L S hLn hS
      rw [hv, specLabelCount_single, hL, hst]
      congr 1
      by_cases hSs : st = S
      · subst hSs
        simp only [if_true]
        congr 1
        apply List.countP_congr
        intro l2 hl2
        obtain ⟨n, hn, _⟩ := hnamed l2 hl2
        simp only [hn, Option.map_some', Option.some.injEq, decide_eq_true_eq]
        constructor
        · intro h; exact (key_inj _ _ _ _ hoc hoc h).1
        · intro h; rw [h]
      · have hz : (l :: ls).countP (fun l2 =>
            decide (l2.Name.map (fun n => sprintfKey (slug n) st) = some (sprintfKey L S))) = 0 := by
          rw [List.countP_eq_zero]
          intro l2 hl2
          obtain ⟨n, hn, _⟩ := hnamed l2 hl2
          simp only [hn, Option.map_some', Option.some.injEq, decide_eq_true_eq]
          intro h
          exact hSs (key_inj _ _ _ _ hoc hS h).2
        rw [hz]
        simp [hSs]
    · intro S hS
      rw [hv, specNoLabelCount_single, hL]
      have hz : (l :: ls).countP (fun l2 =>
          decide (l2.Name.map (fun n => sprintfKey (slug n) st) = some (sprintfKey "NoLabel" S))) = 0 := by
        rw [List.countP_eq_zero]
        intro l2 hl2
        obtain ⟨n, hn, _⟩ := hnamed l2 hl2
        simp only [hn, Option.map_some', Option.some.injEq, decide_eq_true_eq]
        intro h
        exact hslug n (key_inj _ _ _ _ hoc hS h).1
      rw [hz]
      simp

theorem specLabelCount_cons (slug : String → String) (L S : String) (i : Issue) (rest : List Issue) :
    specLabelCount slug L S (i :: rest) = specLabelCount slug L S [i] + specLabelCount slug L S rest := by
  by_cases h : i.State = some S <;> simp [specLabelCount, h]

theorem specNoLabelCount_cons (S : String) (i : Issue) (rest : List Issue) :
    specNoLabelCount S (i :: rest) = specNoLabelCount S [i] + specNoLabelCount S rest := by
  simp [specNoLabelCount, List.countP_cons, add_comm]

/-- The loop over issues adds to every counter the specified count. -/
theorem tallyIssues_counts (slug : String → String) (hslug : ∀ x, slug x ≠ "NoLabel")
    (issues : List Issue) :
    ∀ T : GoMap LabelMetric,
      (∀ i ∈ issues, i.State = some "open" ∨ i.State = some "closed") →
      (∀ i ∈ issues, ∀ l ∈ i.Labels, ∃ n, l.Name = some n ∧ ∀ st, (st = "open" ∨ st = "closed") →
        (GoMap.find (shape T) (sprintfKey (slug n) st)).isSome = true) →
      (∀ st, (st = "open" ∨ st = "closed") →
        (GoMap.find (shape T) (sprintfKey "NoLabel" st)).isSome = true) →
      ∃ T2, tallyIssues slug T issues = .ok T2 ∧ shape T2 = shape T ∧
        (∀ L S, L ≠ "NoLabel" → (S = "open" ∨ S = "closed") →
          valueAt T2 (sprintfKey L S) = valueAt T (sprintfKey L S) + specLabelCount slug L S issues) ∧
        (∀ S, (S = "open" ∨ S = "closed") →
          valueAt T2 (sprintfKey "NoLabel" S) =
            valueAt T (sprintfKey "NoLabel" S) + specNoLabelCount S issues) := by
  induction issues with
  | nil =>
    intro T _ _ _
    exact ⟨T, rfl, rfl, by simp [specLabelCount], by simp [specNoLabelCount]⟩
  | cons i rest ih =>
    intro T hstate hlab hno
    obtain ⟨T1, h1, hs1, hv1, hn1⟩ := tallyIssue_counts slug hslug T i
      (hstate i (List.mem_cons_self _ _)) (hlab i (List.mem_cons_self _ _)) hno
    obtain ⟨T2, h2, hs2, hv2, hn2⟩ := ih T1
      (fun j hj => hstate j (List.mem_cons_of_mem _ hj))
      (by rw [hs1]; exact fun j hj => hlab j (List.mem_cons_of_mem _ hj))
      (by rw [hs1]; exact hno)
    refine ⟨T2, by simp [tallyIssues, h1, h2], by rw [hs2, hs1], ?_, ?_⟩
    · intro L S hL hS
      rw [hv2 L S hL hS, hv1 L S hL hS, specLabelCount_cons slug L S i rest]
      push_cast
      ring
    · intro S hS
      rw [hn2 S hS, hn1 S hS, specNoLabelCount_cons S i rest]
      push_cast
      ring

/-! ## `collectIssueMetrics`: the final table -/

theorem collectIssueMetrics_unfold (slug : String → String) (m : MetricType) (now : Nat)
    (owner repo : String) (labels : List Label) (issues : List Issue) (ms : List MetricType)
    (h : collectIssueMetrics slug m now owner repo labels issues = .ok ms) :
    ∃ T0 T, initLabelStats slug [] labels = .ok T0 ∧
      tallyIssues slug (GoMap.put (GoMap.put T0 ("NoLabel" ++ ".open") ⟨"NoLabel", "open", 0⟩)
        ("NoLabel" ++ ".closed") ⟨"NoLabel", "closed", 0⟩) issues = .ok T ∧
      ms = T.map fun kv => issueRecord m now owner repo kv.2 := by
  unfold collectIssueMetrics at h
  cases h0 : initLabelStats slug [] labels with
  | ok T0 =>
    rw [h0] at h
    simp only at h
    cases h1 : tallyIssues slug (GoMap.put (GoMap.put T0 ("NoLabel" ++ ".open") ⟨"NoLabel", "open", 0⟩)
        ("NoLabel" ++ ".closed") ⟨"NoLabel", "closed", 0⟩) issues with
    | ok T =>
      rw [h1] at h
      simp only [Res.ok.injEq] at h
      exact ⟨T0, T, rfl, h1, h.symm⟩
    | error e => rw [h1] at h; cases h
    | panic => rw [h1] at h; cases h
  | error e => rw [h0] at h; cases h
  | panic => rw [h0] at h; cases h

/-- The table after both initialisation steps. -/
theorem initTable_spec (slug : String → String) (labels : List Label) (T0 : GoMap LabelMetric)
    (h0 : initLabelStats slug [] labels = .ok T0) :
    let T2 := GoMap.put (GoMap.put T0 ("NoLabel" ++ ".open") ⟨"NoLabel", "open", 0⟩)
      ("NoLabel" ++ ".closed") ⟨"NoLabel", "closed", 0⟩
    ShapeOk (shape T2) ∧
    (∀ L st, (sprintfKey L st, L, st) ∈ shape T2 ↔
      (L ∈ labelSlugs slug labels ++ ["NoLabel"] ∧ (st = "open" ∨ st = "closed"))) ∧
    (∀ kv ∈ T2, kv.2.value = 0) := by
  intro T2
  obtain ⟨hs0, hm0, hz0⟩ := initLabelStats_spec slug labels [] T0 shapeOk_nil h0
  have hA : ShapeOk (shape (GoMap.put T0 ("NoLabel" ++ ".open") ⟨"NoLabel", "open", 0⟩)) := by
    rw [shape_put, key_open]
    exact shapeOk_put _ _ _ hs0 (Or.inl rfl)
  have hB : ShapeOk (shape T2) := by
    show ShapeOk (shape (GoMap.put _ _ _))
    rw [shape_put, key_closed]
    exact shapeOk_put _ _ _ hA (Or.inr rfl)
  refine ⟨hB, ?_, ?_⟩
  · intro L st
    show (sprintfKey L st, L, st) ∈ shape (GoMap.put _ _ _) ↔ _
    rw [shape_put, key_closed, mem_shape_put _ _ _ _ _ hA (Or.inr rfl), shape_put, key_open,
      mem_shape_put _ _ _ _ _ hs0 (Or.inl rfl), hm0 L st]
    simp only [shape, List.map_nil, List.not_mem_nil, false_or, List.mem_append,
      List.mem_singleton, labelSlugs]
    constructor
    · rintro (⟨e1, e2⟩ | ⟨e1, e2⟩ | ⟨hm, hs⟩)
      · exact ⟨Or.inr e1, Or.inr e2⟩
      · exact ⟨Or.inr e1, Or.inl e2⟩
      · exact ⟨Or.inl hm, hs⟩
    · rintro ⟨hm | e1, hs⟩
      · exact Or.inr (Or.inr ⟨hm, hs⟩)
      · rcases hs with hs | hs
        · exact Or.inr (Or.inl ⟨e1, hs⟩)
        · exact Or.inl ⟨e1, hs⟩
  · intro kv hkv
    rcases GoMap.mem_put _ _ _ _ hkv with e | hkv1
    · subst e; rfl
    · rcases GoMap.mem_put _ _ _ _ hkv1 with e | hkv2
      · subst e; rfl
      · exact hz0 (by simp) kv hkv2

theorem issueNs_inj (owner repo : String) (p q : String × String)
    (h : issueNs owner repo p.1 p.2 = issueNs owner repo q.1 q.2) : p = q := by
  simp only [issueNs, List.cons.injEq, true_and, and_true] at h
  exact Prod.ext h.1 h.2

/-- The (label, state) pairs of a well-formed shape are pairwise distinct. -/
theorem pairs_nodup (S : GoMap (String × String)) (h : ShapeOk S) :
    (S.map Prod.snd).Nodup := by
  have hk : GoMap.keys S = (S.map Prod.snd).map fun p => sprintfKey p.1 p.2 := by
    simp only [GoMap.keys, List.map_map]
    apply List.map_congr_left
    intro kv hkv
    exact (h.2 kv hkv).1
  have hn := h.1
  rw [hk] at hn
  exact List.Nodup.of_map _ hn

theorem mem_pairs_iff (S : GoMap (String × String)) (h : ShapeOk S) (L st : String) :
    (L, st) ∈ S.map Prod.snd ↔ (sprintfKey L st, L, st) ∈ S := by
  constructor
  · intro hm
    obtain ⟨kv, hkv, e⟩ := List.mem_map.1 hm
    have hk := (h.2 kv hkv).1
    obtain ⟨k, p⟩ := kv
    simp only at e hk
    subst e
    rw [← hk]
    exact hkv
  · intro hm
    exact List.mem_map.2 ⟨_, hm, rfl⟩

theorem records_namespaces (m : MetricType) (now : Nat) (owner repo : String)
    (T : GoMap LabelMetric) :
    (T.map fun kv => issueRecord m now owner repo kv.2).map (fun r => r.Namespace_) =
      ((shape T).map Prod.snd).map fun p => issueNs owner repo p.1 p.2 := by
  simp [shape, issueRecord, issueNs, List.map_map, Function.comp_def]

/-- What the slug model never returns: the synthetic label name. -/
theorem slugChar_ne_N (c : Char) : slugChar c ≠ 'N' := by
  unfold slugChar
  split
  · decide
  · split
    · rename_i h
      obtain ⟨k, hk⟩ : ∃ k, c.toNat = k := ⟨_, rfl⟩
      rw [hk] at h ⊢
      obtain ⟨h1, h2⟩ := h
      interval_cases k <;> decide
    · split
      · rename_i h
        intro hc
        subst hc
        revert h
        decide
      · decide

theorem trimLead_subset (l : List Char) : ∀ c ∈ trimLead l, c ∈ l := by
  induction l with
  | nil => intro c h; simp [trimLead] at h
  | cons a rest ih =>
    intro c h
    unfold trimLead at h
    split at h
    · exact List.mem_cons_of_mem _ (ih c h)
    · exact h

theorem squeezeDash_subset : ∀ (l : List Char), ∀ c ∈ squeezeDash l, c ∈ l
  | [], c, h => by simp [squeezeDash] at h
  | [a], c, h => by simpa [squeezeDash] using h
  | a :: d :: rest, c, h => by
    unfold squeezeDash at h
    split at h
    · exact List.mem_cons_of_mem _ (squeezeDash_subset (d :: rest) c h)
    · rcases List.mem_cons.1 h with e | hm
      · exact e ▸ List.mem_cons_self _ _
      · exact List.mem_cons_of_mem _ (squeezeDash_subset (d :: rest) c hm)

theorem slugMake_ne_NoLabel (x : String) : slugMake x ≠ "NoLabel" := by
  intro h
  have hd := congrArg String.data h
  have hN : 'N' ∈ (slugMake x).data := by rw [hd]; decide
  simp only [slugMake, List.mem_reverse] at hN
  have h1 := trimLead_subset _ _ hN
  rw [List.mem_reverse] at h1
  have h2 := squeezeDash_subset _ _ (trimLead_subset _ _ h1)
  obtain ⟨c, _, hc⟩ := List.mem_map.1 h2
  exact slugChar_ne_N c hc

/-! ## C2 and C1 -/

/-- C2: whenever `collectIssueMetrics` returns records, their namespaces are, up to order,
exactly one `issuesbylabel/<slug>/<state>/count` namespace under `repo/<owner>/<repo>` for
each distinct label slug (and `NoLabel`) and each of `open`, `closed`: no namespace occurs
twice, and there are 2 x (number of distinct slugs including `NoLabel`) records, whatever
the counts are. -/
theorem collectIssueMetrics_one_record_per_pair (slug : String → String) (m : MetricType)
    (collectionTime : Nat) (owner repo : String) (labels : List Label) (issues : List Issue)
    (ms : List MetricType)
    (h : collectIssueMetrics slug m collectionTime owner repo labels issues = .ok ms) :
    (ms.map fun r => r.Namespace_).Perm
        ((List.product (labelSlugs slug labels ++ ["NoLabel"]).dedup ["open", "closed"]).map
          fun p => issueNs owner repo p.1 p.2) ∧
      (ms.map fun r => r.Namespace_).Nodup ∧
      ms.length = 2 * (labelSlugs slug labels ++ ["NoLabel"]).dedup.length := by
  obtain ⟨T0, T, h0, h1, hms⟩ := collectIssueMetrics_unfold _ _ _ _ _ _ _ _ h
  obtain ⟨hok, hmem, _⟩ := initTable_spec slug labels T0 h0
  have hsh := tallyIssues_shape _ _ _ _ h1
  rw [← hsh] at hok hmem
  have hnd := pairs_nodup _ hok
  have hnd2 : (List.product (labelSlugs slug labels ++ ["NoLabel"]).dedup ["open", "closed"]).Nodup :=
    List.Nodup.product (List.nodup_dedup _) (by decide)
  have hperm : ((shape T).map Prod.snd).Perm
      (List.product (labelSlugs slug labels ++ ["NoLabel"]).dedup ["open", "closed"]) := by
    rw [List.perm_ext_iff_of_nodup hnd hnd2]
    rintro ⟨L, st⟩
    rw [mem_pairs_iff _ hok, hmem, List.pair_mem_product, List.mem_dedup]
    simp
  have hns : (ms.map fun r => r.Namespace_) =
      ((shape T).map Prod.snd).map fun p => issueNs owner repo p.1 p.2 := by
    rw [hms]
    exact records_namespaces _ _ _ _ _
  have hP := hperm.map fun p => issueNs owner repo p.1 p.2
  refine ⟨hns ▸ hP, ?_, ?_⟩
  · rw [hns]
    exact List.Nodup.map (fun p q hpq => issueNs_inj owner repo p q hpq) hnd
  · have hl := hP.length_eq
    rw [← hns] at hl
    have hp : (List.product (labelSlugs slug labels ++ ["NoLabel"]).dedup ["open", "closed"]).length =
        (labelSlugs slug labels ++ ["NoLabel"]).dedup.length * 2 :=
      List.length_product _ _
    simp only [List.length_map] at hl
    omega

/-- C2, worked example: label `Bug`, one open issue carrying it twice; four records. -/
theorem collectIssueMetrics_one_record_per_pair_witness :
    ∃ ms, collectIssueMetrics slugMake ⟨[], none, 0, 1, []⟩ 7 "acme" "widget" [⟨some "Bug"⟩]
        [⟨some "open", [⟨some "bug"⟩, ⟨some "BUG"⟩]⟩] = .ok ms ∧
      ms.length = 4 ∧
      (ms.map fun r => r.Namespace_).Perm
        ((List.product (labelSlugs slugMake [⟨some "Bug"⟩] ++ ["NoLabel"]).dedup
          ["open", "closed"]).map fun p => issueNs "acme" "widget" p.1 p.2) :=
  ⟨[⟨issueNs "acme" "widget" "bug" "open", some 2, 7, 1, []⟩,
      ⟨issueNs "acme" "widget" "bug" "closed", some 0, 7, 1, []⟩,
      ⟨issueNs "acme" "widget" "NoLabel" "open", some 0, 7, 1, []⟩,
      ⟨issueNs "acme" "widget" "NoLabel" "closed", some 0, 7, 1, []⟩],
    by decide, by decide,
    (collectIssueMetrics_one_record_per_pair slugMake ⟨[], none, 0, 1, []⟩ 7 "acme" "widget"
      [⟨some "Bug"⟩] [⟨some "open", [⟨some "bug"⟩, ⟨some "BUG"⟩]⟩] _ (by decide)).1⟩

theorem keys_shape (T : GoMap LabelMetric) : GoMap.keys (shape T) = GoMap.keys T := by
  simp [shape, GoMap.keys, List.map_map, Function.comp_def]

theorem valueAt_of_mem (T : GoMap LabelMetric) (hok : ShapeOk (shape T)) (kv : String × LabelMetric)
    (hkv : kv ∈ T) : valueAt T (sprintfKey kv.2.label kv.2.state) = kv.2.value := by
  have hk : kv.1 = sprintfKey kv.2.label kv.2.state :=
    (hok.2 (kv.1, kv.2.label, kv.2.state) (List.mem_map.2 ⟨kv, hkv, rfl⟩)).1
  have hnd : (GoMap.keys T).Nodup := keys_shape T ▸ hok.1
  have hf := GoMap.find_of_mem T kv hnd hkv
  rw [← hk]
  simp [valueAt, hf]

theorem valueAt_zero (T : GoMap LabelMetric) (hz : ∀ kv ∈ T, kv.2.value = 0) (k : String) :
    valueAt T k = 0 := by
  unfold valueAt
  cases hf : GoMap.find T k with
  | none => rfl
  | some lm => exact hz (k, lm) (GoMap.mem_of_find _ _ _ hf)

theorem find_isSome_of_mem_shape (T : GoMap LabelMetric) (k L st : String)
    (h : (k, L, st) ∈ shape T) : (GoMap.find (shape T) k).isSome = true := by
  rw [GoMap.find_isSome_iff]
  exact List.mem_map.2 ⟨_, h, rfl⟩

/-- Reading one record off the final table. -/
theorem record_value (m : MetricType) (now : Nat) (owner repo : String) (T : GoMap LabelMetric)
    (hok : ShapeOk (shape T)) (L S : String) (hmem : (sprintfKey L S, L, S) ∈ shape T) :
    (∃ r ∈ T.map (fun kv => issueRecord m now owner repo kv.2),
        r.Namespace_ = issueNs owner repo L S) ∧
      ∀ r ∈ T.map (fun kv => issueRecord m now owner repo kv.2),
        r.Namespace_ = issueNs owner repo L S → r.Data_ = some (valueAt T (sprintfKey L S)) := by
  constructor
  · obtain ⟨kv, hkv, e⟩ := List.mem_map.1 hmem
    simp only [Prod.mk.injEq] at e
    refine ⟨issueRecord m now owner repo kv.2, List.mem_map.2 ⟨kv, hkv, rfl⟩, ?_⟩
    simp [issueRecord, issueNs, e.2.1, e.2.2]
  · intro r hr hns
    obtain ⟨kv, hkv, e⟩ := List.mem_map.1 hr
    subst e
    simp only [issueRecord, issueNs, List.cons.injEq, true_and, and_true] at hns
    have hv := valueAt_of_mem T hok kv hkv
    rw [hns.1, hns.2] at hv
    simp [issueRecord, hv]

/-- C1: when every issue state is `open` or `closed`, every label has a name and every label
carried by an issue has a slug among the slugs of the repository's labels, `collectIssueMetrics`
returns records in which the record for (label slug `L`, state `S`) exists and has value the
number of (issue, carried label) occurrences with slug `L` on issues of state `S`, and the
record for (`NoLabel`, `S`) exists and has value the number of issues of state `S` without
labels.  `slug` is any slug function that never returns the literal `NoLabel`. -/
theorem collectIssueMetrics_counts (slug : String → String) (hslug : ∀ x, slug x ≠ "NoLabel")
    (m : MetricType) (collectionTime : Nat) (owner repo : String) (labels : List Label)
    (issues : List Issue)
    (hnamed : ∀ lv ∈ labels, lv.Name ≠ none)
    (hstate : ∀ i ∈ issues, i.State = some "open" ∨ i.State = some "closed")
    (hlab : ∀ i ∈ issues, ∀ l ∈ i.Labels, ∃ L ∈ labelSlugs slug labels, l.Name.map slug = some L) :
    ∃ ms, collectIssueMetrics slug m collectionTime owner repo labels issues = .ok ms ∧
      (∀ L ∈ labelSlugs slug labels, ∀ S, (S = "open" ∨ S = "closed") →
        (∃ r ∈ ms, r.Namespace_ = issueNs owner repo L S) ∧
        ∀ r ∈ ms, r.Namespace_ = issueNs owner repo L S →
          r.Data_ = some (specLabelCount slug L S issues : Int)) ∧
      (∀ S, (S = "open" ∨ S = "closed") →
        (∃ r ∈ ms, r.Namespace_ = issueNs owner repo "NoLabel" S) ∧
        ∀ r ∈ ms, r.Namespace_ = issueNs owner repo "NoLabel" S →
          r.Data_ = some (specNoLabelCount S issues : Int)) := by
  have hnamed2 : ∀ lv ∈ labels, ∃ n, lv.Name = some n := by
    intro lv hlv
    cases hn : lv.Name with
    | none => exact absurd hn (hnamed lv hlv)
    | some n => exact ⟨n, rfl⟩
  obtain ⟨T0, h0⟩ := initLabelStats_ok slug labels hnamed2 []
  obtain ⟨hok, hmem, hz⟩ := initTable_spec slug labels T0 h0
  have hlab2 : ∀ i ∈ issues, ∀ l ∈ i.Labels, ∃ n, l.Name = some n ∧
      ∀ st, (st = "open" ∨ st = "closed") →
        (GoMap.find (shape (GoMap.put (GoMap.put T0 ("NoLabel" ++ ".open") ⟨"NoLabel", "open", 0⟩)
          ("NoLabel" ++ ".closed") ⟨"NoLabel", "closed", 0⟩)) (sprintfKey (slug n) st)).isSome = true := by
    intro i hi l hl
    obtain ⟨L, hL, hn⟩ := hlab i hi l hl
    cases hname : l.Name with
    | none => simp [hname] at hn
    | some n =>
      refine ⟨n, rfl, fun st hst => ?_⟩
      rw [hname] at hn
      simp only [Option.map_some', Option.some.injEq] at hn
      apply find_isSome_of_mem_shape _ _ (slug n) st
      rw [hmem]
      exact ⟨List.mem_append_left _ (hn ▸ hL), hst⟩
  have hno : ∀ st, (st = "open" ∨ st = "closed") →
      (GoMap.find (shape (GoMap.put (GoMap.put T0 ("NoLabel" ++ ".open") ⟨"NoLabel", "open", 0⟩)
        ("NoLabel" ++ ".closed") ⟨"NoLabel", "closed", 0⟩)) (sprintfKey "NoLabel" st)).isSome = true := by
    intro st hst
    apply find_isSome_of_mem_shape _ _ "NoLabel" st
    rw [hmem]
    exact ⟨List.mem_append_right _ (List.mem_singleton_self _), hst⟩
  obtain ⟨T, h1, hsh, hv, hn⟩ := tallyIssues_counts slug hslug issues _ hstate hlab2 hno
  refine ⟨T.map fun kv => issueRecord m collectionTime owner repo kv.2, ?_, ?_, ?_⟩
  · unfold collectIssueMetrics
    rw [h0]
    dsimp only
    rw [h1]
  · intro L hL S hS
    have hLne : L ≠ "NoLabel" := by
      obtain ⟨lv, _, hlv⟩ := List.mem_filterMap.1 hL
      cases hname : lv.Name with
      | none => simp [hname] at hlv
      | some n =>
        rw [hname] at hlv
        simp only [Option.map_some', Option.some.injEq] at hlv
        exact hlv ▸ hslug n
    have hval := hv L S hLne hS
    rw [valueAt_zero _ hz, zero_add] at hval
    rw [← hval]
    apply record_value _ _ _ _ _ (hsh ▸ hok)
    rw [hsh, hmem]
    exact ⟨List.mem_append_left _ hL, hS⟩
  · intro S hS
    have hval := hn S hS
    rw [valueAt_zero _ hz, zero_add] at hval
    rw [← hval]
    apply record_value _ _ _ _ _ (hsh ▸ hok)
    rw [hsh, hmem]
    exact ⟨List.mem_append_right _ (List.mem_singleton_self _), hS⟩

/-- C1, the worked example of the specification: labels bug and docs, issues
open+[bug], closed+[], open+[bug, docs]. -/
theorem collectIssueMetrics_counts_witness :
    (specLabelCount slugMake "bug" "open" [⟨some "open", [⟨some "bug"⟩]⟩, ⟨some "closed", []⟩,
        ⟨some "open", [⟨some "bug"⟩, ⟨some "docs"⟩]⟩] = 2 ∧
      specLabelCount slugMake "bug" "closed" [⟨some "open", [⟨some "bug"⟩]⟩, ⟨some "closed", []⟩,
        ⟨some "open", [⟨some "bug"⟩, ⟨some "docs"⟩]⟩] = 0 ∧
      specLabelCount slugMake "docs" "open" [⟨some "open", [⟨some "bug"⟩]⟩, ⟨some "closed", []⟩,
        ⟨some "open", [⟨some "bug"⟩, ⟨some "docs"⟩]⟩] = 1 ∧
      specLabelCount slugMake "docs" "closed" [⟨some "open", [⟨some "bug"⟩]⟩, ⟨some "closed", []⟩,
        ⟨some "open", [⟨some "bug"⟩, ⟨some "docs"⟩]⟩] = 0 ∧
      specNoLabelCount "open" [⟨some "open", [⟨some "bug"⟩]⟩, ⟨some "closed", []⟩,
        ⟨some "open", [⟨some "bug"⟩, ⟨some "docs"⟩]⟩] = 0 ∧
      specNoLabelCount "closed" [⟨some "open", [⟨some "bug"⟩]⟩, ⟨some "closed", []⟩,
        ⟨some "open", [⟨some "bug"⟩, ⟨some "docs"⟩]⟩] = 1) ∧
    ∃ ms, collectIssueMetrics slugMake ⟨[], none, 0, 1, []⟩ 7 "acme" "widget"
        [⟨some "bug"⟩, ⟨some "docs"⟩]
        [⟨some "open", [⟨some "bug"⟩]⟩, ⟨some "closed", []⟩,
          ⟨some "open", [⟨some "bug"⟩, ⟨some "docs"⟩]⟩] = .ok ms ∧
      (∀ L ∈ labelSlugs slugMake [⟨some "bug"⟩, ⟨some "docs"⟩], ∀ S, (S = "open" ∨ S = "closed") →
        (∃ r ∈ ms, r.Namespace_ = issueNs "acme" "widget" L S) ∧
        ∀ r ∈ ms, r.Namespace_ = issueNs "acme" "widget" L S →
          r.Data_ = some (specLabelCount slugMake L S [⟨some "open", [⟨some "bug"⟩]⟩,
            ⟨some "closed", []⟩, ⟨some "open", [⟨some "bug"⟩, ⟨some "docs"⟩]⟩] : Int)) ∧
      (∀ S, (S = "open" ∨ S = "closed") →
        (∃ r ∈ ms, r.Namespace_ = issueNs "acme" "widget" "NoLabel" S) ∧
        ∀ r ∈ ms, r.Namespace_ = issueNs "acme" "widget" "NoLabel" S →
          r.Data_ = some (specNoLabelCount S [⟨some "open", [⟨some "bug"⟩]⟩,
            ⟨some "closed", []⟩, ⟨some "open", [⟨some "bug"⟩, ⟨some "docs"⟩]⟩] : Int)) :=
  ⟨by decide,
    collectIssueMetrics_counts slugMake slugMake_ne_NoLabel ⟨[], none, 0, 1, []⟩ 7 "acme" "widget"
      [⟨some "bug"⟩, ⟨some "docs"⟩]
      [⟨some "open", [⟨some "bug"⟩]⟩, ⟨some "closed", []⟩,
        ⟨some "open", [⟨some "bug"⟩, ⟨some "docs"⟩]⟩]
      (by decide) (by decide) (by decide)⟩

/-! ## C3: `repoStats` -/

theorem find_putIfSet (m : GoMap Int) (k : String) (p : Option Int) (k2 : String) :
    GoMap.find (putIfSet m k p) k2 =
      if k = k2 then (match p with | some v => some v | none => GoMap.find m k2)
      else GoMap.find m k2 := by
  cases p with
  | none => simp [putIfSet]
  | some v => simp [putIfSet, GoMap.find_put]

theorem mem_keys_putIfSet (m : GoMap Int) (k : String) (p : Option Int) (k2 : String)
    (h : k2 ∈ GoMap.keys (putIfSet m k p)) : k2 = k ∨ k2 ∈ GoMap.keys m := by
  cases p with
  | none => exact Or.inr h
  | some v =>
    simp only [putIfSet, GoMap.keys_put] at h
    split at h
    · exact Or.inr h
    · rcases List.mem_append.1 h with h1 | h1
      · exact Or.inr h1
      · exact Or.inl (List.mem_singleton.1 h1)

theorem nodup_keys_putIfSet (m : GoMap Int) (k : String) (p : Option Int)
    (h : (GoMap.keys m).Nodup) : (GoMap.keys (putIfSet m k p)).Nodup := by
  cases p with
  | none => exact h
  | some v => exact GoMap.nodup_keys_put _ _ _ h

/-- C3: `repoStats` never fails; in the returned mapping each of the keys forks, issues,
network, stars, subscribers, watchers, size is present exactly when the corresponding payload
field is set, with the field's value, and there is no other key. -/
theorem repoStats_omits_exactly_absent (resp : Repository) :
    ∃ stats, repoStats resp = .ok stats ∧
      GoMap.find stats "forks" = resp.ForksCount ∧
      GoMap.find stats "issues" = resp.OpenIssuesCount ∧
      GoMap.find stats "network" = resp.NetworkCount ∧
      GoMap.find stats "stars" = resp.StargazersCount ∧
      GoMap.find stats "subscribers" = resp.SubscribersCount ∧
      GoMap.find stats "watchers" = resp.WatchersCount ∧
      GoMap.find stats "size" = resp.Size ∧
      (GoMap.keys stats).Nodup ∧
      ∀ k ∈ GoMap.keys stats,
        k ∈ ["forks", "issues", "network", "stars", "subscribers", "watchers", "size"] := by
  refine ⟨_, rfl, ?_, ?_, ?_, ?_, ?_, ?_, ?_, ?_, ?_⟩
  · cases h : resp.ForksCount <;> simp [find_putIfSet, GoMap.find, h]
  · cases h : resp.OpenIssuesCount <;> simp [find_putIfSet, GoMap.find, h]
  · cases h : resp.NetworkCount <;> simp [find_putIfSet, GoMap.find, h]
  · cases h : resp.StargazersCount <;> simp [find_putIfSet, GoMap.find, h]
  · cases h : resp.SubscribersCount <;> simp [find_putIfSet, GoMap.find, h]
  · cases h : resp.WatchersCount <;> simp [find_putIfSet, GoMap.find, h]
  · cases h : resp.Size <;> simp [find_putIfSet, GoMap.find, h]
  · repeat apply nodup_keys_putIfSet
    exact List.nodup_nil
  · intro k hk
    rcases mem_keys_putIfSet _ _ _ _ hk with e | hk
    · simp [e]
    rcases mem_keys_putIfSet _ _ _ _ hk with e | hk
    · simp [e]
    rcases mem_keys_putIfSet _ _ _ _ hk with e | hk
    · simp [e]
    rcases mem_keys_putIfSet _ _ _ _ hk with e | hk
    · simp [e]
    rcases mem_keys_putIfSet _ _ _ _ hk with e | hk
    · simp [e]
    rcases mem_keys_putIfSet _ _ _ _ hk with e | hk
    · simp [e]
    rcases mem_keys_putIfSet _ _ _ _ hk with e | hk
    · simp [e]
    · simp [GoMap.keys] at hk

/-! ## C4: a concrete repository counter -/

/-- C4 (failing input): for the repository name `my.repo`, whose slug is `my_repo`, the stats
are stored under the slug but read under the raw name, so the single record carries `0`
although the payload has 42 stars. -/
theorem concrete_repo_counter_reads_raw_name :
    (gitStats slugMake
        (fixedClient (.error "unused") (.error "unused") (.error "unused")
          (.ok { Name := some "my.repo", StargazersCount := some 42 }) (.error "unused"))
        1 [{ Namespace_ := gsNs ["repo", "acme", "my.repo", "stars"], Version_ := 3 }] ⟨(), []⟩).1 =
      .ok [{ Namespace_ := gsNs ["repo", "acme", "my_repo", "stars"], Data_ := some 0,
             Timestamp_ := 1, Version_ := 3 }] := by
  decide

/-- The spec's own example: for the name `widget`, equal to its slug, the record carries 42. -/
theorem concrete_repo_counter_slug_fixed_example :
    (gitStats slugMake
        (fixedClient (.error "unused") (.error "unused") (.error "unused")
          (.ok { Name := some "widget", StargazersCount := some 42 }) (.error "unused"))
        1 [{ Namespace_ := gsNs ["repo", "acme", "widget", "stars"], Version_ := 3 }] ⟨(), []⟩).1 =
      .ok [{ Namespace_ := gsNs ["repo", "acme", "widget", "stars"], Data_ := some 42,
             Timestamp_ := 1, Version_ := 3 }] := by
  decide

/-! ## C7: the credential check of `CollectMetrics` -/

/-- C7: for a non-empty batch whose configuration has no `access_token` entry, or has it set
to the empty string, `CollectMetrics` returns the configuration error, hence no records, and
leaves the world untouched: no remote call is logged and `gitStats` is not run. -/
theorem CollectMetrics_missing_token {σ : Type} (slug : String → String) (c : Client σ)
    (collectionTime : Nat) (m0 : MetricType) (rest : List MetricType) (w : World σ)
    (h : GoMap.find m0.Config_ "access_token" = none ∨
      GoMap.find m0.Config_ "access_token" = some (.str "")) :
    CollectMetrics slug c collectionTime (m0 :: rest) w = (.error .accessTokenMissing, w) := by
  rcases h with h | h <;> simp [CollectMetrics, h]

/-- C7, worked example: an empty token on a client whose every call would succeed. -/
theorem CollectMetrics_missing_token_witness :
    CollectMetrics slugMake
        (fixedClient (.ok {}) (.ok {}) (.ok []) (.ok {}) (.ok ([], [])))
        1 [{ Namespace_ := gsNs ["user", "*", "followers"],
             Config_ := [("access_token", .str "")] }] ⟨(), []⟩ =
      (.error .accessTokenMissing, ⟨(), []⟩) :=
  CollectMetrics_missing_token slugMake _ 1 _ [] ⟨(), []⟩ (Or.inr (by decide))

/-! ## C6: the wildcard user -/

theorem find_userStats_public (u : User) (s : String) (v : Int) (h : userCounter u s = some v) :
    GoMap.find (putIfSet (putIfSet (putIfSet (putIfSet [] "public_repos" u.PublicRepos)
      "public_gists" u.PublicGists) "followers" u.Followers) "following" u.Following) s = some v := by
  unfold userCounter at h
  split_ifs at h with h1 h2 h3 h4
  · subst h1; simp [find_putIfSet, GoMap.find, h]
  · subst h2; simp [find_putIfSet, GoMap.find, h]
  · subst h3; simp [find_putIfSet, GoMap.find, h]
  · subst h4; simp [find_putIfSet, GoMap.find, h]

/-- C6: with no configured user, the batch `[user/*/s]` on an identity with login `L` that is
not an organization and has the public counter `s` set to `v` makes exactly one remote call,
the authenticated-identity lookup `GetUsers("")`, and returns exactly one record, with
namespace `raintank/apps/gitstats/user/L/s` and value `v`. -/
theorem wildcard_user_resolves_once {σ : Type} (slug : String → String) (c : Client σ)
    (collectionTime : Nat) (m : MetricType) (s0 s1 : σ) (s L t useRepo : String) (u : User)
    (v : Int)
    (hns : m.Namespace_ = gsNs ["user", "*", s])
    (hconfUser : confString m.Config_ "user" = .ok "")
    (hconfRepo : confString m.Config_ "repo" = .ok useRepo)
    (hcall : c.GetUsers s0 "" = (.ok u, s1))
    (hlogin : u.Login = some L)
    (htype : u.Type_ = some t) (hnotOrg : t ≠ "Organization")
    (hv : userCounter u s = some v) :
    gitStats slug c collectionTime [m] ⟨s0, []⟩ =
      (.ok [counterRecord m collectionTime v (gsNs ["user", L, s])],
        ⟨s1, [⟨.getUsers "", .user u⟩]⟩) := by
  have hf := find_userStats_public u s v hv
  simp [gitStats, hconfUser, hconfRepo, gitStatsLoop, gitStatsStep, hns, gsNs, userCase,
    resolveAuthUserUser, callGetUsers, hcall, hlogin, userStats, htype, hnotOrg,
    GoMap.findD, GoMap.find_put, hf]

/-- C6, worked example: `[user/*/followers]`, the caller is `octocat` with 5 followers. -/
theorem wildcard_user_resolves_once_witness :
    gitStats slugMake
        (fixedClient (.ok { Login := some "octocat", Type_ := some "User", Followers := some 5 })
          (.error "unused") (.error "unused") (.error "unused") (.error "unused"))
        9 [{ Namespace_ := gsNs ["user", "*", "followers"], Version_ := 2 }] ⟨(), []⟩ =
      (.ok [counterRecord { Namespace_ := gsNs ["user", "*", "followers"], Version_ := 2 } 9 5
          (gsNs ["user", "octocat", "followers"])],
        ⟨(), [⟨.getUsers "",
          .user { Login := some "octocat", Type_ := some "User", Followers := some 5 }⟩]⟩) :=
  wildcard_user_resolves_once slugMake _ 9 _ () () "followers" "octocat" "User" "" _ 5
    rfl (by decide) (by decide) rfl rfl rfl (by decide) (by decide)

/-! ## C5: the wildcard repository -/

theorem repoStats_eq (r : Repository) : repoStats r = .ok (repoStatsMap r) := rfl

theorem find_repoStatsMap (r : Repository) (s : String) :
    GoMap.find (repoStatsMap r) s = repoCounter r s := by
  unfold repoCounter
  split_ifs with h1 h2 h3 h4 h5 h6 h7
  · subst h1; cases h : r.ForksCount <;> simp [repoStatsMap, repoStats, find_putIfSet, GoMap.find, h]
  · subst h2; cases h : r.OpenIssuesCount <;> simp [repoStatsMap, repoStats, find_putIfSet, GoMap.find, h]
  · subst h3; cases h : r.NetworkCount <;> simp [repoStatsMap, repoStats, find_putIfSet, GoMap.find, h]
  · subst h4; cases h : r.StargazersCount <;> simp [repoStatsMap, repoStats, find_putIfSet, GoMap.find, h]
  · subst h5; cases h : r.SubscribersCount <;> simp [repoStatsMap, repoStats, find_putIfSet, GoMap.find, h]
  · subst h6; cases h : r.WatchersCount <;> simp [repoStatsMap, repoStats, find_putIfSet, GoMap.find, h]
  · subst h7; cases h : r.Size <;> simp [repoStatsMap, repoStats, find_putIfSet, GoMap.find, h]
  · simp [repoStatsMap, repoStats, find_putIfSet, GoMap.find, Ne.symm h1, Ne.symm h2, Ne.symm h3,
      Ne.symm h4, Ne.symm h5, Ne.symm h6, Ne.symm h7]

theorem GoMap.put_of_not_mem {V : Type} (m : GoMap V) (k : String) (v : V)
    (h : k ∉ GoMap.keys m) : GoMap.put m k v = m ++ [(k, v)] := by
  induction m with
  | nil => rfl
  | cons hd tl ih =>
    obtain ⟨a, w⟩ := hd
    simp only [GoMap.keys, List.map_cons, List.mem_cons, not_or] at h
    have hak : ¬ a = k := fun e => h.1 e.symm
    simp only [GoMap.put, hak, if_false, List.cons_append, List.cons.injEq, true_and]
    exact ih h.2

/-- The stats table the wildcard expansion builds for one owner. -/
theorem expandLoop_counters {σ : Type} (slug : String → String) (c : Client σ) (m : MetricType)
    (now : Nat) (user repo stat : String) (hstat : stat ≠ "issuesbylabel") (rs : List Repository) :
    ∀ (l : Locals) (w : World σ) (inner : GoMap (GoMap Int)),
      l.repos = [(user, inner)] →
      (∀ r ∈ rs, r.Name ≠ none) →
      (rs.filterMap fun r => r.Name.map slug).Nodup →
      (∀ k ∈ rs.filterMap (fun r => r.Name.map slug), k ∉ GoMap.keys inner) →
      expandLoop slug c m now user repo stat l w rs =
        (.ok { l with repos := [(user, inner ++ rs.filterMap fun r =>
          r.Name.map fun n => (slug n, repoStatsMap r))] }, w) := by
  induction rs with
  | nil =>
    intro l w inner hl _ _ _
    simp [expandLoop, ← hl]
  | cons r rest ih =>
    intro l w inner hl hnamed hnd hdis
    cases hn : r.Name with
    | none => exact absurd hn (hnamed r (List.mem_cons_self _ _))
    | some n =>
      simp only [List.filterMap_cons, hn, Option.map_some', List.nodup_cons, List.mem_cons,
        forall_eq_or_imp] at hnd hdis
      have hput : GoMap.put inner (slug n) (repoStatsMap r) = inner ++ [(slug n, repoStatsMap r)] :=
        GoMap.put_of_not_mem _ _ _ hdis.1
      have hdis2 : ∀ k ∈ rest.filterMap (fun r => r.Name.map slug),
          k ∉ GoMap.keys (inner ++ [(slug n, repoStatsMap r)]) := by
        intro k hk
        simp only [GoMap.keys, List.map_append, List.map_cons, List.map_nil, List.mem_append,
          List.mem_singleton, not_or]
        refine ⟨hdis.2 k hk, ?_⟩
        intro e
        exact hnd.1 (e ▸ hk)
      have hstep := ih
        { l with repos := [(user, inner ++ [(slug n, repoStatsMap r)])] } w
        (inner ++ [(slug n, repoStatsMap r)]) rfl
        (fun r2 h2 => hnamed r2 (List.mem_cons_of_mem _ h2)) hnd.2 hdis2
      simp only [expandLoop, hn, hstat, if_false, repoStats_eq, hl, GoMap.findD, GoMap.find,
        if_true, Option.getD_some, GoMap.put, hput]
      rw [hstep]
      simp [List.filterMap_cons, hn]

/-- C5: with no configured repository, a concrete owner `o` and a simple counter `s`, the batch
`[repo/o/*/s]` on a successful repository listing whose repositories are named and have
pairwise distinct slugs returns, up to order, one record per listed repository `r`, with
namespace `raintank/apps/gitstats/repo/o/<slug of r>/s` and value `r`'s counter `s` (`0` when
the payload does not set it); so exactly as many records as repositories. -/
theorem wildcard_repo_one_record_per_repo {σ : Type} (slug : String → String) (c : Client σ)
    (collectionTime : Nat) (m : MetricType) (w : World σ) (s1 : σ) (o s authUser : String)
    (repoList : List Repository)
    (hns : m.Namespace_ = gsNs ["repo", o, "*", s])
    (ho : o ≠ "*") (hs : s ≠ "issuesbylabel")
    (hconfUser : confString m.Config_ "user" = .ok authUser)
    (hconfRepo : confString m.Config_ "repo" = .ok "")
    (hlist : c.ListRepositories w.cs o = (.ok repoList, s1))
    (hnamed : ∀ r ∈ repoList, r.Name ≠ none)
    (hnd : (repoList.filterMap fun r => r.Name.map slug).Nodup) :
    ∃ ms, gitStats slug c collectionTime [m] w =
        (.ok ms, ⟨s1, w.trace ++ [⟨.listRepositories o, .repoList repoList⟩]⟩) ∧
      ms.Perm (repoList.filterMap fun r => r.Name.map fun n =>
        counterRecord m collectionTime ((repoCounter r s).getD 0) (gsNs ["repo", o, slug n, s])) ∧
      ms.length = repoList.length := by
  have hloop := expandLoop_counters slug c m collectionTime o "*" s hs repoList
    { repos := [(o, [])], userRepos := [(o, ())], authUser := authUser }
    ⟨s1, w.trace ++ [⟨.listRepositories o, .repoList repoList⟩]⟩ [] rfl hnamed hnd
    (by simp [GoMap.keys])
  have hlen : (repoList.filterMap fun r => r.Name.map fun n =>
      counterRecord m collectionTime ((repoCounter r s).getD 0) (gsNs ["repo", o, slug n, s])).length
        = repoList.length := by
    clear hloop hnd hlist
    induction repoList with
    | nil => rfl
    | cons r rest ih =>
      cases hn : r.Name with
      | none => exact absurd hn (hnamed r (List.mem_cons_self _ _))
      | some n =>
        simp only [List.filterMap_cons, hn, Option.map_some', List.length_cons]
        rw [ih (fun r2 h2 => hnamed r2 (List.mem_cons_of_mem _ h2))]
  refine ⟨_, ?_, List.Perm.refl _, hlen⟩
  have hcall : callListRepositories c w o =
      (.ok repoList, ⟨s1, w.trace ++ [⟨.listRepositories o, .repoList repoList⟩]⟩) := by
    simp [callListRepositories, hlist]
  have hexp : expandWildcardRepo slug c m collectionTime o "*" s { authUser := authUser } w =
      (.ok (emitUserRepos m collectionTime o s
        { repos := [(o, [] ++ repoList.filterMap fun r => r.Name.map fun n => (slug n, repoStatsMap r))],
          userRepos := [(o, ())], authUser := authUser }),
        ⟨s1, w.trace ++ [⟨.listRepositories o, .repoList repoList⟩]⟩) := by
    simp only [expandWildcardRepo, ensureOwner, GoMap.has, GoMap.find, hcall, GoMap.put,
      Option.isSome_none, Bool.false_eq_true, if_false, if_true, Option.isSome_some]
    rw [hloop]
  have hstep : gitStatsStep slug c collectionTime "" { authUser := authUser } w m =
      expandWildcardRepo slug c m collectionTime o "*" s { authUser := authUser } w := by
    simp [gitStatsStep, hns, gsNs, repoCase, ho]
  simp only [gitStats, hconfUser, hconfRepo, gitStatsLoop, hstep, hexp]
  simp only [emitUserRepos, GoMap.findD, GoMap.find, List.map_filterMap, counterRecord, gsNs,
    if_true, Option.getD_some, List.nil_append, Option.map_map, Function.comp_def,
    find_repoStatsMap]

/-- C5, the worked example of the specification: `[repo/acme/*/issues]`, acme owns widget
and gizmo. -/
theorem wildcard_repo_one_record_per_repo_witness :
    ∃ ms, gitStats slugMake
        (fixedClient (.error "unused") (.error "unused")
          (.ok [{ Name := some "widget", OpenIssuesCount := some 3 },
            { Name := some "gizmo", OpenIssuesCount := some 4 }])
          (.error "unused") (.error "unused"))
        9 [{ Namespace_ := gsNs ["repo", "acme", "*", "issues"] }] ⟨(), []⟩ =
        (.ok ms, ⟨(), [] ++ [⟨.listRepositories "acme",
          .repoList [{ Name := some "widget", OpenIssuesCount := some 3 },
            { Name := some "gizmo", OpenIssuesCount := some 4 }]⟩]⟩) ∧
      ms.Perm (([{ Name := some "widget", OpenIssuesCount := some 3 },
            { Name := some "gizmo", OpenIssuesCount := some 4 }] : List Repository).filterMap
          fun r => r.Name.map fun n =>
            counterRecord { Namespace_ := gsNs ["repo", "acme", "*", "issues"] } 9
              ((repoCounter r "issues").getD 0) (gsNs ["repo", "acme", slugMake n, "issues"])) ∧
      ms.length = ([{ Name := some "widget", OpenIssuesCount := some 3 },
            { Name := some "gizmo", OpenIssuesCount := some 4 }] : List Repository).length :=
  wildcard_repo_one_record_per_repo slugMake _ 9 _ ⟨(), []⟩ () "acme" "issues" ""
    _ rfl (by decide) (by decide) (by decide) (by decide) rfl (by decide) (by decide)

/-! ## The five remote operations, case by case -/

theorem callGetUsers_cases {σ : Type} (c : Client σ) (w : World σ) (user : String) :
    (∃ u s, callGetUsers c w user = (.ok u, ⟨s, w.trace ++ [⟨.getUsers user, .user u⟩]⟩) ∧
        c.GetUsers w.cs user = (.ok u, s)) ∨
      (∃ e s, callGetUsers c w user = (.error e, ⟨s, w.trace ++ [⟨.getUsers user, .failed e⟩]⟩)) := by
  unfold callGetUsers
  rcases h : c.GetUsers w.cs user with ⟨r, s⟩
  cases r with
  | ok u => exact Or.inl ⟨u, s, rfl, rfl⟩
  | error e => exact Or.inr ⟨e, s, rfl⟩

theorem callGetOrganizations_cases {σ : Type} (c : Client σ) (w : World σ) (org : String) :
    (∃ o s, callGetOrganizations c w org =
        (.ok o, ⟨s, w.trace ++ [⟨.getOrganizations org, .org o⟩]⟩)) ∨
      (∃ e s, callGetOrganizations c w org =
        (.error e, ⟨s, w.trace ++ [⟨.getOrganizations org, .failed e⟩]⟩)) := by
  unfold callGetOrganizations
  rcases h : c.GetOrganizations w.cs org with ⟨r, s⟩
  cases r with
  | ok u => exact Or.inl ⟨u, s, rfl⟩
  | error e => exact Or.inr ⟨e, s, rfl⟩

theorem callListRepositories_cases {σ : Type} (c : Client σ) (w : World σ) (user : String) :
    (∃ rs s, callListRepositories c w user =
        (.ok rs, ⟨s, w.trace ++ [⟨.listRepositories user, .repoList rs⟩]⟩)) ∨
      (∃ e s, callListRepositories c w user =
        (.error e, ⟨s, w.trace ++ [⟨.listRepositories user, .failed e⟩]⟩)) := by
  unfold callListRepositories
  rcases h : c.ListRepositories w.cs user with ⟨r, s⟩
  cases r with
  | ok u => exact Or.inl ⟨u, s, rfl⟩
  | error e => exact Or.inr ⟨e, s, rfl⟩

theorem callGetRepository_cases {σ : Type} (c : Client σ) (w : World σ) (owner repo : String) :
    (∃ r s, callGetRepository c w owner repo =
        (.ok r, ⟨s, w.trace ++ [⟨.getRepository owner repo, .repo r⟩]⟩)) ∨
      (∃ e s, callGetRepository c w owner repo =
        (.error e, ⟨s, w.trace ++ [⟨.getRepository owner repo, .failed e⟩]⟩)) := by
  unfold callGetRepository
  rcases h : c.GetRepository w.cs owner repo with ⟨r, s⟩
  cases r with
  | ok u => exact Or.inl ⟨u, s, rfl⟩
  | error e => exact Or.inr ⟨e, s, rfl⟩

theorem callGetAllLabelsAndIssues_cases {σ : Type} (c : Client σ) (w : World σ)
    (owner repo : String) :
    (∃ ls is s, callGetAllLabelsAndIssues c w owner repo =
        (.ok (ls, is), ⟨s, w.trace ++ [⟨.getAllLabelsAndIssues owner repo, .labelsAndIssues ls is⟩]⟩)) ∨
      (∃ e s, callGetAllLabelsAndIssues c w owner repo =
        (.error e, ⟨s, w.trace ++ [⟨.getAllLabelsAndIssues owner repo, .failed e⟩]⟩)) := by
  unfold callGetAllLabelsAndIssues
  rcases h : c.GetAllLabelsAndIssues w.cs owner repo with ⟨r, s⟩
  cases r with
  | ok p => exact Or.inl ⟨p.1, p.2, s, rfl⟩
  | error e => exact Or.inr ⟨e, s, rfl⟩

/-! ## The pure helpers never return an error -/

theorem initLabelStats_ne_error (slug : String → String) (labels : List Label) :
    ∀ (T : GoMap LabelMetric) (e : GsError), initLabelStats slug T labels ≠ .error e := by
  induction labels with
  | nil => intro T e h; simp [initLabelStats] at h
  | cons lv rest ih =>
    intro T e h
    cases hn : lv.Name with
    | none => simp [initLabelStats, hn] at h
    | some n =>
      simp only [initLabelStats, hn] at h
      exact ih _ e h

theorem bump_ne_error (T : GoMap LabelMetric) (k : String) (e : GsError) : bump T k ≠ .error e := by
  unfold bump
  split <;> simp

theorem tallyLabels_ne_error (slug : String → String) (state : Option String) (ls : List Label) :
    ∀ (T : GoMap LabelMetric) (e : GsError), tallyLabels slug state T ls ≠ .error e := by
  induction ls with
  | nil => intro T e h; simp [tallyLabels] at h
  | cons l rest ih =>
    intro T e h
    unfold tallyLabels at h
    split at h
    · split at h
      · exact ih _ e h
      · rename_i hb
        exact bump_ne_error _ _ _ hb
      · cases h
    · cases h

theorem tallyIssue_ne_error (slug : String → String) (T : GoMap LabelMetric) (i : Issue)
    (e : GsError) : tallyIssue slug T i ≠ .error e := by
  unfold tallyIssue
  split
  · split
    · simp
    · exact bump_ne_error _ _ _
  · exact tallyLabels_ne_error _ _ _ _ _

theorem tallyIssues_ne_error (slug : String → String) (issues : List Issue) :
    ∀ (T : GoMap LabelMetric) (e : GsError), tallyIssues slug T issues ≠ .error e := by
  induction issues with
  | nil => intro T e h; simp [tallyIssues] at h
  | cons i rest ih =>
    intro T e h
    unfold tallyIssues at h
    split at h
    · exact ih _ e h
    · rename_i hb
      exact tallyIssue_ne_error _ _ _ _ hb
    · cases h

theorem collectIssueMetrics_ne_error (slug : String → String) (m : MetricType) (now : Nat)
    (owner repo : String) (labels : List Label) (issues : List Issue) (e : GsError) :
    collectIssueMetrics slug m now owner repo labels issues ≠ .error e := by
  intro h
  unfold collectIssueMetrics at h
  split at h
  · dsimp only at h
    split at h
    · cases h
    · rename_i hb
      exact tallyIssues_ne_error _ _ _ _ hb
    · cases h
  · rename_i hb
    exact initLabelStats_ne_error _ _ _ _ hb
  · cases h

/-! ## Fail-stop: lemmas on logs -/

theorem noFail_append (t : List Event) (call : Call) (rep : Reply) (h : NoFail t)
    (hr : rep.isFailed = false) : NoFail (t ++ [⟨call, rep⟩]) := by
  intro e he
  rcases List.mem_append.1 he with h1 | h1
  · exact h e h1
  · rw [List.mem_singleton.1 h1]
    exact hr

theorem failStop_failed {α : Type} (t : List Event) (call : Call) (msg : String) (h : NoFail t) :
    FailStop (Res.error (GsError.remote msg) : Res α) (t ++ [⟨call, .failed msg⟩]) :=
  ⟨t, call, msg, rfl, h, rfl⟩

theorem failStop_ok {α : Type} (a : α) (t : List Event) : FailStop (Res.ok a) t ↔ NoFail t :=
  Iff.rfl

theorem failStop_panic {α : Type} (t : List Event) : FailStop (Res.panic : Res α) t ↔ NoFail t :=
  Iff.rfl

theorem failStop_error_cast {α β : Type} (e : GsError) (t : List Event)
    (h : FailStop (Res.error e : Res α) t) : FailStop (Res.error e : Res β) t := h

theorem failStop_panic_cast {α β : Type} (t : List Event)
    (h : FailStop (Res.panic : Res α) t) : FailStop (Res.panic : Res β) t := h

/-! ## Fail-stop, function by function -/

theorem userStats_failStop {σ : Type} (c : Client σ) (u : User) (w w2 : World σ)
    (r : Res (GoMap Int)) (h : userStats c u w = (r, w2)) (hn : NoFail w.trace) :
    FailStop r w2.trace := by
  simp only [userStats] at h
  split at h
  · cases h; exact hn
  · split at h
    · split at h
      · cases h; exact hn
      · rename_i login _
        rcases callGetOrganizations_cases c w login with ⟨o, s, hc⟩ | ⟨e, s, hc⟩
        · rw [hc] at h
          cases h
          exact noFail_append _ _ _ hn rfl
        · rw [hc] at h
          cases h
          exact failStop_failed _ _ _ hn
    · cases h; exact hn

theorem fetchUser_failStop {σ : Type} (c : Client σ) (login key : String) (l : Locals)
    (w w2 : World σ) (r : Res Locals) (h : fetchUser c login key l w = (r, w2))
    (hn : NoFail w.trace) : FailStop r w2.trace := by
  unfold fetchUser at h
  rcases callGetUsers_cases c w login with ⟨u, s, hc, _⟩ | ⟨e, s, hc⟩
  · rw [hc] at h
    dsimp only at h
    rcases hu : userStats c u ⟨s, w.trace ++ [⟨.getUsers login, .user u⟩]⟩ with ⟨r1, w1⟩
    have h1 := userStats_failStop c u _ _ _ hu (noFail_append _ _ _ hn rfl)
    rw [hu] at h
    cases r1 <;> cases h <;> exact h1
  · rw [hc] at h
    cases h
    exact failStop_failed _ _ _ hn

theorem resolveAuthUserRepo_failStop {σ : Type} (c : Client σ) (l : Locals)
    (w w2 : World σ) (r : Res Locals) (h : resolveAuthUserRepo c l w = (r, w2))
    (hn : NoFail w.trace) : FailStop r w2.trace := by
  unfold resolveAuthUserRepo at h
  split at h
  · rcases callGetUsers_cases c w "" with ⟨u, s, hc, _⟩ | ⟨e, s, hc⟩
    · rw [hc] at h
      dsimp only at h
      rcases hu : userStats c u ⟨s, w.trace ++ [⟨.getUsers "", .user u⟩]⟩ with ⟨r1, w1⟩
      have h1 := userStats_failStop c u _ _ _ hu (noFail_append _ _ _ hn rfl)
      rw [hu] at h
      cases r1 with
      | ok stats =>
        dsimp only at h
        split at h <;> cases h <;> exact h1
      | error e => cases h; exact h1
      | panic => cases h; exact h1
    · rw [hc] at h
      cases h
      exact failStop_failed _ _ _ hn
  · cases h; exact hn

theorem resolveAuthUserUser_failStop {σ : Type} (c : Client σ) (l : Locals)
    (w w2 : World σ) (r : Res Locals) (h : resolveAuthUserUser c l w = (r, w2))
    (hn : NoFail w.trace) : FailStop r w2.trace := by
  unfold resolveAuthUserUser at h
  split at h
  · rcases callGetUsers_cases c w "" with ⟨u, s, hc, _⟩ | ⟨e, s, hc⟩
    · rw [hc] at h
      dsimp only at h
      split at h
      · cases h
        exact noFail_append _ _ _ hn rfl
      · rcases hu : userStats c u ⟨s, w.trace ++ [⟨.getUsers "", .user u⟩]⟩ with ⟨r1, w1⟩
        have h1 := userStats_failStop c u _ _ _ hu (noFail_append _ _ _ hn rfl)
        rw [hu] at h
        cases r1 <;> cases h <;> exact h1
    · rw [hc] at h
      cases h
      exact failStop_failed _ _ _ hn
  · split at h
    · cases h; exact hn
    · exact fetchUser_failStop c _ _ l w w2 r h hn

theorem issuesByLabel_failStop {σ : Type} (slug : String → String) (c : Client σ)
    (m : MetricType) (now : Nat) (user repo repoSlug : String) (l : Locals) (w w2 : World σ)
    (r : Res Locals) (h : issuesByLabel slug c m now user repo repoSlug l w = (r, w2))
    (hn : NoFail w.trace) : FailStop r w2.trace := by
  unfold issuesByLabel at h
  rcases callGetAllLabelsAndIssues_cases c w user repo with ⟨ls, is, s, hc⟩ | ⟨e, s, hc⟩
  · rw [hc] at h
    dsimp only at h
    split at h
    · rename_i hb
      exact absurd hb (collectIssueMetrics_ne_error _ _ _ _ _ _ _ _)
    · cases h
      exact noFail_append _ _ _ hn rfl
    · cases h
      exact noFail_append _ _ _ hn rfl
  · rw [hc] at h
    cases h
    exact failStop_failed _ _ _ hn

theorem fetchRepo_failStop {σ : Type} (slug : String → String) (c : Client σ)
    (user repo : String) (l : Locals) (w w2 : World σ)
    (r : Res Locals) (h : fetchRepo slug c user repo l w = (r, w2))
    (hn : NoFail w.trace) : FailStop r w2.trace := by
  unfold fetchRepo at h
  split at h
  · cases h; exact hn
  · rcases callGetRepository_cases c w user repo with ⟨rp, s, hc⟩ | ⟨e, s, hc⟩
    · rw [hc] at h
      dsimp only at h
      rw [repoStats_eq] at h
      cases h
      exact noFail_append _ _ _ hn rfl
    · rw [hc] at h
      cases h
      exact failStop_failed _ _ _ hn

theorem expandLoop_failStop {σ : Type} (slug : String → String) (c : Client σ) (m : MetricType)
    (now : Nat) (user repo stat : String) (rs : List Repository) :
    ∀ (l : Locals) (w w2 : World σ) (r : Res Locals),
      expandLoop slug c m now user repo stat l w rs = (r, w2) → NoFail w.trace →
      FailStop r w2.trace := by
  induction rs with
  | nil =>
    intro l w w2 r h hn
    simp only [expandLoop] at h
    cases h; exact hn
  | cons rp rest ih =>
    intro l w w2 r h hn
    unfold expandLoop at h
    split at h
    · cases h; exact hn
    · dsimp only at h
      split at h
      · rcases hb : issuesByLabel slug c m now user repo (slug _) l w with ⟨r1, w1⟩
        have h1 := issuesByLabel_failStop _ _ _ _ _ _ _ _ _ _ _ hb hn
        rw [hb] at h
        cases r1 with
        | ok l1 => exact ih _ _ _ _ h h1
        | error e => cases h; exact h1
        | panic => cases h; exact h1
      · rw [repoStats_eq] at h
        exact ih _ _ _ _ h hn

theorem expandWildcardRepo_failStop {σ : Type} (slug : String → String) (c : Client σ)
    (m : MetricType) (now : Nat) (user repo stat : String) (l : Locals) (w w2 : World σ)
    (r : Res Locals) (h : expandWildcardRepo slug c m now user repo stat l w = (r, w2))
    (hn : NoFail w.trace) : FailStop r w2.trace := by
  unfold expandWildcardRepo at h
  split at h
  · cases h; exact hn
  · rcases callListRepositories_cases c w user with ⟨rs, s, hc⟩ | ⟨e, s, hc⟩
    · rw [hc] at h
      dsimp only at h
      rcases hb : expandLoop slug c m now user repo stat
        (ensureOwner user { l with userRepos := GoMap.put l.userRepos user () })
        ⟨s, w.trace ++ [⟨.listRepositories user, .repoList rs⟩]⟩ rs with ⟨r1, w1⟩
      have h1 := expandLoop_failStop slug c m now user repo stat rs _ _ _ _ hb
        (noFail_append _ _ _ hn rfl)
      rw [hb] at h
      cases r1 <;> cases h <;> exact h1
    · rw [hc] at h
      cases h
      exact failStop_failed _ _ _ hn

theorem concreteRepo_failStop {σ : Type} (slug : String → String) (c : Client σ)
    (m : MetricType) (now : Nat) (useRepo user repo0 stat : String) (l : Locals) (w w2 : World σ)
    (r : Res Locals) (h : concreteRepo slug c m now useRepo user repo0 stat l w = (r, w2))
    (hn : NoFail w.trace) : FailStop r w2.trace := by
  unfold concreteRepo at h
  dsimp only at h
  split at h
  · exact issuesByLabel_failStop _ _ _ _ _ _ _ _ _ _ _ h hn
  · rcases hb : fetchRepo slug c user (if repo0 = "*" then useRepo else repo0)
      (ensureOwner user l) w with ⟨r1, w1⟩
    have h1 := fetchRepo_failStop _ _ _ _ _ _ _ _ hb hn
    rw [hb] at h
    cases r1 <;> cases h <;> exact h1

theorem repoCase_failStop {σ : Type} (slug : String → String) (c : Client σ)
    (m : MetricType) (now : Nat) (useRepo : String) (ns : List String) (l : Locals)
    (w w2 : World σ) (r : Res Locals) (h : repoCase slug c m now useRepo ns l w = (r, w2))
    (hn : NoFail w.trace) : FailStop r w2.trace := by
  unfold repoCase at h
  split at h
  · rename_i user0 repo stat _ _ _
    dsimp only at h
    rcases hb : (if user0 = "*" then resolveAuthUserRepo c l w else (Res.ok l, w)) with ⟨r1, w1⟩
    have h1 : FailStop r1 w1.trace := by
      by_cases hu : user0 = "*"
      · rw [if_pos hu] at hb
        exact resolveAuthUserRepo_failStop c l w w1 r1 hb hn
      · rw [if_neg hu] at hb
        cases hb
        exact hn
    rw [hb] at h
    cases r1 with
    | ok l1 =>
      dsimp only at h
      split at h
      · exact expandWildcardRepo_failStop _ _ _ _ _ _ _ _ _ _ _ h h1
      · exact concreteRepo_failStop _ _ _ _ _ _ _ _ _ _ _ _ h h1
    | error e => cases h; exact h1
    | panic => cases h; exact h1
  · cases h; exact hn

theorem userCase_failStop {σ : Type} (c : Client σ) (m : MetricType) (now : Nat)
    (ns : List String) (l : Locals) (w w2 : World σ) (r : Res Locals)
    (h : userCase c m now ns l w = (r, w2)) (hn : NoFail w.trace) : FailStop r w2.trace := by
  unfold userCase at h
  split at h
  · rename_i user0 stat _ _
    dsimp only at h
    rcases hb : (if user0 = "*" then resolveAuthUserUser c l w
      else if GoMap.has l.users user0 then (Res.ok l, w) else fetchUser c user0 user0 l w)
      with ⟨r1, w1⟩
    have h1 : FailStop r1 w1.trace := by
      by_cases hu : user0 = "*"
      · rw [if_pos hu] at hb
        exact resolveAuthUserUser_failStop c l w w1 r1 hb hn
      · rw [if_neg hu] at hb
        split at hb
        · cases hb
          exact hn
        · exact fetchUser_failStop c _ _ l w w1 r1 hb hn
    rw [hb] at h
    cases r1 <;> cases h <;> exact h1
  · cases h; exact hn

theorem gitStatsStep_failStop {σ : Type} (slug : String → String) (c : Client σ) (now : Nat)
    (useRepo : String) (l : Locals) (w w2 : World σ) (m : MetricType) (r : Res Locals)
    (h : gitStatsStep slug c now useRepo l w m = (r, w2)) (hn : NoFail w.trace) :
    FailStop r w2.trace := by
  unfold gitStatsStep at h
  dsimp only at h
  split at h
  · cases h; exact hn
  · split at h
    · exact repoCase_failStop _ _ _ _ _ _ _ _ _ _ h hn
    · split at h
      · exact userCase_failStop _ _ _ _ _ _ _ _ h hn
      · cases h; exact hn

theorem gitStatsLoop_failStop {σ : Type} (slug : String → String) (c : Client σ) (now : Nat)
    (useRepo : String) (mts : List MetricType) :
    ∀ (l : Locals) (w w2 : World σ) (r : Res Locals),
      gitStatsLoop slug c now useRepo l w mts = (r, w2) → NoFail w.trace →
      FailStop r w2.trace := by
  induction mts with
  | nil =>
    intro l w w2 r h hn
    simp only [gitStatsLoop] at h
    cases h; exact hn
  | cons m rest ih =>
    intro l w w2 r h hn
    unfold gitStatsLoop at h
    rcases hb : gitStatsStep slug c now useRepo l w m with ⟨r1, w1⟩
    have h1 := gitStatsStep_failStop _ _ _ _ _ _ _ _ _ hb hn
    rw [hb] at h
    cases r1 with
    | ok l1 => exact ih _ _ _ _ h h1
    | error e => cases h; exact h1
    | panic => cases h; exact h1

theorem gitStats_failStop {σ : Type} (slug : String → String) (c : Client σ) (now : Nat)
    (mts : List MetricType) (w : World σ) (hn : NoFail w.trace) :
    FailStop (gitStats slug c now mts w).1 (gitStats slug c now mts w).2.trace := by
  unfold gitStats
  split
  · exact hn
  · split
    · rename_i m0 rest _ _ authUser useRepo _ _
      rcases hb : gitStatsLoop slug c now useRepo { authUser := authUser } w (m0 :: rest)
        with ⟨r1, w1⟩
      have h1 := gitStatsLoop_failStop _ _ _ _ _ _ _ _ _ hb hn
      cases r1 <;> exact h1
    · exact hn

/-- C8: in any run of `gitStats` from a log without failures, a remote call that failed with
message `msg` is the last call of the run (no call is made after it) and the run returns
exactly that error, hence no metric records; this holds for every batch, every client
behaviour and whatever the earlier requests of the batch had produced. -/
theorem gitStats_aborts_on_remote_failure {σ : Type} (slug : String → String) (c : Client σ)
    (collectionTime : Nat) (mts : List MetricType) (w : World σ) (hn : NoFail w.trace)
    (pre post : List Event) (ev : Event) (msg : String)
    (htrace : (gitStats slug c collectionTime mts w).2.trace = pre ++ ev :: post)
    (hfail : ev.reply = .failed msg) :
    post = [] ∧ (gitStats slug c collectionTime mts w).1 = .error (.remote msg) := by
  have h := gitStats_failStop slug c collectionTime mts w hn
  have hbad : ¬ NoFail (gitStats slug c collectionTime mts w).2.trace := by
    intro hno
    have := hno ev (by rw [htrace]; simp)
    rw [hfail] at this
    cases this
  cases hr : (gitStats slug c collectionTime mts w).1 with
  | ok a => rw [hr] at h; exact absurd h hbad
  | panic => rw [hr] at h; exact absurd h hbad
  | error e =>
    rw [hr] at h
    obtain ⟨pre2, call, msg2, ht, hpre, he⟩ := h
    rw [htrace] at ht
    have hpost : post = [] := by
      cases post with
      | nil => rfl
      | cons p ps =>
        exfalso
        have hmem : ev ∈ pre2 := by
          have hlast : (pre ++ ev :: p :: ps).dropLast = pre2 := by
            rw [ht]; simp
          rw [← hlast]
          have : pre ++ ev :: p :: ps = (pre ++ [ev]) ++ (p :: ps) := by simp
          rw [this, List.dropLast_append_of_ne_nil _ (by simp)]
          simp
        have := hpre ev hmem
        rw [hfail] at this
        cases this
    subst hpost
    have hev : ev = ⟨call, .failed msg2⟩ := by
      have := congrArg List.getLast? ht
      simpa using this
    rw [hev] at hfail
    simp only [Reply.failed.injEq] at hfail
    exact ⟨rfl, by rw [he, hfail]⟩

/-- C8, worked example: the repository fetch succeeds, then the identity lookup for `bob`
fails with `boom`; the run stops there with that error. -/
theorem gitStats_aborts_on_remote_failure_witness :
    ([] : List Event) = [] ∧
      (gitStats slugMake
        (fixedClient (.error "boom") (.error "unused") (.error "unused")
          (.ok { StargazersCount := some 42 }) (.error "unused"))
        1 [{ Namespace_ := gsNs ["repo", "acme", "widget", "stars"] },
           { Namespace_ := gsNs ["user", "bob", "followers"] },
           { Namespace_ := gsNs ["repo", "acme", "gizmo", "stars"] }] ⟨(), []⟩).1 =
        .error (.remote "boom") :=
  gitStats_aborts_on_remote_failure slugMake _ 1 _ ⟨(), []⟩ (fun _ he => by cases he)
    [⟨.getRepository "acme" "widget", .repo { StargazersCount := some 42 }⟩] []
    ⟨.getUsers "bob", .failed "boom"⟩ "boom" (by decide) rfl

/-! ## Frames: which calls a sub-step may log and what it keeps -/

theorem Calls.here (Q : Call → Prop) (t : List Event) : Calls Q t t :=
  ⟨[], by simp, by simp⟩

theorem Calls.andThen {Q : Call → Prop} {t t1 t2 : List Event} (h1 : Calls Q t t1)
    (h2 : Calls Q t1 t2) : Calls Q t t2 := by
  obtain ⟨e1, rfl, hq1⟩ := h1
  obtain ⟨e2, rfl, hq2⟩ := h2
  refine ⟨e1 ++ e2, by simp, ?_⟩
  intro e he
  rcases List.mem_append.1 he with h | h
  · exact hq1 e h
  · exact hq2 e h

theorem Calls.one {Q : Call → Prop} (t : List Event) (call : Call) (rep : Reply)
    (h : Q call) : Calls Q t (t ++ [⟨call, rep⟩]) :=
  ⟨[⟨call, rep⟩], rfl, by simpa using h⟩

theorem ReposGrow.same (l : Locals) : ReposGrow l l :=
  fun _ _ h => h

theorem ReposGrow.chain {l l1 l2 : Locals} (h1 : ReposGrow l l1) (h2 : ReposGrow l1 l2) :
    ReposGrow l l2 :=
  fun o k h => h2 o k (h1 o k h)

theorem Keep.same_locals (user : String) (l : Locals) : Keep user l l :=
  ⟨rfl, ReposGrow.same l, [], by simp, by simp [OwnerAll]⟩

theorem Keep.then_keep {user : String} {l l1 l2 : Locals} (h1 : Keep user l l1)
    (h2 : Keep user l1 l2) : Keep user l l2 := by
  obtain ⟨a1, g1, n1, m1, o1⟩ := h1
  obtain ⟨a2, g2, n2, m2, o2⟩ := h2
  refine ⟨a2.trans a1, g1.chain g2, n1 ++ n2, by rw [m2, m1]; simp, ?_⟩
  intro r hr
  rcases List.mem_append.1 hr with h | h
  · exact o1 r h
  · exact o2 r h

/-- A step that only touches fields other than `authUser`, `repos`, `metrics` keeps. -/
theorem Keep.of_fields (user : String) (l l2 : Locals) (ha : l2.authUser = l.authUser)
    (hr : l2.repos = l.repos) (hm : l2.metrics = l.metrics) : Keep user l l2 :=
  ⟨ha, fun o k h => by rw [hr]; exact h, [], by simp [hm], by simp [OwnerAll]⟩

theorem GoMap.has_put {V : Type} (m : GoMap V) (k : String) (v : V) (k2 : String) :
    GoMap.has (GoMap.put m k v) k2 = (decide (k = k2) || GoMap.has m k2) := by
  unfold GoMap.has
  rw [GoMap.find_put]
  by_cases h : k = k2 <;> simp [h]

theorem GoMap.findD_put {V : Type} (m : GoMap V) (k : String) (v : V) (k2 : String) (d : V) :
    GoMap.findD (GoMap.put m k v) k2 d = if k = k2 then v else GoMap.findD m k2 d := by
  unfold GoMap.findD
  rw [GoMap.find_put]
  by_cases h : k = k2 <;> simp [h]

theorem reposGrow_put (l l2 : Locals) (user k : String) (stats : GoMap Int)
    (h : l2.repos = GoMap.put l.repos user (GoMap.put (GoMap.findD l.repos user []) k stats)) :
    ReposGrow l l2 := by
  intro o k2 hk
  rw [h, GoMap.findD_put]
  by_cases ho : user = o
  · subst ho
    simp only [if_true, GoMap.has_put, Bool.or_eq_true, decide_eq_true_eq]
    exact Or.inr hk
  · simp only [ho, if_false]
    exact hk

theorem keep_ensureOwner (user u2 : String) (l : Locals) : Keep u2 l (ensureOwner user l) := by
  unfold ensureOwner
  split
  · exact Keep.same_locals _ _
  · rename_i hh
    refine ⟨rfl, ?_, [], by simp, by simp [OwnerAll]⟩
    intro o k hk
    simp only [GoMap.findD_put]
    by_cases ho : user = o
    · subst ho
      exfalso
      have hnone : GoMap.find l.repos user = none := by
        simpa [GoMap.has] using hh
      simp [GoMap.findD, hnone, GoMap.has, GoMap.find] at hk
    · simp only [ho, if_false]
      exact hk

theorem keep_emitUserRepos (m : MetricType) (now : Nat) (user stat : String) (l : Locals) :
    Keep user l (emitUserRepos m now user stat l) := by
  refine ⟨rfl, ReposGrow.same l, _, rfl, ?_⟩
  intro r hr
  obtain ⟨kv, _, rfl⟩ := List.mem_map.1 hr
  rfl

theorem collectIssueMetrics_owner (slug : String → String) (m : MetricType) (now : Nat)
    (owner repo : String) (labels : List Label) (issues : List Issue) (ms : List MetricType)
    (h : collectIssueMetrics slug m now owner repo labels issues = .ok ms) :
    OwnerAll owner ms := by
  obtain ⟨T0, T, _, _, hms⟩ := collectIssueMetrics_unfold _ _ _ _ _ _ _ _ h
  intro r hr
  rw [hms] at hr
  obtain ⟨kv, _, rfl⟩ := List.mem_map.1 hr
  rfl

theorem userStats_calls {σ : Type} (Q : Call → Prop) (hOrg : ∀ org, Q (.getOrganizations org))
    (c : Client σ) (u : User) (w w2 : World σ) (r : Res (GoMap Int))
    (h : userStats c u w = (r, w2)) : Calls Q w.trace w2.trace := by
  simp only [userStats] at h
  split at h
  · cases h; exact Calls.here _ _
  · split at h
    · split at h
      · cases h; exact Calls.here _ _
      · rename_i login _
        rcases callGetOrganizations_cases c w login with ⟨o, s, hc⟩ | ⟨e, s, hc⟩
        · rw [hc] at h
          cases h
          exact Calls.one _ _ _ (hOrg _)
        · rw [hc] at h
          cases h
          exact Calls.one _ _ _ (hOrg _)
    · cases h; exact Calls.here _ _

theorem fetchUser_frame {σ : Type} (Q : Call → Prop) (c : Client σ) (login key : String)
    (hUser : Q (.getUsers login)) (hOrg : ∀ org, Q (.getOrganizations org))
    (l : Locals) (w w2 : World σ) (r : Res Locals) (h : fetchUser c login key l w = (r, w2)) :
    Calls Q w.trace w2.trace ∧ ∀ l2, r = .ok l2 → ∀ user, Keep user l l2 := by
  unfold fetchUser at h
  rcases callGetUsers_cases c w login with ⟨u, s, hc, _⟩ | ⟨e, s, hc⟩
  · rw [hc] at h
    dsimp only at h
    rcases hu : userStats c u ⟨s, w.trace ++ [⟨.getUsers login, .user u⟩]⟩ with ⟨r1, w1⟩
    have h1 := (Calls.one (Q := Q) w.trace _ (.user u) hUser).andThen
      (userStats_calls Q hOrg c u _ _ _ hu)
    rw [hu] at h
    cases r1 with
    | ok stats =>
      cases h
      exact ⟨h1, fun l2 hl user => by cases hl; exact Keep.of_fields _ _ _ rfl rfl rfl⟩
    | error e => cases h; exact ⟨h1, fun l2 hl => by cases hl⟩
    | panic => cases h; exact ⟨h1, fun l2 hl => by cases hl⟩
  · rw [hc] at h
    cases h
    exact ⟨Calls.one _ _ _ hUser, fun l2 hl => by cases hl⟩

theorem issuesByLabel_frame {σ : Type} (Q : Call → Prop) (slug : String → String) (c : Client σ)
    (m : MetricType) (now : Nat) (user repo repoSlug : String)
    (hQ : Q (.getAllLabelsAndIssues user repo))
    (l : Locals) (w w2 : World σ) (r : Res Locals)
    (h : issuesByLabel slug c m now user repo repoSlug l w = (r, w2)) :
    Calls Q w.trace w2.trace ∧ ∀ l2, r = .ok l2 → Keep user l l2 := by
  unfold issuesByLabel at h
  rcases callGetAllLabelsAndIssues_cases c w user repo with ⟨ls, is, s, hc⟩ | ⟨e, s, hc⟩
  · rw [hc] at h
    dsimp only at h
    split at h
    · cases h
      exact ⟨Calls.one _ _ _ hQ, fun l2 hl => by cases hl⟩
    · cases h
      exact ⟨Calls.one _ _ _ hQ, fun l2 hl => by cases hl⟩
    · rename_i ms hms
      cases h
      refine ⟨Calls.one _ _ _ hQ, fun l2 hl => ?_⟩
      cases hl
      exact ⟨rfl, ReposGrow.same _, ms, rfl, collectIssueMetrics_owner _ _ _ _ _ _ _ _ hms⟩
  · rw [hc] at h
    cases h
    exact ⟨Calls.one _ _ _ hQ, fun l2 hl => by cases hl⟩

theorem fetchRepo_frame {σ : Type} (Q : Call → Prop) (slug : String → String) (c : Client σ)
    (user repo : String) (hQ : Q (.getRepository user repo))
    (l : Locals) (w w2 : World σ) (r : Res Locals)
    (h : fetchRepo slug c user repo l w = (r, w2)) :
    Calls Q w.trace w2.trace ∧ ∀ l2, r = .ok l2 → ∀ u2, Keep u2 l l2 := by
  unfold fetchRepo at h
  split at h
  · cases h
    exact ⟨Calls.here _ _, fun l2 hl u2 => by cases hl; exact Keep.same_locals _ _⟩
  · rcases callGetRepository_cases c w user repo with ⟨rp, s, hc⟩ | ⟨e, s, hc⟩
    · rw [hc] at h
      dsimp only at h
      rw [repoStats_eq] at h
      cases h
      refine ⟨Calls.one _ _ _ hQ, fun l2 hl u2 => ?_⟩
      cases hl
      exact ⟨rfl, reposGrow_put _ _ _ _ _ rfl, [], by simp, by simp [OwnerAll]⟩
    · rw [hc] at h
      cases h
      exact ⟨Calls.one _ _ _ hQ, fun l2 hl => by cases hl⟩

theorem expandLoop_frame {σ : Type} (Q : Call → Prop) (slug : String → String) (c : Client σ)
    (m : MetricType) (now : Nat) (user repo stat : String)
    (hQ : Q (.getAllLabelsAndIssues user repo)) (rs : List Repository) :
    ∀ (l : Locals) (w w2 : World σ) (r : Res Locals),
      expandLoop slug c m now user repo stat l w rs = (r, w2) →
      Calls Q w.trace w2.trace ∧ ∀ l2, r = .ok l2 → Keep user l l2 := by
  induction rs with
  | nil =>
    intro l w w2 r h
    simp only [expandLoop] at h
    cases h
    exact ⟨Calls.here _ _, fun l2 hl => by cases hl; exact Keep.same_locals _ _⟩
  | cons rp rest ih =>
    intro l w w2 r h
    unfold expandLoop at h
    split at h
    · cases h
      exact ⟨Calls.here _ _, fun l2 hl => by cases hl⟩
    · dsimp only at h
      split at h
      · rcases hb : issuesByLabel slug c m now user repo (slug _) l w with ⟨r1, w1⟩
        obtain ⟨hc1, hk1⟩ := issuesByLabel_frame Q _ _ _ _ _ _ _ hQ _ _ _ _ hb
        rw [hb] at h
        cases r1 with
        | ok l1 =>
          obtain ⟨hc2, hk2⟩ := ih _ _ _ _ h
          exact ⟨hc1.andThen hc2, fun l2 hl => (hk1 l1 rfl).then_keep (hk2 l2 hl)⟩
        | error e => cases h; exact ⟨hc1, fun l2 hl => by cases hl⟩
        | panic => cases h; exact ⟨hc1, fun l2 hl => by cases hl⟩
      · rw [repoStats_eq] at h
        obtain ⟨hc2, hk2⟩ := ih _ _ _ _ h
        refine ⟨hc2, fun l2 hl => Keep.then_keep ?_ (hk2 l2 hl)⟩
        exact ⟨rfl, reposGrow_put _ _ _ _ _ rfl, [], by simp, by simp [OwnerAll]⟩

theorem expandWildcardRepo_frame {σ : Type} (Q : Call → Prop) (slug : String → String)
    (c : Client σ) (m : MetricType) (now : Nat) (user repo stat : String)
    (hList : Q (.listRepositories user)) (hQ : Q (.getAllLabelsAndIssues user repo))
    (l : Locals) (w w2 : World σ) (r : Res Locals)
    (h : expandWildcardRepo slug c m now user repo stat l w = (r, w2)) :
    Calls Q w.trace w2.trace ∧ ∀ l2, r = .ok l2 → Keep user l l2 := by
  unfold expandWildcardRepo at h
  split at h
  · cases h
    exact ⟨Calls.here _ _, fun l2 hl => by cases hl; exact keep_emitUserRepos _ _ _ _ _⟩
  · rcases callListRepositories_cases c w user with ⟨rs, s, hc⟩ | ⟨e, s, hc⟩
    · rw [hc] at h
      dsimp only at h
      rcases hb : expandLoop slug c m now user repo stat
        (ensureOwner user { l with userRepos := GoMap.put l.userRepos user () })
        ⟨s, w.trace ++ [⟨.listRepositories user, .repoList rs⟩]⟩ rs with ⟨r1, w1⟩
      obtain ⟨hc1, hk1⟩ := expandLoop_frame Q slug c m now user repo stat hQ rs _ _ _ _ hb
      have hc0 := (Calls.one (Q := Q) w.trace _ (.repoList rs) hList).andThen hc1
      rw [hb] at h
      cases r1 with
      | ok l1 =>
        cases h
        refine ⟨hc0, fun l2 hl => ?_⟩
        cases hl
        have k0 : Keep user l { l with userRepos := GoMap.put l.userRepos user () } :=
          Keep.of_fields _ _ _ rfl rfl rfl
        exact ((k0.then_keep (keep_ensureOwner user user _)).then_keep (hk1 l1 rfl)).then_keep
          (keep_emitUserRepos _ _ _ _ _)
      | error e => cases h; exact ⟨hc0, fun l2 hl => by cases hl⟩
      | panic => cases h; exact ⟨hc0, fun l2 hl => by cases hl⟩
    · rw [hc] at h
      cases h
      exact ⟨Calls.one _ _ _ hList, fun l2 hl => by cases hl⟩

theorem concreteRepo_frame {σ : Type} (Q : Call → Prop) (slug : String → String)
    (c : Client σ) (m : MetricType) (now : Nat) (useRepo user repo0 stat : String)
    (hRepo : ∀ rp, Q (.getRepository user rp)) (hQ : ∀ rp, Q (.getAllLabelsAndIssues user rp))
    (l : Locals) (w w2 : World σ) (r : Res Locals)
    (h : concreteRepo slug c m now useRepo user repo0 stat l w = (r, w2)) :
    Calls Q w.trace w2.trace ∧ ∀ l2, r = .ok l2 → Keep user l l2 := by
  unfold concreteRepo at h
  dsimp only at h
  split at h
  · exact issuesByLabel_frame Q _ _ _ _ _ _ _ (hQ _) _ _ _ _ h
  · rcases hb : fetchRepo slug c user (if repo0 = "*" then useRepo else repo0)
      (ensureOwner user l) w with ⟨r1, w1⟩
    obtain ⟨hc1, hk1⟩ := fetchRepo_frame Q _ _ _ _ (hRepo _) _ _ _ _ hb
    rw [hb] at h
    cases r1 with
    | ok l1 =>
      cases h
      refine ⟨hc1, fun l2 hl => ?_⟩
      cases hl
      refine ((keep_ensureOwner user user l).then_keep (hk1 l1 rfl user)).then_keep ?_
      refine ⟨rfl, ReposGrow.same _, _, rfl, ?_⟩
      intro rec hrec
      rw [List.mem_singleton.1 hrec]
      rfl
    | error e => cases h; exact ⟨hc1, fun l2 hl => by cases hl⟩
    | panic => cases h; exact ⟨hc1, fun l2 hl => by cases hl⟩

/-! ## C9: a repository is fetched at most once per cache key -/

theorem resolveAuthUserRepo_frame {σ : Type} (Q : Call → Prop) (c : Client σ)
    (hWho : Q (.getUsers "")) (hOrg : ∀ org, Q (.getOrganizations org))
    (l : Locals) (w w2 : World σ) (r : Res Locals) (h : resolveAuthUserRepo c l w = (r, w2)) :
    Calls Q w.trace w2.trace ∧
      ∀ l2, r = .ok l2 → l2.repos = l.repos ∧ l2.metrics = l.metrics := by
  unfold resolveAuthUserRepo at h
  split at h
  · rcases callGetUsers_cases c w "" with ⟨u, s, hc, _⟩ | ⟨e, s, hc⟩
    · rw [hc] at h
      dsimp only at h
      rcases hu : userStats c u ⟨s, w.trace ++ [⟨.getUsers "", .user u⟩]⟩ with ⟨r1, w1⟩
      have h1 := (Calls.one (Q := Q) w.trace _ (.user u) hWho).andThen
        (userStats_calls Q hOrg c u _ _ _ hu)
      rw [hu] at h
      cases r1 with
      | ok stats =>
        dsimp only at h
        split at h
        · cases h; exact ⟨h1, fun l2 hl => by cases hl⟩
        · cases h; exact ⟨h1, fun l2 hl => by cases hl; exact ⟨rfl, rfl⟩⟩
      | error e => cases h; exact ⟨h1, fun l2 hl => by cases hl⟩
      | panic => cases h; exact ⟨h1, fun l2 hl => by cases hl⟩
    · rw [hc] at h
      cases h
      exact ⟨Calls.one _ _ _ hWho, fun l2 hl => by cases hl⟩
  · cases h
    exact ⟨Calls.here _ _, fun l2 hl => by cases hl; exact ⟨rfl, rfl⟩⟩

theorem resolveAuthUserUser_frame {σ : Type} (Q : Call → Prop) (c : Client σ)
    (hUsers : ∀ u, Q (.getUsers u)) (hOrg : ∀ org, Q (.getOrganizations org))
    (l : Locals) (w w2 : World σ) (r : Res Locals) (h : resolveAuthUserUser c l w = (r, w2)) :
    Calls Q w.trace w2.trace ∧
      ∀ l2, r = .ok l2 → l2.repos = l.repos ∧ l2.metrics = l.metrics := by
  unfold resolveAuthUserUser at h
  split at h
  · rcases callGetUsers_cases c w "" with ⟨u, s, hc, _⟩ | ⟨e, s, hc⟩
    · rw [hc] at h
      dsimp only at h
      split at h
      · cases h
        exact ⟨Calls.one _ _ _ (hUsers _), fun l2 hl => by cases hl⟩
      · rcases hu : userStats c u ⟨s, w.trace ++ [⟨.getUsers "", .user u⟩]⟩ with ⟨r1, w1⟩
        have h1 := (Calls.one (Q := Q) w.trace _ (.user u) (hUsers "")).andThen
          (userStats_calls Q hOrg c u _ _ _ hu)
        rw [hu] at h
        cases r1 with
        | ok stats => cases h; exact ⟨h1, fun l2 hl => by cases hl; exact ⟨rfl, rfl⟩⟩
        | error e => cases h; exact ⟨h1, fun l2 hl => by cases hl⟩
        | panic => cases h; exact ⟨h1, fun l2 hl => by cases hl⟩
    · rw [hc] at h
      cases h
      exact ⟨Calls.one _ _ _ (hUsers _), fun l2 hl => by cases hl⟩
  · split at h
    · cases h
      exact ⟨Calls.here _ _, fun l2 hl => by cases hl; exact ⟨rfl, rfl⟩⟩
    · obtain ⟨h1, h2⟩ := fetchUser_frame Q c _ _ (hUsers _) hOrg l w w2 r h
      refine ⟨h1, fun l2 hl => ?_⟩
      subst hl
      unfold fetchUser at h
      rcases callGetUsers_cases c w l.authUser with ⟨u, s, hc, _⟩ | ⟨e, s, hc⟩
      · rw [hc] at h
        dsimp only at h
        split at h <;> cases h
        exact ⟨rfl, rfl⟩
      · rw [hc] at h
        cases h

theorem userCase_frame {σ : Type} (Q : Call → Prop) (c : Client σ) (m : MetricType) (now : Nat)
    (hUsers : ∀ u, Q (.getUsers u)) (hOrg : ∀ org, Q (.getOrganizations org))
    (ns : List String) (l : Locals) (w w2 : World σ) (r : Res Locals)
    (h : userCase c m now ns l w = (r, w2)) :
    Calls Q w.trace w2.trace ∧ ∀ l2, r = .ok l2 → l2.repos = l.repos := by
  unfold userCase at h
  split at h
  · rename_i user0 stat _ _
    dsimp only at h
    rcases hb : (if user0 = "*" then resolveAuthUserUser c l w
      else if GoMap.has l.users user0 then (Res.ok l, w) else fetchUser c user0 user0 l w)
      with ⟨r1, w1⟩
    have h1 : Calls Q w.trace w1.trace ∧ ∀ l1, r1 = .ok l1 → l1.repos = l.repos := by
      by_cases hu : user0 = "*"
      · rw [if_pos hu] at hb
        obtain ⟨a, b⟩ := resolveAuthUserUser_frame Q c hUsers hOrg l w w1 r1 hb
        exact ⟨a, fun l1 hl => (b l1 hl).1⟩
      · rw [if_neg hu] at hb
        split at hb
        · cases hb
          exact ⟨Calls.here _ _, fun l1 hl => by cases hl; rfl⟩
        · obtain ⟨a, _⟩ := fetchUser_frame Q c _ _ (hUsers _) hOrg l w w1 r1 hb
          refine ⟨a, fun l1 hl => ?_⟩
          subst hl
          unfold fetchUser at hb
          rcases callGetUsers_cases c w user0 with ⟨u, s, hc, _⟩ | ⟨e, s, hc⟩
          · rw [hc] at hb
            dsimp only at hb
            split at hb <;> cases hb
            rfl
          · rw [hc] at hb
            cases hb
    rw [hb] at h
    cases r1 with
    | ok l1 => cases h; exact ⟨h1.1, fun l2 hl => by cases hl; exact h1.2 l1 rfl⟩
    | error e => cases h; exact ⟨h1.1, fun l2 hl => by cases hl⟩
    | panic => cases h; exact ⟨h1.1, fun l2 hl => by cases hl⟩
  · cases h
    exact ⟨Calls.here _ _, fun l2 hl => by cases hl⟩

theorem repoFetchKeys_of_calls (slug : String → String) (t t2 : List Event)
    (h : Calls Call.notRepoFetch t t2) : repoFetchKeys slug t2 = repoFetchKeys slug t := by
  obtain ⟨evs, rfl, hq⟩ := h
  unfold repoFetchKeys
  rw [List.filterMap_append]
  have : evs.filterMap (repoFetchKey slug) = [] := by
    rw [List.filterMap_eq_nil_iff]
    intro e he
    have hne := hq e he
    unfold repoFetchKey
    split
    · rename_i o r hcall
      exact absurd hcall (hne o r)
    · rfl
  rw [this, List.append_nil]

theorem fetchedOnce_of_frame (slug : String → String) (l l2 : Locals) (t t2 : List Event)
    (hinv : FetchedOnce slug l t) (hc : Calls Call.notRepoFetch t t2) (hg : ReposGrow l l2) :
    FetchedOnce slug l2 t2 := by
  rw [FetchedOnce, repoFetchKeys_of_calls slug t t2 hc]
  exact ⟨hinv.1, fun p hp => hg _ _ (hinv.2 p hp)⟩

theorem fetchRepo_fetchedOnce {σ : Type} (slug : String → String) (c : Client σ)
    (user repo : String) (l : Locals) (w w2 : World σ) (r : Res Locals)
    (h : fetchRepo slug c user repo l w = (r, w2)) (hinv : FetchedOnce slug l w.trace) :
    (repoFetchKeys slug w2.trace).Nodup ∧ ∀ l2, r = .ok l2 → FetchedOnce slug l2 w2.trace := by
  unfold fetchRepo at h
  split at h
  · cases h
    exact ⟨hinv.1, fun l2 hl => by cases hl; exact hinv⟩
  · rename_i hmiss
    have hnew : (user, slug repo) ∉ repoFetchKeys slug w.trace := by
      intro hm
      exact hmiss (hinv.2 _ hm)
    have hkeys : ∀ rep, repoFetchKeys slug (w.trace ++ [⟨.getRepository user repo, rep⟩]) =
        repoFetchKeys slug w.trace ++ [(user, slug repo)] := by
      intro rep
      simp [repoFetchKeys, List.filterMap_append, repoFetchKey]
    have hnd : ∀ rep, (repoFetchKeys slug (w.trace ++ [⟨.getRepository user repo, rep⟩])).Nodup := by
      intro rep
      rw [hkeys]
      exact List.Nodup.append hinv.1 (List.nodup_singleton _) (by simpa using hnew)
    rcases callGetRepository_cases c w user repo with ⟨rp, s, hc⟩ | ⟨e, s, hc⟩
    · rw [hc] at h
      dsimp only at h
      rw [repoStats_eq] at h
      cases h
      refine ⟨hnd _, fun l2 hl => ?_⟩
      cases hl
      refine ⟨hnd _, ?_⟩
      intro p hp
      rw [hkeys] at hp
      rcases List.mem_append.1 hp with h1 | h1
      · exact reposGrow_put l _ user (slug repo) (repoStatsMap rp) rfl _ _ (hinv.2 p h1)
      · rw [List.mem_singleton.1 h1]
        simp [GoMap.findD_put, GoMap.has_put]
    · rw [hc] at h
      cases h
      exact ⟨hnd _, fun l2 hl => by cases hl⟩

theorem concreteRepo_fetchedOnce {σ : Type} (slug : String → String) (c : Client σ)
    (m : MetricType) (now : Nat) (useRepo user repo0 stat : String) (l : Locals) (w w2 : World σ)
    (r : Res Locals) (h : concreteRepo slug c m now useRepo user repo0 stat l w = (r, w2))
    (hinv : FetchedOnce slug l w.trace) :
    (repoFetchKeys slug w2.trace).Nodup ∧ ∀ l2, r = .ok l2 → FetchedOnce slug l2 w2.trace := by
  unfold concreteRepo at h
  dsimp only at h
  split at h
  · obtain ⟨hc, hk⟩ := issuesByLabel_frame Call.notRepoFetch _ _ _ _ _ _ _
      (fun o r hh => by cases hh) _ _ _ _ h
    exact ⟨by rw [repoFetchKeys_of_calls slug _ _ hc]; exact hinv.1,
      fun l2 hl => fetchedOnce_of_frame slug _ _ _ _ hinv hc (hk l2 hl).2.1⟩
  · rcases hb : fetchRepo slug c user (if repo0 = "*" then useRepo else repo0)
      (ensureOwner user l) w with ⟨r1, w1⟩
    have hinv1 : FetchedOnce slug (ensureOwner user l) w.trace :=
      fetchedOnce_of_frame slug _ _ _ _ hinv (Calls.here _ _) (keep_ensureOwner user user l).2.1
    obtain ⟨hnd, hk⟩ := fetchRepo_fetchedOnce slug c _ _ _ _ _ _ hb hinv1
    rw [hb] at h
    cases r1 with
    | ok l1 =>
      cases h
      refine ⟨hnd, fun l2 hl => ?_⟩
      cases hl
      exact hk l1 rfl
    | error e => cases h; exact ⟨hnd, fun l2 hl => by cases hl⟩
    | panic => cases h; exact ⟨hnd, fun l2 hl => by cases hl⟩

theorem repoCase_fetchedOnce {σ : Type} (slug : String → String) (c : Client σ)
    (m : MetricType) (now : Nat) (useRepo : String) (ns : List String) (l : Locals)
    (w w2 : World σ) (r : Res Locals) (h : repoCase slug c m now useRepo ns l w = (r, w2))
    (hinv : FetchedOnce slug l w.trace) :
    (repoFetchKeys slug w2.trace).Nodup ∧ ∀ l2, r = .ok l2 → FetchedOnce slug l2 w2.trace := by
  unfold repoCase at h
  split at h
  · rename_i user0 repo stat _ _ _
    dsimp only at h
    rcases hb : (if user0 = "*" then resolveAuthUserRepo c l w else (Res.ok l, w)) with ⟨r1, w1⟩
    have h1 : Calls Call.notRepoFetch w.trace w1.trace ∧
        ∀ l1, r1 = .ok l1 → l1.repos = l.repos := by
      by_cases hu : user0 = "*"
      · rw [if_pos hu] at hb
        obtain ⟨a, b⟩ := resolveAuthUserRepo_frame Call.notRepoFetch c
          (fun o r hh => by cases hh) (fun org o r hh => by cases hh) l w w1 r1 hb
        exact ⟨a, fun l1 hl => (b l1 hl).1⟩
      · rw [if_neg hu] at hb
        cases hb
        exact ⟨Calls.here _ _, fun l1 hl => by cases hl; rfl⟩
    have hnd1 : (repoFetchKeys slug w1.trace).Nodup := by
      rw [repoFetchKeys_of_calls slug _ _ h1.1]; exact hinv.1
    rw [hb] at h
    cases r1 with
    | ok l1 =>
      have hinv1 : FetchedOnce slug l1 w1.trace :=
        fetchedOnce_of_frame slug _ _ _ _ hinv h1.1
          (fun o k hk => by rw [h1.2 l1 rfl]; exact hk)
      dsimp only at h
      split at h
      · obtain ⟨hc, hk⟩ := expandWildcardRepo_frame Call.notRepoFetch _ _ _ _ _ _ _
          (fun o r hh => by cases hh) (fun o r hh => by cases hh) _ _ _ _ h
        exact ⟨by rw [repoFetchKeys_of_calls slug _ _ hc]; exact hinv1.1,
          fun l2 hl => fetchedOnce_of_frame slug _ _ _ _ hinv1 hc (hk l2 hl).2.1⟩
      · exact concreteRepo_fetchedOnce _ _ _ _ _ _ _ _ _ _ _ _ h hinv1
    | error e => cases h; exact ⟨hnd1, fun l2 hl => by cases hl⟩
    | panic => cases h; exact ⟨hnd1, fun l2 hl => by cases hl⟩
  · cases h
    exact ⟨hinv.1, fun l2 hl => by cases hl⟩

theorem gitStatsStep_fetchedOnce {σ : Type} (slug : String → String) (c : Client σ) (now : Nat)
    (useRepo : String) (l : Locals) (w w2 : World σ) (m : MetricType) (r : Res Locals)
    (h : gitStatsStep slug c now useRepo l w m = (r, w2)) (hinv : FetchedOnce slug l w.trace) :
    (repoFetchKeys slug w2.trace).Nodup ∧ ∀ l2, r = .ok l2 → FetchedOnce slug l2 w2.trace := by
  unfold gitStatsStep at h
  dsimp only at h
  split at h
  · cases h
    exact ⟨hinv.1, fun l2 hl => by cases hl⟩
  · split at h
    · exact repoCase_fetchedOnce _ _ _ _ _ _ _ _ _ _ h hinv
    · split at h
      · obtain ⟨hc, hk⟩ := userCase_frame Call.notRepoFetch c _ _
          (fun u o r hh => by cases hh) (fun org o r hh => by cases hh) _ _ _ _ _ h
        exact ⟨by rw [repoFetchKeys_of_calls slug _ _ hc]; exact hinv.1,
          fun l2 hl => fetchedOnce_of_frame slug _ _ _ _ hinv hc
            (fun o k hh => by rw [hk l2 hl]; exact hh)⟩
      · cases h
        exact ⟨hinv.1, fun l2 hl => by cases hl; exact hinv⟩

theorem gitStatsLoop_fetchedOnce {σ : Type} (slug : String → String) (c : Client σ) (now : Nat)
    (useRepo : String) (mts : List MetricType) :
    ∀ (l : Locals) (w w2 : World σ) (r : Res Locals),
      gitStatsLoop slug c now useRepo l w mts = (r, w2) → FetchedOnce slug l w.trace →
      (repoFetchKeys slug w2.trace).Nodup := by
  induction mts with
  | nil =>
    intro l w w2 r h hinv
    simp only [gitStatsLoop] at h
    cases h; exact hinv.1
  | cons m rest ih =>
    intro l w w2 r h hinv
    unfold gitStatsLoop at h
    rcases hb : gitStatsStep slug c now useRepo l w m with ⟨r1, w1⟩
    obtain ⟨hnd, hk⟩ := gitStatsStep_fetchedOnce _ _ _ _ _ _ _ _ _ hb hinv
    rw [hb] at h
    cases r1 with
    | ok l1 => exact ih _ _ _ _ h (hk l1 rfl)
    | error e => cases h; exact hnd
    | panic => cases h; exact hnd

theorem concreteRepo_twice {σ : Type} (slug : String → String) (c : Client σ)
    (now : Nat) (m : MetricType) (w : World σ) (s1 : σ) (o r s authUser useRepo : String)
    (rp : Repository)
    (hns : m.Namespace_ = gsNs ["repo", o, r, s])
    (ho : o ≠ "*") (hr : r ≠ "*") (hs : s ≠ "issuesbylabel")
    (hconfUser : confString m.Config_ "user" = .ok authUser)
    (hconfRepo : confString m.Config_ "repo" = .ok useRepo)
    (hget : c.GetRepository w.cs o r = (.ok rp, s1)) :
    gitStats slug c now [m, m] w =
      (.ok [counterRecord m now
              (GoMap.findD (GoMap.findD [(slug r, repoStatsMap rp)] r []) s 0)
              (gsNs ["repo", o, slug r, s]),
            counterRecord m now
              (GoMap.findD (GoMap.findD [(slug r, repoStatsMap rp)] r []) s 0)
              (gsNs ["repo", o, slug r, s])],
        ⟨s1, w.trace ++ [⟨.getRepository o r, .repo rp⟩]⟩) := by
  have hcall : callGetRepository c w o r =
      (.ok rp, ⟨s1, w.trace ++ [⟨.getRepository o r, .repo rp⟩]⟩) := by
    simp [callGetRepository, hget]
  have hstep : ∀ (l : Locals) (w0 : World σ), gitStatsStep slug c now useRepo l w0 m =
      concreteRepo slug c m now useRepo o r s l w0 := by
    intro l w0
    simp [gitStatsStep, hns, gsNs, repoCase, ho, hr]
  have h1 : concreteRepo slug c m now useRepo o r s { authUser := authUser } w =
      (.ok { repos := [(o, [(slug r, repoStatsMap rp)])], authUser := authUser,
             metrics := [counterRecord m now
              (GoMap.findD (GoMap.findD [(slug r, repoStatsMap rp)] r []) s 0)
              (gsNs ["repo", o, slug r, s])] },
        ⟨s1, w.trace ++ [⟨.getRepository o r, .repo rp⟩]⟩) := by
    simp [concreteRepo, hs, hr, fetchRepo, ensureOwner, GoMap.has, GoMap.find, GoMap.put,
      GoMap.findD, hcall, repoStats_eq, gsNs]
  have h2 : ∀ (w0 : World σ) (ms : List MetricType),
      concreteRepo slug c m now useRepo o r s
        { repos := [(o, [(slug r, repoStatsMap rp)])], authUser := authUser, metrics := ms } w0 =
      (.ok { repos := [(o, [(slug r, repoStatsMap rp)])], authUser := authUser,
             metrics := ms ++ [counterRecord m now
              (GoMap.findD (GoMap.findD [(slug r, repoStatsMap rp)] r []) s 0)
              (gsNs ["repo", o, slug r, s])] }, w0) := by
    intro w0 ms
    simp [concreteRepo, hs, hr, fetchRepo, ensureOwner, GoMap.has, GoMap.find,
      GoMap.findD, gsNs]
  simp only [gitStats, hconfUser, hconfRepo, gitStatsLoop, hstep, h1, h2, List.singleton_append]

/-- C9: in one run of `gitStats` started on an empty log, the remote get-repository operation
is logged at most once per cache key (owner, repository slug), for every batch and client;
in particular the batch made of the same concrete counter request `repo/o/r/s` twice, on a
client whose fetch of `(o, r)` succeeds, logs exactly one call, that fetch, and returns two
records. -/
theorem repo_fetched_at_most_once {σ : Type} (slug : String → String) (c : Client σ)
    (collectionTime : Nat) (mts : List MetricType) (w : World σ) (h0 : w.trace = []) :
    (∀ o k, (repoFetchKeys slug (gitStats slug c collectionTime mts w).2.trace).countP
        (fun p => p = (o, k)) ≤ 1) ∧
      ∀ (m : MetricType) (s1 : σ) (o r s authUser useRepo : String) (rp : Repository),
        mts = [m, m] → m.Namespace_ = gsNs ["repo", o, r, s] →
        o ≠ "*" → r ≠ "*" → s ≠ "issuesbylabel" →
        confString m.Config_ "user" = .ok authUser →
        confString m.Config_ "repo" = .ok useRepo →
        c.GetRepository w.cs o r = (.ok rp, s1) →
        ∃ rec, gitStats slug c collectionTime mts w =
            (.ok [rec, rec], ⟨s1, [⟨.getRepository o r, .repo rp⟩]⟩) ∧
          rec.Namespace_ = gsNs ["repo", o, slug r, s] := by
  constructor
  · have hnd : (repoFetchKeys slug (gitStats slug c collectionTime mts w).2.trace).Nodup := by
      have hinv : ∀ l : Locals, FetchedOnce slug l w.trace := by
        intro l
        rw [h0]
        exact ⟨List.nodup_nil, fun p hp => by simp [repoFetchKeys] at hp⟩
      unfold gitStats
      split
      · exact (hinv {}).1
      · split
        · rename_i m0 rest _ _ authUser useRepo _ _
          rcases hb : gitStatsLoop slug c collectionTime useRepo { authUser := authUser } w
            (m0 :: rest) with ⟨r1, w1⟩
          have h1 := gitStatsLoop_fetchedOnce _ _ _ _ _ _ _ _ _ hb (hinv _)
          cases r1 <;> exact h1
        · exact (hinv {}).1
    intro o k
    have hc := List.nodup_iff_count_le_one.1 hnd (o, k)
    have he : (repoFetchKeys slug (gitStats slug c collectionTime mts w).2.trace).countP
        (fun p => decide (p = (o, k))) =
        @List.count _ instBEqOfDecidableEq (o, k)
          (repoFetchKeys slug (gitStats slug c collectionTime mts w).2.trace) := by
      unfold List.count
      apply List.countP_congr
      intro p _
      show decide (p = (o, k)) = true ↔ decide (p = (o, k)) = true
      exact Iff.rfl
    rw [he]
    exact hc
  · intro m s1 o r s authUser useRepo rp hm hns ho hr hs hcu hcr hget
    subst hm
    refine ⟨counterRecord m collectionTime
      (GoMap.findD (GoMap.findD [(slug r, repoStatsMap rp)] r []) s 0)
      (gsNs ["repo", o, slug r, s]), ?_, rfl⟩
    rw [concreteRepo_twice slug c collectionTime m w s1 o r s authUser useRepo rp hns ho hr hs
      hcu hcr hget, h0]
    rfl

/-- C9, worked example: `repo/acme/widget/stars` requested twice, one fetch, two records. -/
theorem repo_fetched_at_most_once_witness :
    ∃ rec, gitStats slugMake
        (fixedClient (.error "unused") (.error "unused") (.error "unused")
          (.ok { StargazersCount := some 42 }) (.error "unused"))
        1 [{ Namespace_ := gsNs ["repo", "acme", "widget", "stars"] },
           { Namespace_ := gsNs ["repo", "acme", "widget", "stars"] }] ⟨(), []⟩ =
        (.ok [rec, rec],
          ⟨(), [⟨.getRepository "acme" "widget", .repo { StargazersCount := some 42 }⟩]⟩) ∧
      rec.Namespace_ = gsNs ["repo", "acme", slugMake "widget", "stars"] :=
  (repo_fetched_at_most_once slugMake _ 1 _ ⟨(), []⟩ rfl).2
    { Namespace_ := gsNs ["repo", "acme", "widget", "stars"] } () "acme" "widget" "stars" "" ""
    { StargazersCount := some 42 } rfl rfl (by decide) (by decide) (by decide) (by decide)
    (by decide) rfl

/-! ## C10: the authenticated identity is looked up at most once -/

theorem whoAmICalls_append (t evs : List Event) :
    whoAmICalls (t ++ evs) = whoAmICalls t ++ whoAmICalls evs := by
  simp [whoAmICalls]

theorem whoAmICalls_of_calls (t t2 : List Event) (h : Calls Call.notWhoAmI t t2) :
    whoAmICalls t2 = whoAmICalls t := by
  obtain ⟨evs, rfl, hq⟩ := h
  rw [whoAmICalls_append]
  have : whoAmICalls evs = [] := by
    unfold whoAmICalls
    rw [List.filter_eq_nil_iff]
    intro e he
    have := hq e he
    simpa [Event.isWhoAmI, Call.notWhoAmI] using this
  rw [this, List.append_nil]

theorem resolvedOnce_of_frame (l l2 : Locals) (t t2 : List Event) (hinv : ResolvedOnce l t)
    (hc : Calls Call.notWhoAmI t t2) (ha : l2.authUser = l.authUser) : ResolvedOnce l2 t2 := by
  unfold ResolvedOnce
  rw [whoAmICalls_of_calls t t2 hc, ha]
  exact hinv

theorem resolvedOnce_length (l : Locals) (t : List Event) (h : ResolvedOnce l t) :
    (whoAmICalls t).length ≤ 1 := by
  rcases h with ⟨h1, _⟩ | ⟨u, L, h1, _⟩ <;> simp [h1]

theorem resolvedOnce_ne_empty (l : Locals) (t : List Event) (h : ResolvedOnce l t)
    (hne : l.authUser ≠ "") :
    ∃ u L, whoAmICalls t = [⟨.getUsers "", .user u⟩] ∧ u.Login = some L ∧ L ≠ "" ∧
      l.authUser = L := by
  rcases h with ⟨_, h2⟩ | h
  · exact absurd h2 hne
  · exact h

theorem notWhoAmI_org (org : String) : Call.notWhoAmI (.getOrganizations org) := by
  intro h; cases h

theorem notWhoAmI_labels (o r : String) : Call.notWhoAmI (.getAllLabelsAndIssues o r) := by
  intro h; cases h

theorem notWhoAmI_list (o : String) : Call.notWhoAmI (.listRepositories o) := by
  intro h; cases h

theorem notWhoAmI_repo (o r : String) : Call.notWhoAmI (.getRepository o r) := by
  intro h; cases h

theorem notWhoAmI_user (u : String) (h : u ≠ "") : Call.notWhoAmI (.getUsers u) := by
  intro h2
  simp only [Call.getUsers.injEq] at h2
  exact h h2

/-- The first lookup: what either resolution block does when `authUser` is empty. -/
theorem resolve_first {σ : Type} (c : Client σ) (w : World σ)
    (hlogin : ∀ s u s2, c.GetUsers s "" = (.ok u, s2) → u.Login ≠ some "")
    (hw : whoAmICalls w.trace = []) :
    (∃ u s, callGetUsers c w "" = (.ok u, ⟨s, w.trace ++ [⟨.getUsers "", .user u⟩]⟩) ∧
        u.Login ≠ some "" ∧
        whoAmICalls (w.trace ++ [⟨.getUsers "", .user u⟩]) = [⟨.getUsers "", .user u⟩]) ∨
      (∃ e s, callGetUsers c w "" = (.error e, ⟨s, w.trace ++ [⟨.getUsers "", .failed e⟩]⟩) ∧
        (whoAmICalls (w.trace ++ [⟨.getUsers "", .failed e⟩])).length ≤ 1) := by
  rcases callGetUsers_cases c w "" with ⟨u, s, hc, hraw⟩ | ⟨e, s, hc⟩
  · refine Or.inl ⟨u, s, hc, hlogin _ _ _ hraw, ?_⟩
    rw [whoAmICalls_append, hw]
    simp [whoAmICalls, Event.isWhoAmI]
  · refine Or.inr ⟨e, s, hc, ?_⟩
    rw [whoAmICalls_append, hw]
    simp [whoAmICalls, Event.isWhoAmI]

theorem resolveAuthUserRepo_resolvedOnce {σ : Type} (c : Client σ)
    (hlogin : ∀ s u s2, c.GetUsers s "" = (.ok u, s2) → u.Login ≠ some "")
    (l : Locals) (w w2 : World σ) (r : Res Locals) (h : resolveAuthUserRepo c l w = (r, w2))
    (hinv : ResolvedOnce l w.trace) :
    (whoAmICalls w2.trace).length ≤ 1 ∧
      ∀ l2, r = .ok l2 → ResolvedOnce l2 w2.trace ∧ l2.authUser ≠ "" ∧
        l2.metrics = l.metrics := by
  unfold resolveAuthUserRepo at h
  split at h
  · rename_i hempty
    have hw : whoAmICalls w.trace = [] := by
      rcases hinv with ⟨h1, _⟩ | ⟨u, L, _, _, hL, ha⟩
      · exact h1
      · exact absurd (ha.symm.trans hempty) hL
    rcases resolve_first c w hlogin hw with ⟨u, s, hc, hne, hwho⟩ | ⟨e, s, hc, hlen⟩
    · rw [hc] at h
      dsimp only at h
      rcases hu : userStats c u ⟨s, w.trace ++ [⟨.getUsers "", .user u⟩]⟩ with ⟨r1, w1⟩
      have hcalls := userStats_calls Call.notWhoAmI notWhoAmI_org c u _ _ _ hu
      have hw1 : whoAmICalls w1.trace = [⟨.getUsers "", .user u⟩] := by
        rw [whoAmICalls_of_calls _ _ hcalls]
        exact hwho
      have hlen1 : (whoAmICalls w1.trace).length ≤ 1 := by simp [hw1]
      rw [hu] at h
      cases r1 with
      | ok stats =>
        dsimp only at h
        split at h
        · cases h; exact ⟨hlen1, fun l2 hl => by cases hl⟩
        · rename_i login hlog
          cases h
          refine ⟨hlen1, fun l2 hl => ?_⟩
          cases hl
          have hL : login ≠ "" := fun e => hne (by rw [hlog, e])
          exact ⟨Or.inr ⟨u, login, hw1, hlog, hL, rfl⟩, hL, rfl⟩
      | error e => cases h; exact ⟨hlen1, fun l2 hl => by cases hl⟩
      | panic => cases h; exact ⟨hlen1, fun l2 hl => by cases hl⟩
    · rw [hc] at h
      cases h
      exact ⟨hlen, fun l2 hl => by cases hl⟩
  · rename_i hne
    cases h
    exact ⟨resolvedOnce_length _ _ hinv, fun l2 hl => by cases hl; exact ⟨hinv, hne, rfl⟩⟩

theorem resolveAuthUserUser_resolvedOnce {σ : Type} (c : Client σ)
    (hlogin : ∀ s u s2, c.GetUsers s "" = (.ok u, s2) → u.Login ≠ some "")
    (l : Locals) (w w2 : World σ) (r : Res Locals) (h : resolveAuthUserUser c l w = (r, w2))
    (hinv : ResolvedOnce l w.trace) :
    (whoAmICalls w2.trace).length ≤ 1 ∧
      ∀ l2, r = .ok l2 → ResolvedOnce l2 w2.trace ∧ l2.authUser ≠ "" ∧
        l2.metrics = l.metrics := by
  unfold resolveAuthUserUser at h
  split at h
  · rename_i hempty
    have hw : whoAmICalls w.trace = [] := by
      rcases hinv with ⟨h1, _⟩ | ⟨u, L, _, _, hL, ha⟩
      · exact h1
      · exact absurd (ha.symm.trans hempty) hL
    rcases resolve_first c w hlogin hw with ⟨u, s, hc, hne, hwho⟩ | ⟨e, s, hc, hlen⟩
    · rw [hc] at h
      dsimp only at h
      split at h
      · cases h
        exact ⟨by simp [hwho], fun l2 hl => by cases hl⟩
      · rename_i login hlog
        rcases hu : userStats c u ⟨s, w.trace ++ [⟨.getUsers "", .user u⟩]⟩ with ⟨r1, w1⟩
        have hcalls := userStats_calls Call.notWhoAmI notWhoAmI_org c u _ _ _ hu
        have hw1 : whoAmICalls w1.trace = [⟨.getUsers "", .user u⟩] := by
          rw [whoAmICalls_of_calls _ _ hcalls]
          exact hwho
        have hlen1 : (whoAmICalls w1.trace).length ≤ 1 := by simp [hw1]
        rw [hu] at h
        cases r1 with
        | ok stats =>
          cases h
          refine ⟨hlen1, fun l2 hl => ?_⟩
          cases hl
          have hL : login ≠ "" := fun e => hne (by rw [hlog, e])
          exact ⟨Or.inr ⟨u, login, hw1, hlog, hL, rfl⟩, hL, rfl⟩
        | error e => cases h; exact ⟨hlen1, fun l2 hl => by cases hl⟩
        | panic => cases h; exact ⟨hlen1, fun l2 hl => by cases hl⟩
    · rw [hc] at h
      cases h
      exact ⟨hlen, fun l2 hl => by cases hl⟩
  · rename_i hne
    split at h
    · cases h
      exact ⟨resolvedOnce_length _ _ hinv, fun l2 hl => by cases hl; exact ⟨hinv, hne, rfl⟩⟩
    · obtain ⟨hc, hk⟩ := fetchUser_frame Call.notWhoAmI c _ _ (notWhoAmI_user _ hne)
        notWhoAmI_org l w w2 r h
      refine ⟨by rw [whoAmICalls_of_calls _ _ hc]; exact resolvedOnce_length _ _ hinv,
        fun l2 hl => ?_⟩
      obtain ⟨ha, _, new, hm, _⟩ := hk l2 hl ""
      refine ⟨resolvedOnce_of_frame _ _ _ _ hinv hc ha, by rw [ha]; exact hne, ?_⟩
      subst hl
      unfold fetchUser at h
      rcases callGetUsers_cases c w l.authUser with ⟨u, s, hcu, _⟩ | ⟨e, s, hcu⟩
      · rw [hcu] at h
        dsimp only at h
        split at h <;> cases h
        rfl
      · rw [hcu] at h
        cases h

theorem repoCase_resolvedOnce {σ : Type} (slug : String → String) (c : Client σ)
    (hlogin : ∀ s u s2, c.GetUsers s "" = (.ok u, s2) → u.Login ≠ some "")
    (m : MetricType) (now : Nat) (useRepo : String) (ns : List String) (l : Locals)
    (w w2 : World σ) (r : Res Locals) (h : repoCase slug c m now useRepo ns l w = (r, w2))
    (hinv : ResolvedOnce l w.trace) :
    (whoAmICalls w2.trace).length ≤ 1 ∧
      ∀ l2, r = .ok l2 → ResolvedOnce l2 w2.trace ∧
        (ns[4]? = some "*" → l2.authUser ≠ "" ∧
          ∃ new, l2.metrics = l.metrics ++ new ∧ OwnerAll l2.authUser new) := by
  unfold repoCase at h
  split at h
  · rename_i user0 repo stat h4 _ _
    dsimp only at h
    rcases hb : (if user0 = "*" then resolveAuthUserRepo c l w else (Res.ok l, w)) with ⟨r1, w1⟩
    have h1 : (whoAmICalls w1.trace).length ≤ 1 ∧
        ∀ l1, r1 = .ok l1 → ResolvedOnce l1 w1.trace ∧ l1.metrics = l.metrics ∧
          (user0 = "*" → l1.authUser ≠ "") := by
      by_cases hu : user0 = "*"
      · rw [if_pos hu] at hb
        obtain ⟨a, b⟩ := resolveAuthUserRepo_resolvedOnce c hlogin l w w1 r1 hb hinv
        exact ⟨a, fun l1 hl => ⟨(b l1 hl).1, (b l1 hl).2.2, fun _ => (b l1 hl).2.1⟩⟩
      · rw [if_neg hu] at hb
        cases hb
        exact ⟨resolvedOnce_length _ _ hinv,
          fun l1 hl => by cases hl; exact ⟨hinv, rfl, fun e => absurd e hu⟩⟩
    rw [hb] at h
    cases r1 with
    | ok l1 =>
      obtain ⟨hinv1, hm1, hne1⟩ := h1.2 l1 rfl
      dsimp only at h
      have hframe : Calls Call.notWhoAmI w1.trace w2.trace ∧
          ∀ l2, r = .ok l2 → Keep (if user0 = "*" then l1.authUser else user0) l1 l2 := by
        split at h
        · exact expandWildcardRepo_frame Call.notWhoAmI _ _ _ _ _ _ _
            (notWhoAmI_list _) (notWhoAmI_labels _ _) _ _ _ _ h
        · exact concreteRepo_frame Call.notWhoAmI _ _ _ _ _ _ _ _
            (notWhoAmI_repo _) (notWhoAmI_labels _) _ _ _ _ h
      obtain ⟨hc, hk⟩ := hframe
      refine ⟨by rw [whoAmICalls_of_calls _ _ hc]; exact resolvedOnce_length _ _ hinv1,
        fun l2 hl => ?_⟩
      obtain ⟨ha, _, new, hm, hown⟩ := hk l2 hl
      refine ⟨resolvedOnce_of_frame _ _ _ _ hinv1 hc ha, fun hwild => ?_⟩
      have hu : user0 = "*" := by
        rw [h4] at hwild
        exact Option.some.inj hwild
      rw [if_pos hu] at hown
      refine ⟨by rw [ha]; exact hne1 hu, new, by rw [hm, hm1], by rw [ha]; exact hown⟩
    | error e => cases h; exact ⟨h1.1, fun l2 hl => by cases hl⟩
    | panic => cases h; exact ⟨h1.1, fun l2 hl => by cases hl⟩
  · cases h
    exact ⟨resolvedOnce_length _ _ hinv, fun l2 hl => by cases hl⟩

theorem userCase_resolvedOnce {σ : Type} (c : Client σ)
    (hlogin : ∀ s u s2, c.GetUsers s "" = (.ok u, s2) → u.Login ≠ some "")
    (m : MetricType) (now : Nat) (ns : List String) (hseg : ns[4]? ≠ some "") (l : Locals)
    (w w2 : World σ) (r : Res Locals) (h : userCase c m now ns l w = (r, w2))
    (hinv : ResolvedOnce l w.trace) :
    (whoAmICalls w2.trace).length ≤ 1 ∧
      ∀ l2, r = .ok l2 → ResolvedOnce l2 w2.trace ∧
        (ns[4]? = some "*" → l2.authUser ≠ "" ∧
          ∃ new, l2.metrics = l.metrics ++ new ∧ OwnerAll l2.authUser new) := by
  unfold userCase at h
  split at h
  · rename_i user0 stat h4 _
    dsimp only at h
    rcases hb : (if user0 = "*" then resolveAuthUserUser c l w
      else if GoMap.has l.users user0 then (Res.ok l, w) else fetchUser c user0 user0 l w)
      with ⟨r1, w1⟩
    have h1 : (whoAmICalls w1.trace).length ≤ 1 ∧
        ∀ l1, r1 = .ok l1 → ResolvedOnce l1 w1.trace ∧ l1.metrics = l.metrics ∧
          (user0 = "*" → l1.authUser ≠ "") := by
      by_cases hu : user0 = "*"
      · rw [if_pos hu] at hb
        obtain ⟨a, b⟩ := resolveAuthUserUser_resolvedOnce c hlogin l w w1 r1 hb hinv
        exact ⟨a, fun l1 hl => ⟨(b l1 hl).1, (b l1 hl).2.2, fun _ => (b l1 hl).2.1⟩⟩
      · rw [if_neg hu] at hb
        split at hb
        · cases hb
          exact ⟨resolvedOnce_length _ _ hinv,
            fun l1 hl => by cases hl; exact ⟨hinv, rfl, fun e => absurd e hu⟩⟩
        · have hne : user0 ≠ "" := fun e => hseg (by rw [h4, e])
          obtain ⟨hc, hk⟩ := fetchUser_frame Call.notWhoAmI c _ _ (notWhoAmI_user _ hne)
            notWhoAmI_org l w w1 r1 hb
          refine ⟨by rw [whoAmICalls_of_calls _ _ hc]; exact resolvedOnce_length _ _ hinv,
            fun l1 hl => ?_⟩
          obtain ⟨ha, _, new, hm, _⟩ := hk l1 hl ""
          refine ⟨resolvedOnce_of_frame _ _ _ _ hinv hc ha, ?_, fun e => absurd e hu⟩
          subst hl
          unfold fetchUser at hb
          rcases callGetUsers_cases c w user0 with ⟨u, s, hcu, _⟩ | ⟨e, s, hcu⟩
          · rw [hcu] at hb
            dsimp only at hb
            split at hb <;> cases hb
            rfl
          · rw [hcu] at hb
            cases hb
    rw [hb] at h
    cases r1 with
    | ok l1 =>
      obtain ⟨hinv1, hm1, hne1⟩ := h1.2 l1 rfl
      cases h
      refine ⟨h1.1, fun l2 hl => ?_⟩
      cases hl
      refine ⟨hinv1, fun hwild => ?_⟩
      have hu : user0 = "*" := by
        rw [h4] at hwild
        exact Option.some.inj hwild
      refine ⟨hne1 hu, _, by rw [hm1], ?_⟩
      intro rec hrec
      rw [List.mem_singleton.1 hrec]
      simp [counterRecord, hu]
    | error e => cases h; exact ⟨h1.1, fun l2 hl => by cases hl⟩
    | panic => cases h; exact ⟨h1.1, fun l2 hl => by cases hl⟩
  · cases h
    exact ⟨resolvedOnce_length _ _ hinv, fun l2 hl => by cases hl⟩

theorem gitStatsStep_resolvedOnce {σ : Type} (slug : String → String) (c : Client σ)
    (hlogin : ∀ s u s2, c.GetUsers s "" = (.ok u, s2) → u.Login ≠ some "")
    (now : Nat) (useRepo : String) (l : Locals) (w w2 : World σ) (m : MetricType)
    (hseg : m.Namespace_[3]? = some "user" → m.Namespace_[4]? ≠ some "")
    (r : Res Locals) (h : gitStatsStep slug c now useRepo l w m = (r, w2))
    (hinv : ResolvedOnce l w.trace) :
    (whoAmICalls w2.trace).length ≤ 1 ∧
      ∀ l2, r = .ok l2 → ResolvedOnce l2 w2.trace ∧
        ((m.Namespace_[3]? = some "repo" ∨ m.Namespace_[3]? = some "user") →
          m.Namespace_[4]? = some "*" → l2.authUser ≠ "" ∧
          ∃ new, l2.metrics = l.metrics ++ new ∧ OwnerAll l2.authUser new) := by
  unfold gitStatsStep at h
  dsimp only at h
  split at h
  · cases h
    exact ⟨resolvedOnce_length _ _ hinv, fun l2 hl => by cases hl⟩
  · rename_i family h3
    split at h
    · obtain ⟨a, b⟩ := repoCase_resolvedOnce slug c hlogin _ _ _ _ _ _ _ _ h hinv
      exact ⟨a, fun l2 hl => ⟨(b l2 hl).1, fun _ hw => (b l2 hl).2 hw⟩⟩
    · split at h
      · rename_i hfam
        obtain ⟨a, b⟩ := userCase_resolvedOnce c hlogin _ _ _ (hseg (by rw [h3, hfam])) _ _ _ _
          h hinv
        exact ⟨a, fun l2 hl => ⟨(b l2 hl).1, fun _ hw => (b l2 hl).2 hw⟩⟩
      · rename_i hnr hnu
        cases h
        refine ⟨resolvedOnce_length _ _ hinv, fun l2 hl => ?_⟩
        cases hl
        refine ⟨hinv, fun hfam _ => ?_⟩
        rw [h3] at hfam
        rcases hfam with e | e
        · exact absurd (Option.some.inj e) hnr
        · exact absurd (Option.some.inj e) hnu

theorem gitStatsLoop_resolvedOnce {σ : Type} (slug : String → String) (c : Client σ)
    (hlogin : ∀ s u s2, c.GetUsers s "" = (.ok u, s2) → u.Login ≠ some "")
    (now : Nat) (useRepo : String) (mts : List MetricType) :
    ∀ (l : Locals) (w w2 : World σ) (r : Res Locals),
      (∀ m ∈ mts, m.Namespace_[3]? = some "user" → m.Namespace_[4]? ≠ some "") →
      gitStatsLoop slug c now useRepo l w mts = (r, w2) → ResolvedOnce l w.trace →
      (whoAmICalls w2.trace).length ≤ 1 ∧ ∀ l2, r = .ok l2 → ResolvedOnce l2 w2.trace := by
  induction mts with
  | nil =>
    intro l w w2 r _ h hinv
    simp only [gitStatsLoop] at h
    cases h
    exact ⟨resolvedOnce_length _ _ hinv, fun l2 hl => by cases hl; exact hinv⟩
  | cons m rest ih =>
    intro l w w2 r hseg h hinv
    unfold gitStatsLoop at h
    rcases hb : gitStatsStep slug c now useRepo l w m with ⟨r1, w1⟩
    obtain ⟨hlen, hk⟩ := gitStatsStep_resolvedOnce slug c hlogin _ _ _ _ _ _
      (hseg m (List.mem_cons_self _ _)) _ hb hinv
    rw [hb] at h
    cases r1 with
    | ok l1 =>
      exact ih _ _ _ _ (fun m2 h2 => hseg m2 (List.mem_cons_of_mem _ h2)) h (hk l1 rfl).1
    | error e => cases h; exact ⟨hlen, fun l2 hl => by cases hl⟩
    | panic => cases h; exact ⟨hlen, fun l2 hl => by cases hl⟩

theorem repoCase_extends {σ : Type} (slug : String → String) (c : Client σ)
    (m : MetricType) (now : Nat) (useRepo : String) (ns : List String) (l : Locals)
    (w w2 : World σ) (r : Res Locals) (h : repoCase slug c m now useRepo ns l w = (r, w2)) :
    Calls (fun _ => True) w.trace w2.trace := by
  unfold repoCase at h
  split at h
  · rename_i user0 repo stat _ _ _
    dsimp only at h
    rcases hb : (if user0 = "*" then resolveAuthUserRepo c l w else (Res.ok l, w)) with ⟨r1, w1⟩
    have h1 : Calls (fun _ => True) w.trace w1.trace := by
      by_cases hu : user0 = "*"
      · rw [if_pos hu] at hb
        exact (resolveAuthUserRepo_frame _ c trivial (fun _ => trivial) l w w1 r1 hb).1
      · rw [if_neg hu] at hb
        cases hb
        exact Calls.here _ _
    rw [hb] at h
    cases r1 with
    | ok l1 =>
      dsimp only at h
      split at h
      · exact h1.andThen (expandWildcardRepo_frame _ _ _ _ _ _ _ _ trivial trivial _ _ _ _ h).1
      · exact h1.andThen (concreteRepo_frame _ _ _ _ _ _ _ _ _ (fun _ => trivial)
          (fun _ => trivial) _ _ _ _ h).1
    | error e => cases h; exact h1
    | panic => cases h; exact h1
  · cases h
    exact Calls.here _ _

theorem gitStatsStep_extends {σ : Type} (slug : String → String) (c : Client σ) (now : Nat)
    (useRepo : String) (l : Locals) (w w2 : World σ) (m : MetricType) (r : Res Locals)
    (h : gitStatsStep slug c now useRepo l w m = (r, w2)) :
    Calls (fun _ => True) w.trace w2.trace := by
  unfold gitStatsStep at h
  dsimp only at h
  split at h
  · cases h; exact Calls.here _ _
  · split at h
    · exact repoCase_extends _ _ _ _ _ _ _ _ _ _ h
    · split at h
      · exact (userCase_frame _ c _ _ (fun _ => trivial) (fun _ => trivial) _ _ _ _ _ h).1
      · cases h; exact Calls.here _ _

theorem gitStatsLoop_extends {σ : Type} (slug : String → String) (c : Client σ) (now : Nat)
    (useRepo : String) (mts : List MetricType) :
    ∀ (l : Locals) (w w2 : World σ) (r : Res Locals),
      gitStatsLoop slug c now useRepo l w mts = (r, w2) →
      Calls (fun _ => True) w.trace w2.trace := by
  induction mts with
  | nil =>
    intro l w w2 r h
    simp only [gitStatsLoop] at h
    cases h
    exact Calls.here _ _
  | cons m rest ih =>
    intro l w w2 r h
    unfold gitStatsLoop at h
    rcases hb : gitStatsStep slug c now useRepo l w m with ⟨r1, w1⟩
    have h1 := gitStatsStep_extends _ _ _ _ _ _ _ _ _ hb
    rw [hb] at h
    cases r1 with
    | ok l1 => exact h1.andThen (ih _ _ _ _ h)
    | error e => cases h; exact h1
    | panic => cases h; exact h1

/-- Running the loop over `pre ++ rest` is running it over `pre`, then over `rest`. -/
theorem gitStatsLoop_append {σ : Type} (slug : String → String) (c : Client σ) (now : Nat)
    (useRepo : String) (pre rest : List MetricType) :
    ∀ (l l1 : Locals) (w w1 : World σ),
      gitStatsLoop slug c now useRepo l w pre = (.ok l1, w1) →
      gitStatsLoop slug c now useRepo l w (pre ++ rest) =
        gitStatsLoop slug c now useRepo l1 w1 rest := by
  induction pre with
  | nil =>
    intro l l1 w w1 h
    simp only [gitStatsLoop] at h
    cases h
    rfl
  | cons m ms ih =>
    intro l l1 w w1 h
    simp only [List.cons_append]
    unfold gitStatsLoop at h
    conv_lhs => unfold gitStatsLoop
    rcases hb : gitStatsStep slug c now useRepo l w m with ⟨r1, w0⟩
    rw [hb] at h
    cases r1 with
    | ok l0 => exact ih _ _ _ _ h
    | error e => cases h
    | panic => cases h

theorem gitStats_trace_eq_loop {σ : Type} (slug : String → String) (c : Client σ) (now : Nat)
    (m0 : MetricType) (rest : List MetricType) (w : World σ) (authUser useRepo : String)
    (hconfUser : confString m0.Config_ "user" = .ok authUser)
    (hconfRepo : confString m0.Config_ "repo" = .ok useRepo) :
    (gitStats slug c now (m0 :: rest) w).2.trace =
      (gitStatsLoop slug c now useRepo { authUser := authUser } w (m0 :: rest)).2.trace := by
  simp only [gitStats, hconfUser, hconfRepo]
  rcases hb : gitStatsLoop slug c now useRepo { authUser := authUser } w (m0 :: rest)
    with ⟨r1, w1⟩
  cases r1 <;> rfl

/-- C10 (amended): with no configured user, on a client whose authenticated-identity lookup
never returns an empty login and for a batch in which no user-family request has an empty
owner segment, one run of `gitStats` from an empty log makes at most one
authenticated-identity lookup `GetUsers("")`; and every request with a wildcard owner, in the
repo or the user family, that the run completes was preceded by exactly that one successful
lookup and appends only records whose owner segment is the login it returned. -/
theorem wildcard_owner_resolved_once {σ : Type} (slug : String → String) (c : Client σ)
    (collectionTime : Nat) (m0 : MetricType) (rest : List MetricType) (w : World σ)
    (useRepo : String)
    (h0 : w.trace = [])
    (hconfUser : confString m0.Config_ "user" = .ok "")
    (hconfRepo : confString m0.Config_ "repo" = .ok useRepo)
    (hlogin : ∀ s u s2, c.GetUsers s "" = (.ok u, s2) → u.Login ≠ some "")
    (hseg : ∀ m ∈ m0 :: rest, m.Namespace_[3]? = some "user" → m.Namespace_[4]? ≠ some "") :
    (whoAmICalls (gitStats slug c collectionTime (m0 :: rest) w).2.trace).length ≤ 1 ∧
      ∀ (pre post : List MetricType) (m : MetricType) (l1 l2 : Locals) (w1 w2 : World σ),
        m0 :: rest = pre ++ m :: post →
        gitStatsLoop slug c collectionTime useRepo {} w pre = (.ok l1, w1) →
        gitStatsStep slug c collectionTime useRepo l1 w1 m = (.ok l2, w2) →
        (m.Namespace_[3]? = some "repo" ∨ m.Namespace_[3]? = some "user") →
        m.Namespace_[4]? = some "*" →
        ∃ u L new,
          whoAmICalls (gitStats slug c collectionTime (m0 :: rest) w).2.trace =
            [⟨.getUsers "", .user u⟩] ∧
          u.Login = some L ∧ l2.metrics = l1.metrics ++ new ∧ OwnerAll L new := by
  have hinit : ResolvedOnce {} w.trace := by
    left
    rw [h0]
    exact ⟨rfl, rfl⟩
  have htr := gitStats_trace_eq_loop slug c collectionTime m0 rest w "" useRepo hconfUser hconfRepo
  have hfinal : (whoAmICalls (gitStats slug c collectionTime (m0 :: rest) w).2.trace).length ≤ 1 := by
    rw [htr]
    rcases hb : gitStatsLoop slug c collectionTime useRepo {} w (m0 :: rest) with ⟨r1, w1⟩
    exact (gitStatsLoop_resolvedOnce slug c hlogin _ _ _ _ _ _ _ hseg hb hinit).1
  refine ⟨hfinal, ?_⟩
  intro pre post m l1 l2 w1 w2 hsplit hpre hstep hfam hwild
  have hseg1 : ∀ m2 ∈ pre, m2.Namespace_[3]? = some "user" → m2.Namespace_[4]? ≠ some "" :=
    fun m2 h2 => hseg m2 (by rw [hsplit]; exact List.mem_append_left _ h2)
  have hsegm : m.Namespace_[3]? = some "user" → m.Namespace_[4]? ≠ some "" :=
    hseg m (by rw [hsplit]; simp)
  have hinv1 := (gitStatsLoop_resolvedOnce slug c hlogin _ _ _ _ _ _ _ hseg1 hpre hinit).2 l1 rfl
  obtain ⟨hinv2, hres⟩ := (gitStatsStep_resolvedOnce slug c hlogin _ _ _ _ _ _ hsegm _ hstep
    hinv1).2 l2 rfl
  obtain ⟨hne, new, hm, hown⟩ := hres hfam hwild
  obtain ⟨u, L, hwho, hL, _, ha⟩ := resolvedOnce_ne_empty _ _ hinv2 hne
  have hloop : gitStatsLoop slug c collectionTime useRepo {} w (m0 :: rest) =
      gitStatsLoop slug c collectionTime useRepo l2 w2 post := by
    rw [hsplit, gitStatsLoop_append slug c collectionTime useRepo pre (m :: post) _ _ _ _ hpre]
    conv_lhs => unfold gitStatsLoop
    rw [hstep]
  rcases hb : gitStatsLoop slug c collectionTime useRepo l2 w2 post with ⟨r3, w3⟩
  obtain ⟨evs, hevs, _⟩ := gitStatsLoop_extends _ _ _ _ _ _ _ _ _ hb
  have hF : (gitStats slug c collectionTime (m0 :: rest) w).2.trace = w2.trace ++ evs := by
    rw [htr, hloop, hb]
    exact hevs
  have hwhoF : whoAmICalls (gitStats slug c collectionTime (m0 :: rest) w).2.trace =
      [⟨.getUsers "", .user u⟩] := by
    have hlen := hfinal
    rw [hF, whoAmICalls_append, hwho] at hlen ⊢
    have : whoAmICalls evs = [] := by
      cases hx : whoAmICalls evs with
      | nil => rfl
      | cons a b => rw [hx] at hlen; simp at hlen
    rw [this]
    rfl
  exact ⟨u, L, new, hwhoF, hL, hm, by rw [← ha]; exact hown⟩

/-- C10 (counterexample to the claim as stated): when the authenticated identity has the empty
login, `authUser` stays empty after the first resolution, so the batch
`[user/*/followers, user/*/following]` makes two authenticated-identity lookups. -/
theorem whoami_twice_on_empty_login :
    ¬ (whoAmICalls (gitStats slugMake
        (fixedClient (.ok { Login := some "", Type_ := some "User", Followers := some 5 })
          (.error "unused") (.error "unused") (.error "unused") (.error "unused"))
        1 [{ Namespace_ := gsNs ["user", "*", "followers"] },
           { Namespace_ := gsNs ["user", "*", "following"] }] ⟨(), []⟩).2.trace).length ≤ 1 := by
  decide

/-- C10 (amended), worked example: a wildcard-owner repo request and a wildcard user request on
the caller `octocat`: one lookup. -/
theorem wildcard_owner_resolved_once_witness :
    (whoAmICalls (gitStats slugMake
        (fixedClient (.ok { Login := some "octocat", Type_ := some "User", Followers := some 5 })
          (.error "unused") (.error "unused") (.ok { StargazersCount := some 42 })
          (.error "unused"))
        1 [{ Namespace_ := gsNs ["repo", "*", "widget", "stars"] },
           { Namespace_ := gsNs ["user", "*", "followers"] }] ⟨(), []⟩).2.trace).length ≤ 1 ∧
      (gitStats slugMake
        (fixedClient (.ok { Login := some "octocat", Type_ := some "User", Followers := some 5 })
          (.error "unused") (.error "unused") (.ok { StargazersCount := some 42 })
          (.error "unused"))
        1 [{ Namespace_ := gsNs ["repo", "*", "widget", "stars"] },
           { Namespace_ := gsNs ["user", "*", "followers"] }] ⟨(), []⟩).1 =
        .ok [{ Namespace_ := gsNs ["repo", "octocat", "widget", "stars"], Data_ := some 42,
               Timestamp_ := 1 },
             { Namespace_ := gsNs ["user", "octocat", "followers"], Data_ := some 5,
               Timestamp_ := 1 }] :=
  ⟨(wildcard_owner_resolved_once slugMake _ 1 _ _ ⟨(), []⟩ "" rfl (by decide) (by decide)
      (fun _ u _ h => by
        simp only [fixedClient, Prod.mk.injEq, Except.ok.injEq] at h
        rw [← h.1]
        decide)
      (by decide)).1,
    by decide⟩

/-- Why the amended C10 also excludes an empty owner segment: a concrete user request with the
empty owner issues `GetUsers("")` itself, here after the wildcard was resolved to `octocat`. -/
theorem whoami_twice_on_empty_owner_segment :
    (whoAmICalls (gitStats slugMake
        (fixedClient (.ok { Login := some "octocat", Type_ := some "User", Followers := some 5 })
          (.error "unused") (.error "unused") (.error "unused") (.error "unused"))
        1 [{ Namespace_ := gsNs ["user", "*", "followers"] },
           { Namespace_ := gsNs ["user", "", "followers"] }] ⟨(), []⟩).2.trace).length = 2 := by
  decide

/-! ## C4, in general: the value read for a concrete repository counter -/

/-- The single concrete request `repo/o/r/s`: one fetch, one record under the slug of `r`, whose
value is read from the stats cached under the raw name `r`. -/
theorem concrete_repo_counter_run {σ : Type} (slug : String → String) (c : Client σ)
    (now : Nat) (m : MetricType) (w : World σ) (s1 : σ) (o r s authUser useRepo : String)
    (rp : Repository)
    (hns : m.Namespace_ = gsNs ["repo", o, r, s])
    (ho : o ≠ "*") (hr : r ≠ "*") (hs : s ≠ "issuesbylabel")
    (hconfUser : confString m.Config_ "user" = .ok authUser)
    (hconfRepo : confString m.Config_ "repo" = .ok useRepo)
    (hget : c.GetRepository w.cs o r = (.ok rp, s1)) :
    gitStats slug c now [m] w =
      (.ok [counterRecord m now
              (GoMap.findD (GoMap.findD [(slug r, repoStatsMap rp)] r []) s 0)
              (gsNs ["repo", o, slug r, s])],
        ⟨s1, w.trace ++ [⟨.getRepository o r, .repo rp⟩]⟩) := by
  have hcall : callGetRepository c w o r =
      (.ok rp, ⟨s1, w.trace ++ [⟨.getRepository o r, .repo rp⟩]⟩) := by
    simp [callGetRepository, hget]
  have hstep : ∀ (l : Locals) (w0 : World σ), gitStatsStep slug c now useRepo l w0 m =
      concreteRepo slug c m now useRepo o r s l w0 := by
    intro l w0
    simp [gitStatsStep, hns, gsNs, repoCase, ho, hr]
  have h1 : concreteRepo slug c m now useRepo o r s { authUser := authUser } w =
      (.ok { repos := [(o, [(slug r, repoStatsMap rp)])], authUser := authUser,
             metrics := [counterRecord m now
              (GoMap.findD (GoMap.findD [(slug r, repoStatsMap rp)] r []) s 0)
              (gsNs ["repo", o, slug r, s])] },
        ⟨s1, w.trace ++ [⟨.getRepository o r, .repo rp⟩]⟩) := by
    simp [concreteRepo, hs, hr, fetchRepo, ensureOwner, GoMap.has, GoMap.find, GoMap.put,
      GoMap.findD, hcall, repoStats_eq, gsNs]
  simp only [gitStats, hconfUser, hconfRepo, gitStatsLoop, hstep, h1]

/-- When the repository name is its own slug the record carries the payload's counter. -/
theorem concrete_repo_counter_value_of_slug_eq (slug : String → String) (r s : String)
    (rp : Repository) (v : Int) (hslug : slug r = r) (hv : repoCounter rp s = some v) :
    GoMap.findD (GoMap.findD [(slug r, repoStatsMap rp)] r []) s 0 = v := by
  simp [GoMap.findD, GoMap.find, hslug, find_repoStatsMap, hv]

/-- When the repository name differs from its slug the record carries `0`, whatever the
payload. -/
theorem concrete_repo_counter_value_of_slug_ne (slug : String → String) (r s : String)
    (rp : Repository) (hslug : slug r ≠ r) :
    GoMap.findD (GoMap.findD [(slug r, repoStatsMap rp)] r []) s 0 = 0 := by
  simp [GoMap.findD, GoMap.find, hslug]

/-! ## C11: `userStats` and the organization detail -/

/-- C11: for an identity of type `Organization` with login `login`, `userStats` logs exactly
one remote call, the organization-detail lookup for `login`; when it succeeds the mapping
holds the four public counters and `private_gists`, `private_repos`, `disk_usage`, each
exactly when the payload (identity or detail) sets it, and no other key; when it fails the
error is returned.  For an identity of any other type `userStats` leaves the world untouched
(no remote call) and returns a mapping with the public counters that are set and no other
key. -/
theorem userStats_org_lookup_iff_organization {σ : Type} (c : Client σ) (u : User) (w : World σ) :
    (∀ login, u.Type_ = some "Organization" → u.Login = some login →
      (∃ rep, (userStats c u w).2.trace = w.trace ++ [⟨.getOrganizations login, rep⟩]) ∧
      (∀ org s1, c.GetOrganizations w.cs login = (.ok org, s1) →
        ∃ stats, userStats c u w =
            (.ok stats, ⟨s1, w.trace ++ [⟨.getOrganizations login, .org org⟩]⟩) ∧
          GoMap.find stats "public_repos" = u.PublicRepos ∧
          GoMap.find stats "public_gists" = u.PublicGists ∧
          GoMap.find stats "followers" = u.Followers ∧
          GoMap.find stats "following" = u.Following ∧
          GoMap.find stats "private_gists" = org.PrivateGists ∧
          GoMap.find stats "private_repos" = org.TotalPrivateRepos ∧
          GoMap.find stats "disk_usage" = org.DiskUsage ∧
          ∀ k ∈ GoMap.keys stats, k ∈ ["public_repos", "public_gists", "followers", "following",
            "private_gists", "private_repos", "disk_usage"]) ∧
      (∀ e s1, c.GetOrganizations w.cs login = (.error e, s1) →
        userStats c u w =
          (.error (.remote e), ⟨s1, w.trace ++ [⟨.getOrganizations login, .failed e⟩]⟩))) ∧
    (∀ t, u.Type_ = some t → t ≠ "Organization" →
      ∃ stats, userStats c u w = (.ok stats, w) ∧
        GoMap.find stats "public_repos" = u.PublicRepos ∧
        GoMap.find stats "public_gists" = u.PublicGists ∧
        GoMap.find stats "followers" = u.Followers ∧
        GoMap.find stats "following" = u.Following ∧
        ∀ k ∈ GoMap.keys stats,
          k ∈ ["public_repos", "public_gists", "followers", "following"]) := by
  constructor
  · intro login ht hl
    refine ⟨?_, ?_, ?_⟩
    · rcases callGetOrganizations_cases c w login with ⟨o, s, hc⟩ | ⟨e, s, hc⟩
      · exact ⟨.org o, by simp [userStats, ht, hl, hc]⟩
      · exact ⟨.failed e, by simp [userStats, ht, hl, hc]⟩
    · intro org s1 hget
      have hc : callGetOrganizations c w login =
          (.ok org, ⟨s1, w.trace ++ [⟨.getOrganizations login, .org org⟩]⟩) := by
        simp [callGetOrganizations, hget]
      refine ⟨putIfSet (putIfSet (putIfSet (putIfSet (putIfSet (putIfSet (putIfSet [] "public_repos" u.PublicRepos) "public_gists"
        u.PublicGists) "followers" u.Followers) "following" u.Following)
        "private_gists" org.PrivateGists) "private_repos" org.TotalPrivateRepos)
        "disk_usage" org.DiskUsage,
        by simp only [userStats, ht, hl, hc, if_true], ?_, ?_, ?_, ?_, ?_, ?_, ?_, ?_⟩
      · cases h : u.PublicRepos <;> simp [find_putIfSet, GoMap.find, h]
      · cases h : u.PublicGists <;> simp [find_putIfSet, GoMap.find, h]
      · cases h : u.Followers <;> simp [find_putIfSet, GoMap.find, h]
      · cases h : u.Following <;> simp [find_putIfSet, GoMap.find, h]
      · cases h : org.PrivateGists <;> simp [find_putIfSet, GoMap.find, h]
      · cases h : org.TotalPrivateRepos <;> simp [find_putIfSet, GoMap.find, h]
      · cases h : org.DiskUsage <;> simp [find_putIfSet, GoMap.find, h]
      · intro k hk
        rcases mem_keys_putIfSet _ _ _ _ hk with e | hk
        · simp [e]
        rcases mem_keys_putIfSet _ _ _ _ hk with e | hk
        · simp [e]
        rcases mem_keys_putIfSet _ _ _ _ hk with e | hk
        · simp [e]
        rcases mem_keys_putIfSet _ _ _ _ hk with e | hk
        · simp [e]
        rcases mem_keys_putIfSet _ _ _ _ hk with e | hk
        · simp [e]
        rcases mem_keys_putIfSet _ _ _ _ hk with e | hk
        · simp [e]
        rcases mem_keys_putIfSet _ _ _ _ hk with e | hk
        · simp [e]
        · simp [GoMap.keys] at hk
    · intro e s1 hget
      have hc : callGetOrganizations c w login =
          (.error e, ⟨s1, w.trace ++ [⟨.getOrganizations login, .failed e⟩]⟩) := by
        simp [callGetOrganizations, hget]
      simp only [userStats, ht, hl, hc, if_true]
  · intro t ht hne
    refine ⟨putIfSet (putIfSet (putIfSet (putIfSet [] "public_repos" u.PublicRepos) "public_gists"
        u.PublicGists) "followers" u.Followers) "following" u.Following,
      by simp only [userStats, ht, hne, if_false], ?_, ?_, ?_, ?_, ?_⟩
    · cases h : u.PublicRepos <;> simp [find_putIfSet, GoMap.find, h]
    · cases h : u.PublicGists <;> simp [find_putIfSet, GoMap.find, h]
    · cases h : u.Followers <;> simp [find_putIfSet, GoMap.find, h]
    · cases h : u.Following <;> simp [find_putIfSet, GoMap.find, h]
    · intro k hk
      rcases mem_keys_putIfSet _ _ _ _ hk with e | hk
      · simp [e]
      rcases mem_keys_putIfSet _ _ _ _ hk with e | hk
      · simp [e]
      rcases mem_keys_putIfSet _ _ _ _ hk with e | hk
      · simp [e]
      rcases mem_keys_putIfSet _ _ _ _ hk with e | hk
      · simp [e]
      · simp [GoMap.keys] at hk

/-- C11, worked example: the organization `acme` with 3 public repositories, whose detail has
7 private repositories and no disk usage. -/
theorem userStats_org_lookup_iff_organization_witness :
    ∃ stats, userStats
        (fixedClient (.error "unused") (.ok { TotalPrivateRepos := some 7 }) (.error "unused")
          (.error "unused") (.error "unused"))
        { Login := some "acme", Type_ := some "Organization", PublicRepos := some 3 } ⟨(), []⟩ =
        (.ok stats, ⟨(), [] ++ [⟨.getOrganizations "acme", .org { TotalPrivateRepos := some 7 }⟩]⟩) ∧
      GoMap.find stats "public_repos" = some 3 ∧
      GoMap.find stats "private_repos" = some 7 ∧
      GoMap.find stats "disk_usage" = none := by
  obtain ⟨stats, h, h1, _, _, _, _, h6, h7, _⟩ :=
    ((userStats_org_lookup_iff_organization
      (fixedClient (.error "unused") (.ok { TotalPrivateRepos := some 7 }) (.error "unused")
        (.error "unused") (.error "unused"))
      { Login := some "acme", Type_ := some "Organization", PublicRepos := some 3 }
      ⟨(), []⟩).1 "acme" rfl rfl).2.1 { TotalPrivateRepos := some 7 } () rfl
  exact ⟨stats, h, h1, h6, h7⟩

/-! ## C12: the wildcard repository with `issuesbylabel` -/

/-- C12 (failing input): `acme` owns `widget`, whose labels and issues the remote serves, while
it answers `404 Not Found` for any other repository name.  The batch
`[repo/acme/*/issuesbylabel/*/*/count]` asks the remote for the labels and issues of the
repository named `*`, not `widget`, and the run fails. -/
theorem wildcard_issues_asks_for_literal_wildcard :
    (gitStats slugMake
        (lookupClient (fun _ => .error "unused") (fun _ => .error "unused")
          (fun _ => .ok [{ Name := some "widget" }]) (fun _ _ => .error "unused")
          (fun _ r => if r = "widget" then .ok ([⟨some "bug"⟩], [⟨some "open", [⟨some "bug"⟩]⟩])
            else .error "404 Not Found"))
        1 [{ Namespace_ := gsNs ["repo", "acme", "*", "issuesbylabel", "*", "*", "count"] }]
        ⟨(), []⟩).1 = .error (.remote "404 Not Found") ∧
      (gitStats slugMake
        (lookupClient (fun _ => .error "unused") (fun _ => .error "unused")
          (fun _ => .ok [{ Name := some "widget" }]) (fun _ _ => .error "unused")
          (fun _ r => if r = "widget" then .ok ([⟨some "bug"⟩], [⟨some "open", [⟨some "bug"⟩]⟩])
            else .error "404 Not Found"))
        1 [{ Namespace_ := gsNs ["repo", "acme", "*", "issuesbylabel", "*", "*", "count"] }]
        ⟨(), []⟩).2.trace =
        [⟨.listRepositories "acme", .repoList [{ Name := some "widget" }]⟩,
         ⟨.getAllLabelsAndIssues "acme" "*", .failed "404 Not Found"⟩] := by
  decide

/-- In general, for a concrete owner `o` and no configured repository, every remote call of the
run on `[repo/o/*/issuesbylabel/...]` is the listing for `o` or a labels-and-issues lookup for
the repository name `*`: none names a listed repository. -/
theorem wildcard_issues_calls {σ : Type} (slug : String → String) (c : Client σ) (now : Nat)
    (m : MetricType) (w : World σ) (o authUser : String) (tail : List String)
    (hns : m.Namespace_ = gsNs ("repo" :: o :: "*" :: "issuesbylabel" :: tail))
    (ho : o ≠ "*")
    (hconfUser : confString m.Config_ "user" = .ok authUser)
    (hconfRepo : confString m.Config_ "repo" = .ok "") :
    Calls (fun call => call = .listRepositories o ∨ call = .getAllLabelsAndIssues o "*")
      w.trace (gitStats slug c now [m] w).2.trace := by
  have hstep : gitStatsStep slug c now "" { authUser := authUser } w m =
      expandWildcardRepo slug c m now o "*" "issuesbylabel" { authUser := authUser } w := by
    simp [gitStatsStep, hns, gsNs, repoCase, ho]
  rcases hb : expandWildcardRepo slug c m now o "*" "issuesbylabel" { authUser := authUser } w
    with ⟨r1, w1⟩
  have hf := (expandWildcardRepo_frame
    (fun call => call = .listRepositories o ∨ call = .getAllLabelsAndIssues o "*")
    slug c m now o "*" "issuesbylabel" (Or.inl rfl) (Or.inr rfl) _ _ _ _ hb).1
  simp only [gitStats, hconfUser, hconfRepo, gitStatsLoop, hstep, hb]
  cases r1 <;> exact hf

/-! ## C13: the wildcard repository later in a batch -/

/-- C13 (failing input): `acme` owns `widget` (7 stars).  In the batch
`[repo/acme/*/issuesbylabel/*/*/count, repo/acme/*/stars]` the first request lists the
repositories and marks the owner as listed without caching any repository stats, so the second
request contributes no record at all: the output is the two issue records of the first
request. -/
theorem wildcard_counter_after_wildcard_issues_is_empty :
    (gitStats slugMake
        (fixedClient (.error "unused") (.error "unused")
          (.ok [{ Name := some "widget", StargazersCount := some 7 }]) (.error "unused")
          (.ok ([], [])))
        1 [{ Namespace_ := gsNs ["repo", "acme", "*", "issuesbylabel", "*", "*", "count"] },
           { Namespace_ := gsNs ["repo", "acme", "*", "stars"] }] ⟨(), []⟩).1 =
      .ok [{ Namespace_ := gsNs ["repo", "acme", "widget", "issuesbylabel", "NoLabel", "open",
               "count"], Data_ := some 0, Timestamp_ := 1 },
           { Namespace_ := gsNs ["repo", "acme", "widget", "issuesbylabel", "NoLabel", "closed",
               "count"], Data_ := some 0, Timestamp_ := 1 }] := by
  decide

/-- The same second request alone does give the record of `widget`. -/
theorem wildcard_counter_alone_example :
    (gitStats slugMake
        (fixedClient (.error "unused") (.error "unused")
          (.ok [{ Name := some "widget", StargazersCount := some 7 }]) (.error "unused")
          (.ok ([], [])))
        1 [{ Namespace_ := gsNs ["repo", "acme", "*", "stars"] }] ⟨(), []⟩).1 =
      .ok [{ Namespace_ := gsNs ["repo", "acme", "widget", "stars"], Data_ := some 7,
             Timestamp_ := 1 }] := by
  decide

/-- A second way the expansion depends on what precedes it: the records are read off the whole
repository cache of the owner, so a repository fetched by an earlier concrete request
(`legacy`, not in the listing) gets a record too. -/
theorem wildcard_counter_includes_cached_repository :
    (gitStats slugMake
        (fixedClient (.error "unused") (.error "unused")
          (.ok [{ Name := some "widget", StargazersCount := some 7 }])
          (.ok { Name := some "legacy", StargazersCount := some 1 }) (.ok ([], [])))
        1 [{ Namespace_ := gsNs ["repo", "acme", "legacy", "forks"] },
           { Namespace_ := gsNs ["repo", "acme", "*", "stars"] }] ⟨(), []⟩).1 =
      .ok [{ Namespace_ := gsNs ["repo", "acme", "legacy", "forks"], Data_ := some 0,
             Timestamp_ := 1 },
           { Namespace_ := gsNs ["repo", "acme", "legacy", "stars"], Data_ := some 1,
             Timestamp_ := 1 },
           { Namespace_ := gsNs ["repo", "acme", "widget", "stars"], Data_ := some 7,
             Timestamp_ := 1 }] := by
  decide

/-! ## C14: a configured repository replaces the wildcard -/

theorem fetchRepo_metrics {σ : Type} (slug : String → String) (c : Client σ)
    (user repo : String) (l l2 : Locals) (w w2 : World σ)
    (h : fetchRepo slug c user repo l w = (.ok l2, w2)) : l2.metrics = l.metrics := by
  unfold fetchRepo at h
  split at h
  · cases h; rfl
  · rcases callGetRepository_cases c w user repo with ⟨rp, s, hc⟩ | ⟨e, s, hc⟩
    · rw [hc] at h
      dsimp only at h
      rw [repoStats_eq] at h
      cases h
      rfl
    · rw [hc] at h
      cases h

theorem ensureOwner_metrics (user : String) (l : Locals) :
    (ensureOwner user l).metrics = l.metrics := by
  unfold ensureOwner
  split <;> rfl

/-- With a configured repository `R` the request `repo/o/*/s` appends exactly one record, under
the slug of `R`. -/
theorem fixedRepo_step {σ : Type} (slug : String → String) (c : Client σ) (now : Nat)
    (R : String) (hR : R ≠ "") (m : MetricType) (o s : String)
    (hns : m.Namespace_ = gsNs ["repo", o, "*", s]) (ho : o ≠ "*") (hs : s ≠ "issuesbylabel")
    (l l2 : Locals) (w w2 : World σ)
    (h : gitStatsStep slug c now R l w m = (.ok l2, w2)) :
    ∃ v, l2.metrics = l.metrics ++ [counterRecord m now v (gsNs ["repo", o, slug R, s])] := by
  have hstep : gitStatsStep slug c now R l w m = concreteRepo slug c m now R o "*" s l w := by
    simp [gitStatsStep, hns, gsNs, repoCase, ho, hR]
  rw [hstep] at h
  unfold concreteRepo at h
  simp only [hs, if_false, if_true] at h
  rcases hb : fetchRepo slug c o R (ensureOwner o l) w with ⟨r1, w1⟩
  rw [hb] at h
  cases r1 with
  | ok l1 =>
    cases h
    have hm := fetchRepo_metrics _ _ _ _ _ _ _ _ hb
    rw [ensureOwner_metrics] at hm
    exact ⟨GoMap.findD (GoMap.findD (GoMap.findD l1.repos o []) R []) s 0,
      by simp only [hm, gsNs]⟩
  | error e => cases h
  | panic => cases h

theorem repoCase_notList {σ : Type} (slug : String → String) (c : Client σ)
    (m : MetricType) (now : Nat) (useRepo : String) (hR : useRepo ≠ "") (ns : List String)
    (l : Locals) (w w2 : World σ) (r : Res Locals)
    (h : repoCase slug c m now useRepo ns l w = (r, w2)) :
    Calls Call.notList w.trace w2.trace := by
  unfold repoCase at h
  split at h
  · rename_i user0 repo stat _ _ _
    dsimp only at h
    rcases hb : (if user0 = "*" then resolveAuthUserRepo c l w else (Res.ok l, w)) with ⟨r1, w1⟩
    have h1 : Calls Call.notList w.trace w1.trace := by
      by_cases hu : user0 = "*"
      · rw [if_pos hu] at hb
        exact (resolveAuthUserRepo_frame _ c (fun u hh => by cases hh)
          (fun _ u hh => by cases hh) l w w1 r1 hb).1
      · rw [if_neg hu] at hb
        cases hb
        exact Calls.here _ _
    rw [hb] at h
    cases r1 with
    | ok l1 =>
      dsimp only at h
      have hcond : ¬ (repo = "*" ∧ useRepo = "") := fun hc => hR hc.2
      rw [if_neg hcond] at h
      exact h1.andThen (concreteRepo_frame _ _ _ _ _ _ _ _ _ (fun _ u hh => by cases hh)
        (fun _ u hh => by cases hh) _ _ _ _ h).1
    | error e => cases h; exact h1
    | panic => cases h; exact h1
  · cases h
    exact Calls.here _ _

theorem gitStatsStep_notList {σ : Type} (slug : String → String) (c : Client σ) (now : Nat)
    (useRepo : String) (hR : useRepo ≠ "") (l : Locals) (w w2 : World σ) (m : MetricType)
    (r : Res Locals) (h : gitStatsStep slug c now useRepo l w m = (r, w2)) :
    Calls Call.notList w.trace w2.trace := by
  unfold gitStatsStep at h
  dsimp only at h
  split at h
  · cases h; exact Calls.here _ _
  · split at h
    · exact repoCase_notList _ _ _ _ _ hR _ _ _ _ _ h
    · split at h
      · exact (userCase_frame _ c _ _ (fun _ u hh => by cases hh) (fun _ u hh => by cases hh)
          _ _ _ _ _ h).1
      · cases h; exact Calls.here _ _

theorem gitStatsLoop_notList {σ : Type} (slug : String → String) (c : Client σ) (now : Nat)
    (useRepo : String) (hR : useRepo ≠ "") (mts : List MetricType) :
    ∀ (l : Locals) (w w2 : World σ) (r : Res Locals),
      gitStatsLoop slug c now useRepo l w mts = (r, w2) →
      Calls Call.notList w.trace w2.trace := by
  induction mts with
  | nil =>
    intro l w w2 r h
    simp only [gitStatsLoop] at h
    cases h
    exact Calls.here _ _
  | cons m rest ih =>
    intro l w w2 r h
    unfold gitStatsLoop at h
    rcases hb : gitStatsStep slug c now useRepo l w m with ⟨r1, w1⟩
    have h1 := gitStatsStep_notList _ _ _ _ hR _ _ _ _ _ hb
    rw [hb] at h
    cases r1 with
    | ok l1 => exact h1.andThen (ih _ _ _ _ h)
    | error e => cases h; exact h1
    | panic => cases h; exact h1

/-- C14: when the configuration of the batch has a non-empty `repo` value `R`, no call logged
during the run of `gitStats` is a listing of an owner's repositories, and every request
`repo/o/*/s` of the batch (concrete owner `o`, simple counter `s`) that the run completes
appends exactly one record, with namespace `raintank/apps/gitstats/repo/o/<slug of R>/s`. -/
theorem fixed_repo_replaces_wildcard {σ : Type} (slug : String → String) (c : Client σ)
    (collectionTime : Nat) (m0 : MetricType) (rest : List MetricType) (w : World σ)
    (authUser R : String)
    (hconfUser : confString m0.Config_ "user" = .ok authUser)
    (hconfRepo : confString m0.Config_ "repo" = .ok R) (hR : R ≠ "") :
    (∃ evs, (gitStats slug c collectionTime (m0 :: rest) w).2.trace = w.trace ++ evs ∧
        ∀ e ∈ evs, ∀ u, e.call ≠ .listRepositories u) ∧
      ∀ (pre post : List MetricType) (m : MetricType) (l1 l2 : Locals) (w1 w2 : World σ)
        (o s : String),
        m0 :: rest = pre ++ m :: post →
        gitStatsLoop slug c collectionTime R { authUser := authUser } w pre = (.ok l1, w1) →
        gitStatsStep slug c collectionTime R l1 w1 m = (.ok l2, w2) →
        m.Namespace_ = gsNs ["repo", o, "*", s] → o ≠ "*" → s ≠ "issuesbylabel" →
        ∃ v, l2.metrics = l1.metrics ++
          [counterRecord m collectionTime v (gsNs ["repo", o, slug R, s])] := by
  constructor
  · rw [gitStats_trace_eq_loop slug c collectionTime m0 rest w authUser R hconfUser hconfRepo]
    rcases hb : gitStatsLoop slug c collectionTime R { authUser := authUser } w (m0 :: rest)
      with ⟨r1, w1⟩
    exact gitStatsLoop_notList _ _ _ _ hR _ _ _ _ _ hb
  · intro pre post m l1 l2 w1 w2 o s _ _ hstep hns ho hs
    exact fixedRepo_step slug c collectionTime R hR m o s hns ho hs l1 l2 w1 w2 hstep

/-- C14, worked example: `repo` is configured as `My.Repo`; the wildcard request gives the one
record of `my_repo` and only the repository fetch is logged. -/
theorem fixed_repo_replaces_wildcard_witness :
    (∃ evs, (gitStats slugMake
        (fixedClient (.error "unused") (.error "unused") (.error "unused")
          (.ok { StargazersCount := some 42 }) (.error "unused"))
        1 [{ Namespace_ := gsNs ["repo", "acme", "*", "stars"],
             Config_ := [("repo", .str "My.Repo")] }] ⟨(), []⟩).2.trace = [] ++ evs ∧
        ∀ e ∈ evs, ∀ u, e.call ≠ .listRepositories u) ∧
      (gitStats slugMake
        (fixedClient (.error "unused") (.error "unused") (.error "unused")
          (.ok { StargazersCount := some 42 }) (.error "unused"))
        1 [{ Namespace_ := gsNs ["repo", "acme", "*", "stars"],
             Config_ := [("repo", .str "My.Repo")] }] ⟨(), []⟩).2.trace =
        [⟨.getRepository "acme" "My.Repo", .repo { StargazersCount := some 42 }⟩] ∧
      (gitStats slugMake
        (fixedClient (.error "unused") (.error "unused") (.error "unused")
          (.ok { StargazersCount := some 42 }) (.error "unused"))
        1 [{ Namespace_ := gsNs ["repo", "acme", "*", "stars"],
             Config_ := [("repo", .str "My.Repo")] }] ⟨(), []⟩).1 =
        .ok [{ Namespace_ := gsNs ["repo", "acme", "my_repo", "stars"], Data_ := some 0,
               Timestamp_ := 1 }] :=
  ⟨(fixed_repo_replaces_wildcard slugMake _ 1 _ [] ⟨(), []⟩ "" "My.Repo" (by decide) (by decide)
      (by decide)).1, by decide, by decide⟩

/-! ## C15: a configured user is the owner of every wildcard -/

theorem resolveAuthUserUser_fixedUser {σ : Type} (c : Client σ) (l : Locals)
    (hU : l.authUser ≠ "") (w w2 : World σ) (r : Res Locals)
    (h : resolveAuthUserUser c l w = (r, w2)) :
    Calls Call.notWhoAmI w.trace w2.trace ∧
      ∀ l2, r = .ok l2 → l2.authUser = l.authUser ∧ l2.metrics = l.metrics := by
  unfold resolveAuthUserUser at h
  rw [if_neg hU] at h
  split at h
  · cases h
    exact ⟨Calls.here _ _, fun l2 hl => by cases hl; exact ⟨rfl, rfl⟩⟩
  · obtain ⟨hc, _⟩ := fetchUser_frame Call.notWhoAmI c _ _ (notWhoAmI_user _ hU)
      notWhoAmI_org l w w2 r h
    refine ⟨hc, fun l2 hl => ?_⟩
    subst hl
    unfold fetchUser at h
    rcases callGetUsers_cases c w l.authUser with ⟨u, s, hcu, _⟩ | ⟨e, s, hcu⟩
    · rw [hcu] at h
      dsimp only at h
      split at h <;> cases h
      exact ⟨rfl, rfl⟩
    · rw [hcu] at h
      cases h

theorem repoCase_fixedUser {σ : Type} (slug : String → String) (c : Client σ)
    (m : MetricType) (now : Nat) (useRepo : String) (ns : List String) (l : Locals)
    (hU : l.authUser ≠ "") (w w2 : World σ) (r : Res Locals)
    (h : repoCase slug c m now useRepo ns l w = (r, w2)) :
    Calls Call.notWhoAmI w.trace w2.trace ∧
      ∀ l2, r = .ok l2 → l2.authUser = l.authUser ∧
        (ns[4]? = some "*" →
          ∃ new, l2.metrics = l.metrics ++ new ∧ OwnerAll l.authUser new) := by
  unfold repoCase at h
  split at h
  · rename_i user0 repo stat h4 _ _
    dsimp only at h
    have hres : (if user0 = "*" then resolveAuthUserRepo c l w else (Res.ok l, w)) =
        (Res.ok l, w) := by
      by_cases hu : user0 = "*"
      · rw [if_pos hu]
        unfold resolveAuthUserRepo
        rw [if_neg hU]
      · rw [if_neg hu]
    rw [hres] at h
    dsimp only at h
    have hframe : Calls Call.notWhoAmI w.trace w2.trace ∧
        ∀ l2, r = .ok l2 → Keep (if user0 = "*" then l.authUser else user0) l l2 := by
      split at h
      · exact expandWildcardRepo_frame Call.notWhoAmI _ _ _ _ _ _ _
          (notWhoAmI_list _) (notWhoAmI_labels _ _) _ _ _ _ h
      · exact concreteRepo_frame Call.notWhoAmI _ _ _ _ _ _ _ _
          (notWhoAmI_repo _) (notWhoAmI_labels _) _ _ _ _ h
    obtain ⟨hc, hk⟩ := hframe
    refine ⟨hc, fun l2 hl => ?_⟩
    obtain ⟨ha, _, new, hm, hown⟩ := hk l2 hl
    refine ⟨ha, fun hwild => ?_⟩
    have hu : user0 = "*" := by
      rw [h4] at hwild
      exact Option.some.inj hwild
    rw [if_pos hu] at hown
    exact ⟨new, hm, hown⟩
  · cases h
    exact ⟨Calls.here _ _, fun l2 hl => by cases hl⟩

theorem userCase_fixedUser {σ : Type} (c : Client σ) (m : MetricType) (now : Nat)
    (ns : List String) (hseg : ns[4]? ≠ some "") (l : Locals) (hU : l.authUser ≠ "")
    (w w2 : World σ) (r : Res Locals) (h : userCase c m now ns l w = (r, w2)) :
    Calls Call.notWhoAmI w.trace w2.trace ∧
      ∀ l2, r = .ok l2 → l2.authUser = l.authUser ∧
        (ns[4]? = some "*" →
          ∃ new, l2.metrics = l.metrics ++ new ∧ OwnerAll l.authUser new) := by
  unfold userCase at h
  split at h
  · rename_i user0 stat h4 _
    dsimp only at h
    rcases hb : (if user0 = "*" then resolveAuthUserUser c l w
      else if GoMap.has l.users user0 then (Res.ok l, w) else fetchUser c user0 user0 l w)
      with ⟨r1, w1⟩
    have h1 : Calls Call.notWhoAmI w.trace w1.trace ∧
        ∀ l1, r1 = .ok l1 → l1.authUser = l.authUser ∧ l1.metrics = l.metrics := by
      by_cases hu : user0 = "*"
      · rw [if_pos hu] at hb
        exact resolveAuthUserUser_fixedUser c l hU w w1 r1 hb
      · rw [if_neg hu] at hb
        split at hb
        · cases hb
          exact ⟨Calls.here _ _, fun l1 hl => by cases hl; exact ⟨rfl, rfl⟩⟩
        · have hne : user0 ≠ "" := fun e => hseg (by rw [h4, e])
          obtain ⟨hc, _⟩ := fetchUser_frame Call.notWhoAmI c _ _ (notWhoAmI_user _ hne)
            notWhoAmI_org l w w1 r1 hb
          refine ⟨hc, fun l1 hl => ?_⟩
          subst hl
          unfold fetchUser at hb
          rcases callGetUsers_cases c w user0 with ⟨u, s, hcu, _⟩ | ⟨e, s, hcu⟩
          · rw [hcu] at hb
            dsimp only at hb
            split at hb <;> cases hb
            exact ⟨rfl, rfl⟩
          · rw [hcu] at hb
            cases hb
    rw [hb] at h
    cases r1 with
    | ok l1 =>
      obtain ⟨ha1, hm1⟩ := h1.2 l1 rfl
      cases h
      refine ⟨h1.1, fun l2 hl => ?_⟩
      cases hl
      refine ⟨ha1, fun hwild => ?_⟩
      have hu : user0 = "*" := by
        rw [h4] at hwild
        exact Option.some.inj hwild
      refine ⟨_, by rw [hm1], ?_⟩
      intro rec hrec
      rw [List.mem_singleton.1 hrec]
      simp [counterRecord, hu, ha1]
    | error e => cases h; exact ⟨h1.1, fun l2 hl => by cases hl⟩
    | panic => cases h; exact ⟨h1.1, fun l2 hl => by cases hl⟩
  · cases h
    exact ⟨Calls.here _ _, fun l2 hl => by cases hl⟩

theorem gitStatsStep_fixedUser {σ : Type} (slug : String → String) (c : Client σ)
    (now : Nat) (useRepo : String) (l : Locals) (hU : l.authUser ≠ "") (w w2 : World σ)
    (m : MetricType)
    (hseg : m.Namespace_[3]? = some "user" → m.Namespace_[4]? ≠ some "")
    (r : Res Locals) (h : gitStatsStep slug c now useRepo l w m = (r, w2)) :
    Calls Call.notWhoAmI w.trace w2.trace ∧
      ∀ l2, r = .ok l2 → l2.authUser = l.authUser ∧
        ((m.Namespace_[3]? = some "repo" ∨ m.Namespace_[3]? = some "user") →
          m.Namespace_[4]? = some "*" →
          ∃ new, l2.metrics = l.metrics ++ new ∧ OwnerAll l.authUser new) := by
  unfold gitStatsStep at h
  dsimp only at h
  split at h
  · cases h
    exact ⟨Calls.here _ _, fun l2 hl => by cases hl⟩
  · rename_i family h3
    split at h
    · obtain ⟨a, b⟩ := repoCase_fixedUser slug c _ _ _ _ _ hU _ _ _ h
      exact ⟨a, fun l2 hl => ⟨(b l2 hl).1, fun _ hw => (b l2 hl).2 hw⟩⟩
    · split at h
      · rename_i hfam
        obtain ⟨a, b⟩ := userCase_fixedUser c _ _ _ (hseg (by rw [h3, hfam])) _ hU _ _ _ h
        exact ⟨a, fun l2 hl => ⟨(b l2 hl).1, fun _ hw => (b l2 hl).2 hw⟩⟩
      · rename_i hnr hnu
        cases h
        refine ⟨Calls.here _ _, fun l2 hl => ?_⟩
        cases hl
        refine ⟨rfl, fun hfam _ => ?_⟩
        rw [h3] at hfam
        rcases hfam with e | e
        · exact absurd (Option.some.inj e) hnr
        · exact absurd (Option.some.inj e) hnu

theorem gitStatsLoop_fixedUser {σ : Type} (slug : String → String) (c : Client σ)
    (now : Nat) (useRepo : String) (mts : List MetricType) :
    ∀ (l : Locals) (w w2 : World σ) (r : Res Locals), l.authUser ≠ "" →
      (∀ m ∈ mts, m.Namespace_[3]? = some "user" → m.Namespace_[4]? ≠ some "") →
      gitStatsLoop slug c now useRepo l w mts = (r, w2) →
      Calls Call.notWhoAmI w.trace w2.trace ∧ ∀ l2, r = .ok l2 → l2.authUser = l.authUser := by
  induction mts with
  | nil =>
    intro l w w2 r _ _ h
    simp only [gitStatsLoop] at h
    cases h
    exact ⟨Calls.here _ _, fun l2 hl => by cases hl; rfl⟩
  | cons m rest ih =>
    intro l w w2 r hU hseg h
    unfold gitStatsLoop at h
    rcases hb : gitStatsStep slug c now useRepo l w m with ⟨r1, w1⟩
    obtain ⟨hc, hk⟩ := gitStatsStep_fixedUser slug c _ _ _ hU _ _ _
      (hseg m (List.mem_cons_self _ _)) _ hb
    rw [hb] at h
    cases r1 with
    | ok l1 =>
      have ha := (hk l1 rfl).1
      obtain ⟨hc2, hk2⟩ := ih l1 w1 w2 r (by rw [ha]; exact hU)
        (fun m2 h2 => hseg m2 (List.mem_cons_of_mem _ h2)) h
      exact ⟨hc.andThen hc2, fun l2 hl => (hk2 l2 hl).trans ha⟩
    | error e => cases h; exact ⟨hc, fun l2 hl => by cases hl⟩
    | panic => cases h; exact ⟨hc, fun l2 hl => by cases hl⟩

theorem fetchUser_fields {σ : Type} (c : Client σ) (login key : String) (l l2 : Locals)
    (w w2 : World σ) (h : fetchUser c login key l w = (.ok l2, w2)) :
    l2.authUser = l.authUser ∧ l2.metrics = l.metrics ∧ l2.repos = l.repos := by
  unfold fetchUser at h
  rcases callGetUsers_cases c w login with ⟨u, s, hcu, _⟩ | ⟨e, s, hcu⟩
  · rw [hcu] at h
    dsimp only at h
    split at h <;> cases h
    exact ⟨rfl, rfl, rfl⟩
  · rw [hcu] at h
    cases h

/-- A completed user request keeps a non-empty `authUser`, whatever its owner segment, and with
a wildcard owner its record has that owner. -/
theorem userCase_ownerKept {σ : Type} (c : Client σ) (m : MetricType) (now : Nat)
    (ns : List String) (l : Locals) (hU : l.authUser ≠ "") (w w2 : World σ) (l2 : Locals)
    (h : userCase c m now ns l w = (.ok l2, w2)) :
    l2.authUser = l.authUser ∧
      (ns[4]? = some "*" →
        ∃ new, l2.metrics = l.metrics ++ new ∧ OwnerAll l.authUser new) := by
  unfold userCase at h
  split at h
  · rename_i user0 stat h4 _
    dsimp only at h
    rcases hb : (if user0 = "*" then resolveAuthUserUser c l w
      else if GoMap.has l.users user0 then (Res.ok l, w) else fetchUser c user0 user0 l w)
      with ⟨r1, w1⟩
    have h1 : ∀ l1, r1 = .ok l1 → l1.authUser = l.authUser ∧ l1.metrics = l.metrics := by
      by_cases hu : user0 = "*"
      · rw [if_pos hu] at hb
        exact (resolveAuthUserUser_fixedUser c l hU w w1 r1 hb).2
      · rw [if_neg hu] at hb
        split at hb
        · cases hb
          exact fun l1 hl => by cases hl; exact ⟨rfl, rfl⟩
        · intro l1 hl
          subst hl
          have hf := fetchUser_fields c _ _ _ _ _ _ hb
          exact ⟨hf.1, hf.2.1⟩
    rw [hb] at h
    cases r1 with
    | ok l1 =>
      obtain ⟨ha1, hm1⟩ := h1 l1 rfl
      cases h
      refine ⟨ha1, fun hwild => ?_⟩
      have hu : user0 = "*" := by
        rw [h4] at hwild
        exact Option.some.inj hwild
      refine ⟨_, by rw [hm1], ?_⟩
      intro rec hrec
      rw [List.mem_singleton.1 hrec]
      simp [counterRecord, hu, ha1]
    | error e => cases h
    | panic => cases h
  · cases h

theorem gitStatsStep_ownerKept {σ : Type} (slug : String → String) (c : Client σ)
    (now : Nat) (useRepo : String) (l : Locals) (hU : l.authUser ≠ "") (w w2 : World σ)
    (m : MetricType) (l2 : Locals)
    (h : gitStatsStep slug c now useRepo l w m = (.ok l2, w2)) :
    l2.authUser = l.authUser ∧
      ((m.Namespace_[3]? = some "repo" ∨ m.Namespace_[3]? = some "user") →
        m.Namespace_[4]? = some "*" →
        ∃ new, l2.metrics = l.metrics ++ new ∧ OwnerAll l.authUser new) := by
  unfold gitStatsStep at h
  dsimp only at h
  split at h
  · cases h
  · rename_i family h3
    split at h
    · have b := (repoCase_fixedUser slug c _ _ _ _ _ hU _ _ _ h).2 l2 rfl
      exact ⟨b.1, fun _ hw => b.2 hw⟩
    · split at h
      · have b := userCase_ownerKept c _ _ _ _ hU _ _ _ h
        exact ⟨b.1, fun _ hw => b.2 hw⟩
      · rename_i hnr hnu
        cases h
        refine ⟨rfl, fun hfam _ => ?_⟩
        rw [h3] at hfam
        rcases hfam with e | e
        · exact absurd (Option.some.inj e) hnr
        · exact absurd (Option.some.inj e) hnu

theorem gitStatsLoop_ownerKept {σ : Type} (slug : String → String) (c : Client σ)
    (now : Nat) (useRepo : String) (mts : List MetricType) :
    ∀ (l l2 : Locals) (w w2 : World σ), l.authUser ≠ "" →
      gitStatsLoop slug c now useRepo l w mts = (.ok l2, w2) → l2.authUser = l.authUser := by
  induction mts with
  | nil =>
    intro l l2 w w2 _ h
    simp only [gitStatsLoop] at h
    cases h
    rfl
  | cons m rest ih =>
    intro l l2 w w2 hU h
    unfold gitStatsLoop at h
    rcases hb : gitStatsStep slug c now useRepo l w m with ⟨r1, w1⟩
    rw [hb] at h
    cases r1 with
    | ok l1 =>
      have ha := (gitStatsStep_ownerKept slug c _ _ _ hU _ _ _ _ hb).1
      exact (ih l1 l2 w1 w2 (by rw [ha]; exact hU) h).trans ha
    | error e => cases h
    | panic => cases h

/-- C15 (amended): when the configuration of the batch has a non-empty `user` value `U`, every
request with a wildcard owner segment, in the repo or the user family and whatever the
configured repository and the other requests of the batch, that the run of `gitStats`
completes appends only records whose owner segment is `U`; and when moreover no user-family
request of the batch has an empty owner segment, no call logged during the run is the
authenticated-identity lookup `GetUsers("")`. -/
theorem fixed_user_resolves_wildcard_owner {σ : Type} (slug : String → String) (c : Client σ)
    (collectionTime : Nat) (m0 : MetricType) (rest : List MetricType) (w : World σ)
    (U useRepo : String)
    (hconfUser : confString m0.Config_ "user" = .ok U) (hU : U ≠ "")
    (hconfRepo : confString m0.Config_ "repo" = .ok useRepo) :
    (∀ (pre post : List MetricType) (m : MetricType) (l1 l2 : Locals) (w1 w2 : World σ),
        m0 :: rest = pre ++ m :: post →
        gitStatsLoop slug c collectionTime useRepo { authUser := U } w pre = (.ok l1, w1) →
        gitStatsStep slug c collectionTime useRepo l1 w1 m = (.ok l2, w2) →
        (m.Namespace_[3]? = some "repo" ∨ m.Namespace_[3]? = some "user") →
        m.Namespace_[4]? = some "*" →
        ∃ new, l2.metrics = l1.metrics ++ new ∧ OwnerAll U new) ∧
      ((∀ m ∈ m0 :: rest, m.Namespace_[3]? = some "user" → m.Namespace_[4]? ≠ some "") →
        ∃ evs, (gitStats slug c collectionTime (m0 :: rest) w).2.trace = w.trace ++ evs ∧
          ∀ e ∈ evs, e.call ≠ .getUsers "") := by
  constructor
  · intro pre post m l1 l2 w1 w2 _ hpre hstep hfam hwild
    have ha1 : l1.authUser = U :=
      gitStatsLoop_ownerKept slug c _ _ _ _ _ _ _ hU hpre
    have hres := (gitStatsStep_ownerKept slug c _ _ l1 (by rw [ha1]; exact hU) _ _ _ _
      hstep).2 hfam hwild
    rw [ha1] at hres
    exact hres
  · intro hseg
    rw [gitStats_trace_eq_loop slug c collectionTime m0 rest w U useRepo hconfUser hconfRepo]
    rcases hb : gitStatsLoop slug c collectionTime useRepo { authUser := U } w (m0 :: rest)
      with ⟨r1, w1⟩
    exact (gitStatsLoop_fixedUser slug c _ _ _ _ _ _ _ hU hseg hb).1

/-- C15 (counterexample to the claim as stated): with `user` configured as `bob`, the concrete
user request with the empty owner segment calls `GetUsers("")`, the authenticated-identity
lookup. -/
theorem whoami_called_despite_configured_user :
    (⟨.getUsers "", .user { Login := some "octocat", Type_ := some "User" }⟩ : Event) ∈
      (gitStats slugMake
        (fixedClient (.ok { Login := some "octocat", Type_ := some "User" })
          (.error "unused") (.error "unused") (.error "unused") (.error "unused"))
        1 [{ Namespace_ := gsNs ["user", "", "followers"],
             Config_ := [("user", .str "bob")] }] ⟨(), []⟩).2.trace := by
  decide

/-- C15 (amended), worked example: `user` is configured as `bob`; a wildcard repo request and a
wildcard user request are both answered for `bob`, with the identity fetched by login, and the
log has no `GetUsers("")`. -/
theorem fixed_user_resolves_wildcard_owner_witness :
    (∃ evs, (gitStats slugMake
        (fixedClient (.ok { Login := some "bob", Type_ := some "User", Followers := some 5 })
          (.error "unused") (.error "unused") (.ok { StargazersCount := some 42 })
          (.error "unused"))
        1 [{ Namespace_ := gsNs ["repo", "*", "widget", "stars"],
             Config_ := [("user", .str "bob")] },
           { Namespace_ := gsNs ["user", "*", "followers"] }] ⟨(), []⟩).2.trace = [] ++ evs ∧
        ∀ e ∈ evs, e.call ≠ .getUsers "") ∧
      (gitStats slugMake
        (fixedClient (.ok { Login := some "bob", Type_ := some "User", Followers := some 5 })
          (.error "unused") (.error "unused") (.ok { StargazersCount := some 42 })
          (.error "unused"))
        1 [{ Namespace_ := gsNs ["repo", "*", "widget", "stars"],
             Config_ := [("user", .str "bob")] },
           { Namespace_ := gsNs ["user", "*", "followers"] }] ⟨(), []⟩).1 =
        .ok [{ Namespace_ := gsNs ["repo", "bob", "widget", "stars"], Data_ := some 42,
               Timestamp_ := 1 },
             { Namespace_ := gsNs ["user", "bob", "followers"], Data_ := some 5,
               Timestamp_ := 1 }] :=
  ⟨(fixed_user_resolves_wildcard_owner slugMake _ 1 _ _ ⟨(), []⟩ "bob" "" (by decide)
      (by decide) (by decide)).2 (by decide), by decide⟩

/-- With `user` configured as `bob`, the wildcard requests are answered for `bob` also after a
request with an empty owner segment, which is the one that looks the caller up. -/
theorem fixed_user_owner_after_empty_segment :
    (gitStats slugMake
        (fixedClient (.ok { Login := some "octocat", Type_ := some "User", Followers := some 5 })
          (.error "unused") (.error "unused") (.ok { StargazersCount := some 42 })
          (.error "unused"))
        1 [{ Namespace_ := gsNs ["user", "", "followers"],
             Config_ := [("user", .str "bob")] },
           { Namespace_ := gsNs ["user", "*", "followers"] },
           { Namespace_ := gsNs ["repo", "*", "widget", "stars"] }] ⟨(), []⟩).1 =
        .ok [{ Namespace_ := gsNs ["user", "", "followers"], Data_ := some 5, Timestamp_ := 1 },
             { Namespace_ := gsNs ["user", "bob", "followers"], Data_ := some 5,
               Timestamp_ := 1 },
             { Namespace_ := gsNs ["repo", "bob", "widget", "stars"], Data_ := some 42,
               Timestamp_ := 1 }] ∧
      ((gitStats slugMake
        (fixedClient (.ok { Login := some "octocat", Type_ := some "User", Followers := some 5 })
          (.error "unused") (.error "unused") (.ok { StargazersCount := some 42 })
          (.error "unused"))
        1 [{ Namespace_ := gsNs ["user", "", "followers"],
             Config_ := [("user", .str "bob")] },
           { Namespace_ := gsNs ["user", "*", "followers"] },
           { Namespace_ := gsNs ["repo", "*", "widget", "stars"] }] ⟨(), []⟩).2.trace.map
          (fun e => e.call)) =
        [.getUsers "", .getUsers "bob", .getRepository "bob" "widget"] := by
  decide

/-! ## C16: a request of an unknown family -/

/-- C16 (counterexample to the claim as stated): the batch made of one request of the family
`org` does not fail: it returns no record and no error. -/
theorem unknown_family_is_not_an_error :
    (gitStats slugMake
        (fixedClient (.error "unused") (.error "unused") (.error "unused") (.error "unused")
          (.error "unused"))
        1 [{ Namespace_ := gsNs ["org", "acme", "members"] }] ⟨(), []⟩).1 = .ok [] := by
  decide

/-- C16 (amended): a request whose schema-family segment is neither `repo` nor `user` is
skipped: processing it returns without error and leaves the locals (records and caches) and
the world (client state and call log) unchanged, so the run continues with the rest of the
batch as if the request were not there. -/
theorem unknown_family_is_skipped {σ : Type} (slug : String → String) (c : Client σ)
    (collectionTime : Nat) (useRepo : String) (l : Locals) (w : World σ) (m : MetricType)
    (rest : List MetricType) (family : String)
    (hfam : m.Namespace_[3]? = some family) (hrepo : family ≠ "repo") (huser : family ≠ "user") :
    gitStatsStep slug c collectionTime useRepo l w m = (.ok l, w) ∧
      gitStatsLoop slug c collectionTime useRepo l w (m :: rest) =
        gitStatsLoop slug c collectionTime useRepo l w rest := by
  have hstep : gitStatsStep slug c collectionTime useRepo l w m = (.ok l, w) := by
    simp [gitStatsStep, hfam, hrepo, huser]
  refine ⟨hstep, ?_⟩
  conv_lhs => unfold gitStatsLoop
  rw [hstep]

/-- C16 (amended), worked example: the `org` request between two requests changes nothing. -/
theorem unknown_family_is_skipped_witness :
    gitStatsStep slugMake
        (fixedClient (.error "unused") (.error "unused") (.error "unused") (.error "unused")
          (.error "unused"))
        1 "" {} ⟨(), []⟩ { Namespace_ := gsNs ["org", "acme", "members"] } = (.ok {}, ⟨(), []⟩) ∧
      gitStatsLoop slugMake
        (fixedClient (.error "unused") (.error "unused") (.error "unused") (.error "unused")
          (.error "unused"))
        1 "" {} ⟨(), []⟩ [{ Namespace_ := gsNs ["org", "acme", "members"] }] =
        gitStatsLoop slugMake
          (fixedClient (.error "unused") (.error "unused") (.error "unused") (.error "unused")
            (.error "unused"))
          1 "" {} ⟨(), []⟩ [] :=
  unknown_family_is_skipped slugMake _ 1 "" {} ⟨(), []⟩ _ [] "org" (by decide) (by decide)
    (by decide)

/-! ## C17: one timestamp, and the version of the request -/

theorem stamped_nil (now : Nat) (m : MetricType) : Stamped now m [] := by
  intro r hr
  cases hr

theorem stamped_append (now : Nat) (m : MetricType) (a b : List MetricType)
    (ha : Stamped now m a) (hb : Stamped now m b) : Stamped now m (a ++ b) := by
  intro r hr
  rcases List.mem_append.1 hr with h | h
  · exact ha r h
  · exact hb r h

theorem collectIssueMetrics_stamped (slug : String → String) (m : MetricType) (now : Nat)
    (owner repo : String) (labels : List Label) (issues : List Issue) (ms : List MetricType)
    (h : collectIssueMetrics slug m now owner repo labels issues = .ok ms) :
    Stamped now m ms := by
  obtain ⟨T0, T, _, _, hms⟩ := collectIssueMetrics_unfold _ _ _ _ _ _ _ _ h
  intro r hr
  rw [hms] at hr
  obtain ⟨kv, _, rfl⟩ := List.mem_map.1 hr
  exact ⟨rfl, rfl⟩

theorem issuesByLabel_stamped {σ : Type} (slug : String → String) (c : Client σ)
    (m : MetricType) (now : Nat) (user repo repoSlug : String)
    (l l2 : Locals) (w w2 : World σ)
    (h : issuesByLabel slug c m now user repo repoSlug l w = (.ok l2, w2)) :
    ∃ new, l2.metrics = l.metrics ++ new ∧ Stamped now m new := by
  unfold issuesByLabel at h
  rcases callGetAllLabelsAndIssues_cases c w user repo with ⟨ls, is, s, hc⟩ | ⟨e, s, hc⟩
  · rw [hc] at h
    dsimp only at h
    split at h
    · cases h
    · cases h
    · rename_i ms hms
      cases h
      exact ⟨ms, rfl, collectIssueMetrics_stamped _ _ _ _ _ _ _ _ hms⟩
  · rw [hc] at h
    cases h

theorem expandLoop_stamped {σ : Type} (slug : String → String) (c : Client σ)
    (m : MetricType) (now : Nat) (user repo stat : String) (rs : List Repository) :
    ∀ (l l2 : Locals) (w w2 : World σ),
      expandLoop slug c m now user repo stat l w rs = (.ok l2, w2) →
      ∃ new, l2.metrics = l.metrics ++ new ∧ Stamped now m new := by
  induction rs with
  | nil =>
    intro l l2 w w2 h
    simp only [expandLoop] at h
    cases h
    exact ⟨[], by simp, stamped_nil _ _⟩
  | cons rp rest ih =>
    intro l l2 w w2 h
    unfold expandLoop at h
    split at h
    · cases h
    · dsimp only at h
      split at h
      · rcases hb : issuesByLabel slug c m now user repo (slug _) l w with ⟨r1, w1⟩
        rw [hb] at h
        cases r1 with
        | ok l1 =>
          obtain ⟨n1, hm1, hs1⟩ := issuesByLabel_stamped _ _ _ _ _ _ _ _ _ _ _ hb
          obtain ⟨n2, hm2, hs2⟩ := ih _ _ _ _ h
          exact ⟨n1 ++ n2, by rw [hm2, hm1, List.append_assoc], stamped_append _ _ _ _ hs1 hs2⟩
        | error e => cases h
        | panic => cases h
      · rw [repoStats_eq] at h
        obtain ⟨n, hm, hs⟩ := ih _ _ _ _ h
        exact ⟨n, hm, hs⟩

theorem emitUserRepos_stamped (m : MetricType) (now : Nat) (user stat : String) (l : Locals) :
    ∃ new, (emitUserRepos m now user stat l).metrics = l.metrics ++ new ∧ Stamped now m new := by
  refine ⟨_, rfl, ?_⟩
  intro r hr
  obtain ⟨kv, _, rfl⟩ := List.mem_map.1 hr
  exact ⟨rfl, rfl⟩

theorem expandWildcardRepo_stamped {σ : Type} (slug : String → String) (c : Client σ)
    (m : MetricType) (now : Nat) (user repo stat : String) (l l2 : Locals) (w w2 : World σ)
    (h : expandWildcardRepo slug c m now user repo stat l w = (.ok l2, w2)) :
    ∃ new, l2.metrics = l.metrics ++ new ∧ Stamped now m new := by
  unfold expandWildcardRepo at h
  split at h
  · cases h
    exact emitUserRepos_stamped _ _ _ _ _
  · rcases callListRepositories_cases c w user with ⟨rs, s, hc⟩ | ⟨e, s, hc⟩
    · rw [hc] at h
      dsimp only at h
      rcases hb : expandLoop slug c m now user repo stat
        (ensureOwner user { l with userRepos := GoMap.put l.userRepos user () })
        ⟨s, w.trace ++ [⟨.listRepositories user, .repoList rs⟩]⟩ rs with ⟨r1, w1⟩
      rw [hb] at h
      cases r1 with
      | ok l1 =>
        cases h
        obtain ⟨n1, hm1, hs1⟩ := expandLoop_stamped _ _ _ _ _ _ _ _ _ _ _ _ hb
        rw [ensureOwner_metrics] at hm1
        obtain ⟨n2, hm2, hs2⟩ := emitUserRepos_stamped m now user stat l1
        exact ⟨n1 ++ n2, by rw [hm2, hm1, List.append_assoc], stamped_append _ _ _ _ hs1 hs2⟩
      | error e => cases h
      | panic => cases h
    · rw [hc] at h
      cases h

theorem concreteRepo_stamped {σ : Type} (slug : String → String) (c : Client σ)
    (m : MetricType) (now : Nat) (useRepo user repo0 stat : String) (l l2 : Locals)
    (w w2 : World σ)
    (h : concreteRepo slug c m now useRepo user repo0 stat l w = (.ok l2, w2)) :
    ∃ new, l2.metrics = l.metrics ++ new ∧ Stamped now m new := by
  unfold concreteRepo at h
  dsimp only at h
  split at h
  · exact issuesByLabel_stamped _ _ _ _ _ _ _ _ _ _ _ h
  · rcases hb : fetchRepo slug c user (if repo0 = "*" then useRepo else repo0)
      (ensureOwner user l) w with ⟨r1, w1⟩
    rw [hb] at h
    cases r1 with
    | ok l1 =>
      cases h
      have hm := fetchRepo_metrics _ _ _ _ _ _ _ _ hb
      rw [ensureOwner_metrics] at hm
      refine ⟨_, by rw [hm], ?_⟩
      intro r hr
      rw [List.mem_singleton.1 hr]
      exact ⟨rfl, rfl⟩
    | error e => cases h
    | panic => cases h

theorem repoCase_stamped {σ : Type} (slug : String → String) (c : Client σ)
    (m : MetricType) (now : Nat) (useRepo : String) (ns : List String) (l l2 : Locals)
    (w w2 : World σ) (h : repoCase slug c m now useRepo ns l w = (.ok l2, w2)) :
    ∃ new, l2.metrics = l.metrics ++ new ∧ Stamped now m new := by
  unfold repoCase at h
  split at h
  · rename_i user0 repo stat _ _ _
    dsimp only at h
    rcases hb : (if user0 = "*" then resolveAuthUserRepo c l w else (Res.ok l, w)) with ⟨r1, w1⟩
    have h1 : ∀ l1, r1 = .ok l1 → l1.metrics = l.metrics := by
      by_cases hu : user0 = "*"
      · rw [if_pos hu] at hb
        exact fun l1 hl => ((resolveAuthUserRepo_frame (fun _ => True) c trivial
          (fun _ => trivial) l w w1 r1 hb).2 l1 hl).2
      · rw [if_neg hu] at hb
        cases hb
        exact fun l1 hl => by cases hl; rfl
    rw [hb] at h
    cases r1 with
    | ok l1 =>
      dsimp only at h
      rw [← h1 l1 rfl]
      split at h
      · exact expandWildcardRepo_stamped _ _ _ _ _ _ _ _ _ _ _ h
      · exact concreteRepo_stamped _ _ _ _ _ _ _ _ _ _ _ _ h
    | error e => cases h
    | panic => cases h
  · cases h

theorem userCase_stamped {σ : Type} (c : Client σ) (m : MetricType) (now : Nat)
    (ns : List String) (l l2 : Locals) (w w2 : World σ)
    (h : userCase c m now ns l w = (.ok l2, w2)) :
    ∃ new, l2.metrics = l.metrics ++ new ∧ Stamped now m new := by
  unfold userCase at h
  split at h
  · rename_i user0 stat _ _
    dsimp only at h
    rcases hb : (if user0 = "*" then resolveAuthUserUser c l w
      else if GoMap.has l.users user0 then (Res.ok l, w) else fetchUser c user0 user0 l w)
      with ⟨r1, w1⟩
    have h1 : ∀ l1, r1 = .ok l1 → l1.metrics = l.metrics := by
      by_cases hu : user0 = "*"
      · rw [if_pos hu] at hb
        exact fun l1 hl => ((resolveAuthUserUser_frame (fun _ => True) c (fun _ => trivial)
          (fun _ => trivial) l w w1 r1 hb).2 l1 hl).2
      · rw [if_neg hu] at hb
        split at hb
        · cases hb
          exact fun l1 hl => by cases hl; rfl
        · intro l1 hl
          subst hl
          exact (fetchUser_fields c _ _ _ _ _ _ hb).2.1
    rw [hb] at h
    cases r1 with
    | ok l1 =>
      cases h
      refine ⟨_, by rw [h1 l1 rfl], ?_⟩
      intro r hr
      rw [List.mem_singleton.1 hr]
      exact ⟨rfl, rfl⟩
    | error e => cases h
    | panic => cases h
  · cases h

theorem gitStatsStep_stamped {σ : Type} (slug : String → String) (c : Client σ) (now : Nat)
    (useRepo : String) (l l2 : Locals) (w w2 : World σ) (m : MetricType)
    (h : gitStatsStep slug c now useRepo l w m = (.ok l2, w2)) :
    ∃ new, l2.metrics = l.metrics ++ new ∧ Stamped now m new := by
  unfold gitStatsStep at h
  dsimp only at h
  split at h
  · cases h
  · split at h
    · exact repoCase_stamped _ _ _ _ _ _ _ _ _ _ h
    · split at h
      · exact userCase_stamped _ _ _ _ _ _ _ _ h
      · cases h
        exact ⟨[], by simp, stamped_nil _ _⟩

theorem gitStatsLoop_stamped {σ : Type} (slug : String → String) (c : Client σ) (now : Nat)
    (useRepo : String) (mts : List MetricType) :
    ∀ (l l2 : Locals) (w w2 : World σ),
      gitStatsLoop slug c now useRepo l w mts = (.ok l2, w2) →
      ∃ parts : List (List MetricType), l2.metrics = l.metrics ++ parts.flatten ∧
        List.Forall₂ (fun m part => Stamped now m part) mts parts := by
  induction mts with
  | nil =>
    intro l l2 w w2 h
    simp only [gitStatsLoop] at h
    cases h
    exact ⟨[], by simp, List.Forall₂.nil⟩
  | cons m rest ih =>
    intro l l2 w w2 h
    unfold gitStatsLoop at h
    rcases hb : gitStatsStep slug c now useRepo l w m with ⟨r1, w1⟩
    rw [hb] at h
    cases r1 with
    | ok l1 =>
      obtain ⟨new, hm1, hs1⟩ := gitStatsStep_stamped _ _ _ _ _ _ _ _ _ hb
      obtain ⟨parts, hm2, hf⟩ := ih _ _ _ _ h
      exact ⟨new :: parts, by rw [hm2, hm1]; simp, List.Forall₂.cons hs1 hf⟩
    | error e => cases h
    | panic => cases h

theorem forall2_exists_left {α β : Type} (R : α → β → Prop) (l1 : List α) (l2 : List β)
    (hf : List.Forall₂ R l1 l2) (b : β) (hb : b ∈ l2) : ∃ a, a ∈ l1 ∧ R a b := by
  induction hf with
  | nil => cases hb
  | cons hab _ ih =>
    rcases List.mem_cons.1 hb with e | hb2
    · exact ⟨_, List.mem_cons_self _ _, e ▸ hab⟩
    · obtain ⟨a, ha, hr⟩ := ih hb2
      exact ⟨a, List.mem_cons_of_mem _ ha, hr⟩

/-- A successful run of the loop over `pre ++ m :: post` is a successful run over `pre`, then
the successful step for `m`, then a successful run over `post`. -/
theorem gitStatsLoop_split {σ : Type} (slug : String → String) (c : Client σ) (now : Nat)
    (useRepo : String) (m : MetricType) (post : List MetricType) (pre : List MetricType) :
    ∀ (l l3 : Locals) (w w3 : World σ),
      gitStatsLoop slug c now useRepo l w (pre ++ m :: post) = (.ok l3, w3) →
      ∃ l1 w1 l2 w2, gitStatsLoop slug c now useRepo l w pre = (.ok l1, w1) ∧
        gitStatsStep slug c now useRepo l1 w1 m = (.ok l2, w2) ∧
        gitStatsLoop slug c now useRepo l2 w2 post = (.ok l3, w3) := by
  induction pre with
  | nil =>
    intro l l3 w w3 h
    simp only [List.nil_append] at h
    unfold gitStatsLoop at h
    rcases hb : gitStatsStep slug c now useRepo l w m with ⟨r1, w1⟩
    rw [hb] at h
    cases r1 with
    | ok l1 => exact ⟨l, w, l1, w1, by simp only [gitStatsLoop], hb, h⟩
    | error e => cases h
    | panic => cases h
  | cons m1 ms ih =>
    intro l l3 w w3 h
    simp only [List.cons_append] at h
    unfold gitStatsLoop at h
    rcases hb : gitStatsStep slug c now useRepo l w m1 with ⟨r1, w0⟩
    rw [hb] at h
    cases r1 with
    | ok l0 =>
      obtain ⟨l1, w1, l2, w2, h1, h2, h3⟩ := ih _ _ _ _ h
      refine ⟨l1, w1, l2, w2, ?_, h2, h3⟩
      unfold gitStatsLoop
      rw [hb]
      exact h1
    | error e => cases h
    | panic => cases h

/-- C17: when `gitStats` succeeds, every returned record has the one collection time of the
invocation as its timestamp; and for every request `m` of the batch, at any position, the run
is the run over the requests before `m`, then the step for `m`, then the run over the requests
after `m`, the records the step for `m` appends are a segment of the returned records, and
each of them carries the collection time and the schema version of `m`. -/
theorem records_share_timestamp_and_request_version {σ : Type} (slug : String → String)
    (c : Client σ) (collectionTime : Nat) (mts : List MetricType) (w w2 : World σ)
    (ms : List MetricType)
    (h : gitStats slug c collectionTime mts w = (.ok ms, w2)) :
    (∀ r ∈ ms, r.Timestamp_ = collectionTime) ∧
      ∃ m0 authUser useRepo, mts.head? = some m0 ∧
        confString m0.Config_ "user" = .ok authUser ∧
        confString m0.Config_ "repo" = .ok useRepo ∧
        ∀ (pre post : List MetricType) (m : MetricType), mts = pre ++ m :: post →
          ∃ (l1 l2 l3 : Locals) (w1 w3 : World σ) (new after : List MetricType),
            gitStatsLoop slug c collectionTime useRepo { authUser := authUser } w pre =
              (.ok l1, w1) ∧
            gitStatsStep slug c collectionTime useRepo l1 w1 m = (.ok l2, w3) ∧
            gitStatsLoop slug c collectionTime useRepo l2 w3 post = (.ok l3, w2) ∧
            l2.metrics = l1.metrics ++ new ∧
            l3.metrics = ms ∧
            ms = l1.metrics ++ new ++ after ∧
            ∀ r ∈ new, r.Timestamp_ = collectionTime ∧ r.Version_ = m.Version_ := by
  unfold gitStats at h
  split at h
  · cases h
  · split at h
    · rename_i m0 rest _ _ authUser useRepo hcu hcr
      rcases hb : gitStatsLoop slug c collectionTime useRepo { authUser := authUser } w
        (m0 :: rest) with ⟨r1, w1⟩
      rw [hb] at h
      cases r1 with
      | ok lf =>
        cases h
        constructor
        · obtain ⟨parts, hm, hf⟩ := gitStatsLoop_stamped _ _ _ _ _ _ _ _ _ hb
          have hms : lf.metrics = parts.flatten := by simpa using hm
          intro r hr
          rw [hms, List.mem_flatten] at hr
          obtain ⟨part, hp, hrp⟩ := hr
          obtain ⟨m, _, hst⟩ := forall2_exists_left _ _ _ hf part hp
          exact (hst r hrp).1
        · refine ⟨m0, authUser, useRepo, rfl, hcu, hcr, ?_⟩
          intro pre post m hsplit
          rw [hsplit] at hb
          obtain ⟨l1, w1, l2, w3, h1, h2, h3⟩ := gitStatsLoop_split _ _ _ _ _ _ _ _ _ _ _ hb
          obtain ⟨new, hnew, hst⟩ := gitStatsStep_stamped _ _ _ _ _ _ _ _ _ h2
          obtain ⟨parts, hafter, _⟩ := gitStatsLoop_stamped _ _ _ _ _ _ _ _ _ h3
          exact ⟨l1, l2, lf, w1, w3, new, parts.flatten, h1, h2, h3, hnew, rfl,
            by rw [hafter, hnew], hst⟩
      | error e => cases h
      | panic => cases h
    · cases h

/-- C17, worked example: two requests with versions 2 and 5 at collection time 9; the run
returns two records, each with timestamp 9 and the version of its own request. -/
theorem records_share_timestamp_and_request_version_witness :
    ((∀ r ∈ ([{ Namespace_ := gsNs ["repo", "acme", "widget", "stars"], Data_ := some 42,
                Timestamp_ := 9, Version_ := 2 },
              { Namespace_ := gsNs ["user", "bob", "followers"], Data_ := some 5,
                Timestamp_ := 9, Version_ := 5 }] : List MetricType), r.Timestamp_ = 9) ∧
      ∃ (m0 : MetricType) (authUser useRepo : String),
        ([{ Namespace_ := gsNs ["repo", "acme", "widget", "stars"], Version_ := 2 },
          { Namespace_ := gsNs ["user", "bob", "followers"], Version_ := 5 }] :
            List MetricType).head? = some m0 ∧
        confString m0.Config_ "user" = .ok authUser ∧
        confString m0.Config_ "repo" = .ok useRepo ∧
        ∀ (pre post : List MetricType) (m : MetricType),
          ([{ Namespace_ := gsNs ["repo", "acme", "widget", "stars"], Version_ := 2 },
            { Namespace_ := gsNs ["user", "bob", "followers"], Version_ := 5 }] :
              List MetricType) = pre ++ m :: post →
          ∃ (l1 l2 l3 : Locals) (w1 w3 : World Unit) (new after : List MetricType),
            gitStatsLoop slugMake
              (fixedClient
                (.ok { Login := some "bob", Type_ := some "User", Followers := some 5 })
                (.error "unused") (.error "unused") (.ok { StargazersCount := some 42 })
                (.error "unused"))
              9 useRepo { authUser := authUser } ⟨(), []⟩ pre = (.ok l1, w1) ∧
            gitStatsStep slugMake
              (fixedClient
                (.ok { Login := some "bob", Type_ := some "User", Followers := some 5 })
                (.error "unused") (.error "unused") (.ok { StargazersCount := some 42 })
                (.error "unused"))
              9 useRepo l1 w1 m = (.ok l2, w3) ∧
            gitStatsLoop slugMake
              (fixedClient
                (.ok { Login := some "bob", Type_ := some "User", Followers := some 5 })
                (.error "unused") (.error "unused") (.ok { StargazersCount := some 42 })
                (.error "unused"))
              9 useRepo l2 w3 post =
              (.ok l3,
                ⟨(), [⟨.getRepository "acme" "widget", .repo { StargazersCount := some 42 }⟩,
                      ⟨.getUsers "bob",
                        .user { Login := some "bob", Type_ := some "User", Followers := some 5 }⟩]⟩) ∧
            l2.metrics = l1.metrics ++ new ∧
            l3.metrics =
              [{ Namespace_ := gsNs ["repo", "acme", "widget", "stars"], Data_ := some 42,
                 Timestamp_ := 9, Version_ := 2 },
               { Namespace_ := gsNs ["user", "bob", "followers"], Data_ := some 5,
                 Timestamp_ := 9, Version_ := 5 }] ∧
            ([{ Namespace_ := gsNs ["repo", "acme", "widget", "stars"], Data_ := some 42,
                Timestamp_ := 9, Version_ := 2 },
              { Namespace_ := gsNs ["user", "bob", "followers"], Data_ := some 5,
                Timestamp_ := 9, Version_ := 5 }] : List MetricType) =
              l1.metrics ++ new ++ after ∧
            ∀ r ∈ new, r.Timestamp_ = 9 ∧ r.Version_ = m.Version_) ∧
      (gitStats slugMake
        (fixedClient (.ok { Login := some "bob", Type_ := some "User", Followers := some 5 })
          (.error "unused") (.error "unused") (.ok { StargazersCount := some 42 })
          (.error "unused"))
        9 [{ Namespace_ := gsNs ["repo", "acme", "widget", "stars"], Version_ := 2 },
           { Namespace_ := gsNs ["user", "bob", "followers"], Version_ := 5 }] ⟨(), []⟩).1 =
        .ok [{ Namespace_ := gsNs ["repo", "acme", "widget", "stars"], Data_ := some 42,
               Timestamp_ := 9, Version_ := 2 },
             { Namespace_ := gsNs ["user", "bob", "followers"], Data_ := some 5,
               Timestamp_ := 9, Version_ := 5 }] :=
  ⟨records_share_timestamp_and_request_version slugMake
    (fixedClient (.ok { Login := some "bob", Type_ := some "User", Followers := some 5 })
      (.error "unused") (.error "unused") (.ok { StargazersCount := some 42 }) (.error "unused"))
    9 [{ Namespace_ := gsNs ["repo", "acme", "widget", "stars"], Version_ := 2 },
       { Namespace_ := gsNs ["user", "bob", "followers"], Version_ := 5 }] ⟨(), []⟩ _ _ rfl,
    by decide⟩

/-! ## C18: a stat that is not in the mapping -/

theorem find_none_of_not_mem_keys {V : Type} (m : GoMap V) (k : String)
    (h : k ∉ GoMap.keys m) : GoMap.find m k = none := by
  cases hf : GoMap.find m k with
  | none => rfl
  | some v =>
    exfalso
    apply h
    rw [← GoMap.find_isSome_iff, hf]
    rfl

theorem userStats_keys {σ : Type} (c : Client σ) (u : User) (w w2 : World σ)
    (stats : GoMap Int) (h : userStats c u w = (.ok stats, w2)) :
    ∀ k ∈ GoMap.keys stats, k ∈ ["public_repos", "public_gists", "followers", "following",
      "private_gists", "private_repos", "disk_usage"] := by
  have hpub : ∀ k ∈ GoMap.keys (putIfSet (putIfSet (putIfSet (putIfSet [] "public_repos"
      u.PublicRepos) "public_gists" u.PublicGists) "followers" u.Followers) "following"
      u.Following), k ∈ ["public_repos", "public_gists", "followers", "following",
      "private_gists", "private_repos", "disk_usage"] := by
    intro k hk
    rcases mem_keys_putIfSet _ _ _ _ hk with e | hk
    · simp [e]
    rcases mem_keys_putIfSet _ _ _ _ hk with e | hk
    · simp [e]
    rcases mem_keys_putIfSet _ _ _ _ hk with e | hk
    · simp [e]
    rcases mem_keys_putIfSet _ _ _ _ hk with e | hk
    · simp [e]
    · simp [GoMap.keys] at hk
  simp only [userStats] at h
  split at h
  · cases h
  · split at h
    · split at h
      · cases h
      · rename_i login _
        rcases callGetOrganizations_cases c w login with ⟨o, s, hc⟩ | ⟨e, s, hc⟩
        · rw [hc] at h
          cases h
          intro k hk
          rcases mem_keys_putIfSet _ _ _ _ hk with e | hk
          · simp [e]
          rcases mem_keys_putIfSet _ _ _ _ hk with e | hk
          · simp [e]
          rcases mem_keys_putIfSet _ _ _ _ hk with e | hk
          · simp [e]
          · exact hpub k hk
        · rw [hc] at h
          cases h
    · cases h
      exact hpub

/-- The single concrete request `user/u/s`: one identity lookup (and the organization detail
when needed), one record, whose value is read from the stats of the identity. -/
theorem concrete_user_counter_run {σ : Type} (slug : String → String) (c : Client σ)
    (now : Nat) (m : MetricType) (w w2 : World σ) (s1 : σ) (u s authUser useRepo : String)
    (ident : User) (stats : GoMap Int)
    (hns : m.Namespace_ = gsNs ["user", u, s]) (hu : u ≠ "*")
    (hconfUser : confString m.Config_ "user" = .ok authUser)
    (hconfRepo : confString m.Config_ "repo" = .ok useRepo)
    (hget : c.GetUsers w.cs u = (.ok ident, s1))
    (hstats : userStats c ident ⟨s1, w.trace ++ [⟨.getUsers u, .user ident⟩]⟩ = (.ok stats, w2)) :
    gitStats slug c now [m] w =
      (.ok [counterRecord m now (GoMap.findD stats s 0) (gsNs ["user", u, s])], w2) := by
  have hcall : callGetUsers c w u =
      (.ok ident, ⟨s1, w.trace ++ [⟨.getUsers u, .user ident⟩]⟩) := by
    simp [callGetUsers, hget]
  have hstep : gitStatsStep slug c now useRepo { authUser := authUser } w m =
      (.ok { authUser := authUser, users := [(u, stats)],
             metrics := [counterRecord m now (GoMap.findD stats s 0) (gsNs ["user", u, s])] },
        w2) := by
    simp [gitStatsStep, hns, gsNs, userCase, hu, GoMap.has, GoMap.find, fetchUser, hcall,
      hstats, GoMap.put, GoMap.findD]
  simp only [gitStats, hconfUser, hconfRepo, gitStatsLoop, hstep]

/-- The record a concrete repo-counter request appends, from any state of the run. -/
theorem concrete_repo_counter_step {σ : Type} (slug : String → String) (c : Client σ)
    (now : Nat) (useRepo : String) (m : MetricType) (o r s : String)
    (hns : m.Namespace_ = gsNs ["repo", o, r, s]) (ho : o ≠ "*") (hr : r ≠ "*")
    (hs : s ≠ "issuesbylabel") (l l2 : Locals) (w w2 : World σ)
    (h : gitStatsStep slug c now useRepo l w m = (.ok l2, w2)) :
    l2.metrics = l.metrics ++ [counterRecord m now
      ((GoMap.find (GoMap.findD (GoMap.findD l2.repos o []) r []) s).getD 0)
      (gsNs ["repo", o, slug r, s])] := by
  have hstep : gitStatsStep slug c now useRepo l w m =
      concreteRepo slug c m now useRepo o r s l w := by
    simp [gitStatsStep, hns, gsNs, repoCase, ho, hr]
  rw [hstep] at h
  unfold concreteRepo at h
  simp only [hs, hr, if_false] at h
  rcases hb : fetchRepo slug c o r (ensureOwner o l) w with ⟨r1, w1⟩
  rw [hb] at h
  cases r1 with
  | ok l1 =>
    cases h
    have hm := fetchRepo_metrics _ _ _ _ _ _ _ _ hb
    rw [ensureOwner_metrics] at hm
    simp only [hm, gsNs, GoMap.findD]
  | error e => cases h
  | panic => cases h

/-- The record a concrete user-counter request appends, from any state of the run. -/
theorem concrete_user_counter_step {σ : Type} (slug : String → String) (c : Client σ)
    (now : Nat) (useRepo : String) (m : MetricType) (u s : String)
    (hns : m.Namespace_ = gsNs ["user", u, s]) (hu : u ≠ "*")
    (l l2 : Locals) (w w2 : World σ)
    (h : gitStatsStep slug c now useRepo l w m = (.ok l2, w2)) :
    l2.metrics = l.metrics ++ [counterRecord m now
      ((GoMap.find (GoMap.findD l2.users u []) s).getD 0) (gsNs ["user", u, s])] := by
  have hstep : gitStatsStep slug c now useRepo l w m = userCase c m now m.Namespace_ l w := by
    simp [gitStatsStep, hns, gsNs]
  rw [hstep] at h
  unfold userCase at h
  simp only [hns, gsNs, List.getElem?_cons_succ, List.getElem?_cons_zero, hu, if_false] at h
  rcases hb : (if GoMap.has l.users u then (Res.ok l, w) else fetchUser c u u l w)
    with ⟨r1, w1⟩
  rw [hb] at h
  cases r1 with
  | ok l1 =>
    cases h
    have hm : l1.metrics = l.metrics := by
      split at hb
      · cases hb; rfl
      · exact (fetchUser_fields c _ _ _ _ _ _ hb).2.1
    simp only [hm, gsNs, GoMap.findD]
  | error e => cases h
  | panic => cases h

/-- C18: a stat that is not a key of the mapping extracted for the entity is emitted as `0`,
not omitted.  (1) The single concrete request `repo/o/r/s` on a fetched payload whose mapping
`repoStats` has no key `s` returns exactly one record, with value `0`.  (2) The single
concrete request `user/u/s` on an identity whose mapping `userStats` has no key `s` returns
exactly one record, with value `0`.  (3) In particular `watches` gives `0` for every
repository payload, whatever its watcher count, and (4) `plan_private_repos`, `plan_seats`,
`plan_filled_seats` give `0` for every identity payload whose stats are extracted.  (5, 6)
Wherever the request sits in a batch, a concrete counter request that completes appends
exactly one record, whose value is the looked-up entry or `0` when the lookup misses. -/
theorem absent_stat_is_emitted_as_zero {σ : Type} (slug : String → String) (c : Client σ)
    (collectionTime : Nat) :
    (∀ (m : MetricType) (w : World σ) (s1 : σ) (o r s authUser useRepo : String)
        (rp : Repository),
        m.Namespace_ = gsNs ["repo", o, r, s] → o ≠ "*" → r ≠ "*" → s ≠ "issuesbylabel" →
        confString m.Config_ "user" = .ok authUser →
        confString m.Config_ "repo" = .ok useRepo →
        c.GetRepository w.cs o r = (.ok rp, s1) →
        GoMap.find (repoStatsMap rp) s = none →
        gitStats slug c collectionTime [m] w =
          (.ok [counterRecord m collectionTime 0 (gsNs ["repo", o, slug r, s])],
            ⟨s1, w.trace ++ [⟨.getRepository o r, .repo rp⟩]⟩)) ∧
    (∀ (m : MetricType) (w w2 : World σ) (s1 : σ) (u s authUser useRepo : String)
        (ident : User) (stats : GoMap Int),
        m.Namespace_ = gsNs ["user", u, s] → u ≠ "*" →
        confString m.Config_ "user" = .ok authUser →
        confString m.Config_ "repo" = .ok useRepo →
        c.GetUsers w.cs u = (.ok ident, s1) →
        userStats c ident ⟨s1, w.trace ++ [⟨.getUsers u, .user ident⟩]⟩ = (.ok stats, w2) →
        GoMap.find stats s = none →
        gitStats slug c collectionTime [m] w =
          (.ok [counterRecord m collectionTime 0 (gsNs ["user", u, s])], w2)) ∧
    (∀ (m : MetricType) (w : World σ) (s1 : σ) (o r authUser useRepo : String)
        (rp : Repository),
        m.Namespace_ = gsNs ["repo", o, r, "watches"] → o ≠ "*" → r ≠ "*" →
        confString m.Config_ "user" = .ok authUser →
        confString m.Config_ "repo" = .ok useRepo →
        c.GetRepository w.cs o r = (.ok rp, s1) →
        gitStats slug c collectionTime [m] w =
          (.ok [counterRecord m collectionTime 0 (gsNs ["repo", o, slug r, "watches"])],
            ⟨s1, w.trace ++ [⟨.getRepository o r, .repo rp⟩]⟩)) ∧
    (∀ (m : MetricType) (w w2 : World σ) (s1 : σ) (u s authUser useRepo : String)
        (ident : User) (stats : GoMap Int),
        s ∈ ["plan_private_repos", "plan_seats", "plan_filled_seats"] →
        m.Namespace_ = gsNs ["user", u, s] → u ≠ "*" →
        confString m.Config_ "user" = .ok authUser →
        confString m.Config_ "repo" = .ok useRepo →
        c.GetUsers w.cs u = (.ok ident, s1) →
        userStats c ident ⟨s1, w.trace ++ [⟨.getUsers u, .user ident⟩]⟩ = (.ok stats, w2) →
        gitStats slug c collectionTime [m] w =
          (.ok [counterRecord m collectionTime 0 (gsNs ["user", u, s])], w2)) ∧
    (∀ (useRepo : String) (m : MetricType) (o r s : String) (l l2 : Locals) (w w2 : World σ),
        m.Namespace_ = gsNs ["repo", o, r, s] → o ≠ "*" → r ≠ "*" → s ≠ "issuesbylabel" →
        gitStatsStep slug c collectionTime useRepo l w m = (.ok l2, w2) →
        l2.metrics = l.metrics ++ [counterRecord m collectionTime
          ((GoMap.find (GoMap.findD (GoMap.findD l2.repos o []) r []) s).getD 0)
          (gsNs ["repo", o, slug r, s])]) ∧
    (∀ (useRepo : String) (m : MetricType) (u s : String) (l l2 : Locals) (w w2 : World σ),
        m.Namespace_ = gsNs ["user", u, s] → u ≠ "*" →
        gitStatsStep slug c collectionTime useRepo l w m = (.ok l2, w2) →
        l2.metrics = l.metrics ++ [counterRecord m collectionTime
          ((GoMap.find (GoMap.findD l2.users u []) s).getD 0) (gsNs ["user", u, s])]) := by
  have hrepo : ∀ (m : MetricType) (w : World σ) (s1 : σ) (o r s authUser useRepo : String)
      (rp : Repository),
      m.Namespace_ = gsNs ["repo", o, r, s] → o ≠ "*" → r ≠ "*" → s ≠ "issuesbylabel" →
      confString m.Config_ "user" = .ok authUser →
      confString m.Config_ "repo" = .ok useRepo →
      c.GetRepository w.cs o r = (.ok rp, s1) →
      GoMap.find (repoStatsMap rp) s = none →
      gitStats slug c collectionTime [m] w =
        (.ok [counterRecord m collectionTime 0 (gsNs ["repo", o, slug r, s])],
          ⟨s1, w.trace ++ [⟨.getRepository o r, .repo rp⟩]⟩) := by
    intro m w s1 o r s authUser useRepo rp hns ho hr hs hcu hcr hget hnone
    rw [concrete_repo_counter_run slug c collectionTime m w s1 o r s authUser useRepo rp hns ho
      hr hs hcu hcr hget]
    have hz : GoMap.findD (GoMap.findD [(slug r, repoStatsMap rp)] r []) s 0 = 0 := by
      by_cases hsl : slug r = r
      · simp [GoMap.findD, GoMap.find, hsl, hnone]
      · exact concrete_repo_counter_value_of_slug_ne slug r s rp hsl
    rw [hz]
  have huser : ∀ (m : MetricType) (w w2 : World σ) (s1 : σ) (u s authUser useRepo : String)
      (ident : User) (stats : GoMap Int),
      m.Namespace_ = gsNs ["user", u, s] → u ≠ "*" →
      confString m.Config_ "user" = .ok authUser →
      confString m.Config_ "repo" = .ok useRepo →
      c.GetUsers w.cs u = (.ok ident, s1) →
      userStats c ident ⟨s1, w.trace ++ [⟨.getUsers u, .user ident⟩]⟩ = (.ok stats, w2) →
      GoMap.find stats s = none →
      gitStats slug c collectionTime [m] w =
        (.ok [counterRecord m collectionTime 0 (gsNs ["user", u, s])], w2) := by
    intro m w w2 s1 u s authUser useRepo ident stats hns hu hcu hcr hget hstats hnone
    rw [concrete_user_counter_run slug c collectionTime m w w2 s1 u s authUser useRepo ident
      stats hns hu hcu hcr hget hstats]
    simp [GoMap.findD, hnone]
  refine ⟨hrepo, huser, ?_, ?_, ?_, ?_⟩
  · intro m w s1 o r authUser useRepo rp hns ho hr hcu hcr hget
    exact hrepo m w s1 o r "watches" authUser useRepo rp hns ho hr (by decide) hcu hcr hget
      (by rw [find_repoStatsMap]; simp [repoCounter])
  · intro m w w2 s1 u s authUser useRepo ident stats hs hns hu hcu hcr hget hstats
    refine huser m w w2 s1 u s authUser useRepo ident stats hns hu hcu hcr hget hstats ?_
    apply find_none_of_not_mem_keys
    intro hk
    have := userStats_keys c ident _ _ _ hstats s hk
    simp only [List.mem_cons, List.mem_singleton, List.not_mem_nil, or_false] at hs this
    rcases hs with e | e | e <;> subst e <;> simp at this
  · intro useRepo m o r s l l2 w w2 hns ho hr hs h
    exact concrete_repo_counter_step slug c collectionTime useRepo m o r s hns ho hr hs l l2 w w2 h
  · intro useRepo m u s l l2 w w2 hns hu h
    exact concrete_user_counter_step slug c collectionTime useRepo m u s hns hu l l2 w w2 h

/-- C18, worked example: `repo/acme/widget/watches` on a payload with 9 watchers gives the one
record with value `0`. -/
theorem absent_stat_is_emitted_as_zero_witness :
    gitStats slugMake
        (fixedClient (.error "unused") (.error "unused") (.error "unused")
          (.ok { WatchersCount := some 9 }) (.error "unused"))
        1 [{ Namespace_ := gsNs ["repo", "acme", "widget", "watches"] }] ⟨(), []⟩ =
      (.ok [counterRecord { Namespace_ := gsNs ["repo", "acme", "widget", "watches"] } 1 0
          (gsNs ["repo", "acme", slugMake "widget", "watches"])],
        ⟨(), [] ++ [⟨.getRepository "acme" "widget", .repo { WatchersCount := some 9 }⟩]⟩) :=
  (absent_stat_is_emitted_as_zero slugMake
    (fixedClient (.error "unused") (.error "unused") (.error "unused")
      (.ok { WatchersCount := some 9 }) (.error "unused")) 1).2.2.1
    { Namespace_ := gsNs ["repo", "acme", "widget", "watches"] } ⟨(), []⟩ () "acme" "widget"
    "" "" { WatchersCount := some 9 } rfl (by decide) (by decide) (by decide) (by decide) rfl

/-! ## C19: every counter lookup hits the initialised table -/

theorem has_of_shape (T : GoMap LabelMetric) (k : String)
    (h : (GoMap.find (shape T) k).isSome = true) : GoMap.has T k = true := by
  obtain ⟨lm, hf⟩ := find_isSome_of_shape T k h
  simp [GoMap.has, hf]

theorem tallyIssue_hits (slug : String → String) (T : GoMap LabelMetric) (i : Issue)
    (hstate : i.State = some "open" ∨ i.State = some "closed")
    (hlab : ∀ l ∈ i.Labels, ∃ n, l.Name = some n ∧ ∀ st, (st = "open" ∨ st = "closed") →
      (GoMap.find (shape T) (sprintfKey (slug n) st)).isSome = true)
    (hno : ∀ st, (st = "open" ∨ st = "closed") →
      (GoMap.find (shape T) (sprintfKey "NoLabel" st)).isSome = true) :
    ∃ T2, tallyIssue slug T i = .ok T2 ∧ shape T2 = shape T := by
  obtain ⟨st, hst, hoc⟩ : ∃ st, i.State = some st ∧ (st = "open" ∨ st = "closed") := by
    rcases hstate with h | h
    · exact ⟨_, h, Or.inl rfl⟩
    · exact ⟨_, h, Or.inr rfl⟩
  cases hL : i.Labels with
  | nil =>
    obtain ⟨lm, hf⟩ := find_isSome_of_shape _ _ (hno st hoc)
    obtain ⟨T2, hb, hs, _⟩ := bump_of_find T _ lm hf
    exact ⟨T2, by simp [tallyIssue, hL, hst, hb], hs⟩
  | cons l ls =>
    have hnamed : ∀ l2 ∈ l :: ls, ∃ n, l2.Name = some n ∧
        (GoMap.find (shape T) (sprintfKey (slug n) st)).isSome = true := by
      intro l2 hl2
      obtain ⟨n, hn, hk⟩ := hlab l2 (hL ▸ hl2)
      exact ⟨n, hn, hk st hoc⟩
    obtain ⟨T2, ht, hs, _⟩ := tallyLabels_counts slug st (l :: ls) T hnamed
    exact ⟨T2, by simp [tallyIssue, hL, hst, ht], hs⟩

theorem tallyIssues_hits (slug : String → String) (issues : List Issue) :
    ∀ T : GoMap LabelMetric,
      (∀ i ∈ issues, i.State = some "open" ∨ i.State = some "closed") →
      (∀ i ∈ issues, ∀ l ∈ i.Labels, ∃ n, l.Name = some n ∧ ∀ st, (st = "open" ∨ st = "closed") →
        (GoMap.find (shape T) (sprintfKey (slug n) st)).isSome = true) →
      (∀ st, (st = "open" ∨ st = "closed") →
        (GoMap.find (shape T) (sprintfKey "NoLabel" st)).isSome = true) →
      ∃ T2, tallyIssues slug T issues = .ok T2 ∧ shape T2 = shape T := by
  induction issues with
  | nil =>
    intro T _ _ _
    exact ⟨T, rfl, rfl⟩
  | cons i rest ih =>
    intro T hstate hlab hno
    obtain ⟨T1, h1, hs1⟩ := tallyIssue_hits slug T i
      (hstate i (List.mem_cons_self _ _)) (hlab i (List.mem_cons_self _ _)) hno
    obtain ⟨T2, h2, hs2⟩ := ih T1
      (fun j hj => hstate j (List.mem_cons_of_mem _ hj))
      (by rw [hs1]; exact fun j hj => hlab j (List.mem_cons_of_mem _ hj))
      (by rw [hs1]; exact hno)
    exact ⟨T2, by simp [tallyIssues, h1, h2], by rw [hs2, hs1]⟩

theorem noLabel_in_initialTable (T : GoMap LabelMetric) (st : String)
    (hst : st = "open" ∨ st = "closed") :
    GoMap.has (initialTable T) (sprintfKey "NoLabel" st) = true := by
  unfold initialTable
  rw [key_open, key_closed]
  rcases hst with e | e <;> subst e <;> simp [GoMap.has_put]

/-- C19: when every label of the repository has a name, every issue state is `open` or
`closed` and every label carried by an issue has a name whose slug is the slug of some label
of the repository, then every key looked up while tallying is a key of the initialised table
(so no increment meets a missing entry) and `collectIssueMetrics` returns records: no panic
and no error.  For an issue without labels the state assumption alone is enough: its one key
is in the initialised table whatever the labels are, and tallying it succeeds. -/
theorem collectIssueMetrics_lookups_hit (slug : String → String) (m : MetricType)
    (collectionTime : Nat) (owner repo : String) (labels : List Label) (issues : List Issue)
    (hnamed : ∀ lv ∈ labels, lv.Name ≠ none)
    (hstate : ∀ i ∈ issues, i.State = some "open" ∨ i.State = some "closed")
    (hlab : ∀ i ∈ issues, ∀ l ∈ i.Labels, ∃ L ∈ labelSlugs slug labels, l.Name.map slug = some L) :
    (∃ T0 ms, initLabelStats slug [] labels = .ok T0 ∧
        (∀ i ∈ issues, ∀ k ∈ lookupKeys slug i, GoMap.has (initialTable T0) k = true) ∧
        collectIssueMetrics slug m collectionTime owner repo labels issues = .ok ms) ∧
      ∀ (T : GoMap LabelMetric) (i : Issue), i.Labels = [] →
        (i.State = some "open" ∨ i.State = some "closed") →
        (∀ k ∈ lookupKeys slug i, GoMap.has (initialTable T) k = true) ∧
          ∃ T2, tallyIssue slug (initialTable T) i = .ok T2 := by
  constructor
  · have hnamed2 : ∀ lv ∈ labels, ∃ n, lv.Name = some n := by
      intro lv hlv
      cases hn : lv.Name with
      | none => exact absurd hn (hnamed lv hlv)
      | some n => exact ⟨n, rfl⟩
    obtain ⟨T0, h0⟩ := initLabelStats_ok slug labels hnamed2 []
    obtain ⟨hok, hmem, _⟩ := initTable_spec slug labels T0 h0
    have hlab2 : ∀ i ∈ issues, ∀ l ∈ i.Labels, ∃ n, l.Name = some n ∧
        ∀ st, (st = "open" ∨ st = "closed") →
          (GoMap.find (shape (initialTable T0)) (sprintfKey (slug n) st)).isSome = true := by
      intro i hi l hl
      obtain ⟨L, hL, hn⟩ := hlab i hi l hl
      cases hname : l.Name with
      | none => simp [hname] at hn
      | some n =>
        refine ⟨n, rfl, fun st hst => ?_⟩
        rw [hname] at hn
        simp only [Option.map_some', Option.some.injEq] at hn
        apply find_isSome_of_mem_shape _ _ (slug n) st
        exact (hmem _ _).2 ⟨List.mem_append_left _ (hn ▸ hL), hst⟩
    have hno : ∀ st, (st = "open" ∨ st = "closed") →
        (GoMap.find (shape (initialTable T0)) (sprintfKey "NoLabel" st)).isSome = true := by
      intro st hst
      apply find_isSome_of_mem_shape _ _ "NoLabel" st
      exact (hmem _ _).2 ⟨List.mem_append_right _ (List.mem_singleton_self _), hst⟩
    obtain ⟨T, h1, _⟩ := tallyIssues_hits slug issues _ hstate hlab2 hno
    refine ⟨T0, T.map fun kv => issueRecord m collectionTime owner repo kv.2, h0, ?_, ?_⟩
    · intro i hi k hk
      obtain ⟨st, hst, hoc⟩ : ∃ st, i.State = some st ∧ (st = "open" ∨ st = "closed") := by
        rcases hstate i hi with h | h
        · exact ⟨_, h, Or.inl rfl⟩
        · exact ⟨_, h, Or.inr rfl⟩
      unfold lookupKeys at hk
      cases hL : i.Labels with
      | nil =>
        rw [hL, hst] at hk
        simp only [List.mem_singleton] at hk
        rw [hk]
        exact has_of_shape _ _ (hno st hoc)
      | cons l ls =>
        rw [hL] at hk
        simp only [List.mem_filterMap] at hk
        obtain ⟨l2, hl2, hkey⟩ := hk
        obtain ⟨n, hn, hfind⟩ := hlab2 i hi l2 (hL ▸ hl2)
        rw [hn, hst] at hkey
        simp only [Option.some.injEq] at hkey
        rw [← hkey]
        exact has_of_shape _ _ (hfind st hoc)
    · unfold collectIssueMetrics
      rw [h0]
      dsimp only
      unfold initialTable at h1
      rw [h1]
  · intro T i hL hstate
    obtain ⟨st, hst, hoc⟩ : ∃ st, i.State = some st ∧ (st = "open" ∨ st = "closed") := by
      rcases hstate with h | h
      · exact ⟨_, h, Or.inl rfl⟩
      · exact ⟨_, h, Or.inr rfl⟩
    have hhas := noLabel_in_initialTable T st hoc
    constructor
    · intro k hk
      unfold lookupKeys at hk
      rw [hL, hst] at hk
      simp only [List.mem_singleton] at hk
      rw [hk]
      exact hhas
    · cases hf : GoMap.find (initialTable T) (sprintfKey "NoLabel" st) with
      | none => simp [GoMap.has, hf] at hhas
      | some lm =>
        obtain ⟨T2, hb, _, _⟩ := bump_of_find _ _ lm hf
        exact ⟨T2, by simp [tallyIssue, hL, hst, hb]⟩

/-- C19, worked example: labels `Bug` and `docs`; an open issue carrying `bug` and `Docs`, and a
closed issue without labels. -/
theorem collectIssueMetrics_lookups_hit_witness :
    ∃ T0 ms, initLabelStats slugMake [] [⟨some "Bug"⟩, ⟨some "docs"⟩] = .ok T0 ∧
      (∀ i ∈ ([⟨some "open", [⟨some "bug"⟩, ⟨some "Docs"⟩]⟩, ⟨some "closed", []⟩] : List Issue),
        ∀ k ∈ lookupKeys slugMake i, GoMap.has (initialTable T0) k = true) ∧
      collectIssueMetrics slugMake ⟨[], none, 0, 1, []⟩ 7 "acme" "widget"
        [⟨some "Bug"⟩, ⟨some "docs"⟩]
        [⟨some "open", [⟨some "bug"⟩, ⟨some "Docs"⟩]⟩, ⟨some "closed", []⟩] = .ok ms :=
  (collectIssueMetrics_lookups_hit slugMake ⟨[], none, 0, 1, []⟩ 7 "acme" "widget"
    [⟨some "Bug"⟩, ⟨some "docs"⟩]
    [⟨some "open", [⟨some "bug"⟩, ⟨some "Docs"⟩]⟩, ⟨some "closed", []⟩]
    (by decide) (by decide) (by decide)).1

/-- Outside the assumption a lookup does miss: an issue in the state `reopened` makes the
increment meet a missing entry, which is a panic. -/
theorem collectIssueMetrics_unknown_state_panics :
    collectIssueMetrics slugMake ⟨[], none, 0, 1, []⟩ 7 "acme" "widget" [⟨some "bug"⟩]
      [⟨some "reopened", [⟨some "bug"⟩]⟩] = .panic := by
  decide

end Gitstats
